import Mathlib

/-!
# Verification of the `neuralNetwork` package

Shallow embedding of `neural_network/loss.go` (losses, activations), of
`neural_network/multilayer_perceptron.go` (layer allocation, forward pass, backward
pass, training loop, constructors) and of the check made by `TestBayesianRidge` in
`linear_model/bayes_test.go`.

Conventions of the embedding.

* State that the source mutates in place (the regressor, its layers, the parameter
  buffer, the random source) is passed in and returned.
* `base.MatShuffle`, the method `GetUpdate` of the optimizer and the table
  `base.Solvers` are parameters of the definitions that call them.
* `float64` is idealised as exact arithmetic in a linear ordered field `α`
  (instantiate `α := ℚ` to run the definitions, `α := ℝ` for analysis).  Infinities and
  NaN are not modelled.  Rounding is modelled where the value of a result depends on it:
  the forward value of the cross-entropy loss is also given with every operation rounded
  (`crossEntropyLoss.LossRounded`), and `binary64` is the rounding of float64.
* The functions of Go's `math` package (`math.Log`, `math.Exp`, `math.Tanh`) are
  parameters of the definitions that call them.
* A Go panic is a failing result: `Except.error` with the panic message where the
  source builds one, `none` otherwise.
* Go `int` is modelled by `Int` without wrap-around: the sizes handled here are
  lengths of in-memory buffers.
-/

set_option autoImplicit false

namespace neuralNetwork

/-! ## Dense matrices (`gonum` `mat.Dense`) -/

/-- Row-major dense matrix: `data` holds the rows one after the other. -/
structure Dense (α : Type) where
  rows : Nat
  cols : Nat
  data : List α
deriving DecidableEq, Repr

variable {α : Type}

/-- Shape of a matrix, as returned by `Dims()`. -/
def Dense.Dims (m : Dense α) : Nat × Nat := (m.rows, m.cols)

/-- Entry `(i, j)` of a matrix, when the index is inside the matrix. -/
def Dense.At (m : Dense α) (i j : Nat) : Option α :=
  if i < m.rows ∧ j < m.cols then m.data[i * m.cols + j]? else none

/-- The matrix has exactly `rows * cols` stored entries. -/
def Dense.WellFormed (m : Dense α) : Prop := m.data.length = m.rows * m.cols

instance (m : Dense α) : Decidable m.WellFormed := by
  unfold Dense.WellFormed; infer_instance

/-- Elementwise image of a matrix, used to write `1 - Y`. -/
def Dense.map (f : α → α) (m : Dense α) : Dense α :=
  { m with data := m.data.map f }

/-! ## Elementwise matrix operators (`matx`) -/

/-- Modelled from the spec: `matx.SumApplied2`, whose file is not among the sources.
Given two matrices of identical shape it is the scalar sum of a binary function applied
elementwise; it fails when the shapes differ. -/
def matx.SumApplied2 [Zero α] [Add α] (A B : Dense α) (f : α → α → α) : Option α :=
  if A.rows = B.rows ∧ A.cols = B.cols then
    some (List.zipWith f A.data B.data).sum
  else none

/-- Modelled from the spec: `matx.CopyScaledApplied2`, whose file is not among the sources.
The receiver is overwritten with `scale` times the binary function's result on two
matrices of identical shape; it fails when the shapes differ. -/
def matx.CopyScaledApplied2 [Mul α] (G A B : Dense α) (scale : α) (f : α → α → α) :
    Option (Dense α) :=
  if A.rows = B.rows ∧ A.cols = B.cols ∧ G.rows = A.rows ∧ G.cols = A.cols then
    some { G with data := List.zipWith (fun a b => scale * f a b) A.data B.data }
  else none

/-- Modelled from the spec: `matx.CopyApplied`, whose file is not among the sources.
The receiver is overwritten with the unary function applied elementwise to a matrix of
the same shape; it fails when the shapes differ. -/
def matx.CopyApplied (G A : Dense α) (f : α → α) : Option (Dense α) :=
  if G.rows = A.rows ∧ G.cols = A.cols then
    some { G with data := A.data.map f }
  else none

/-- The `Copy` method of `mat.Dense`: copies the overlap of the two matrices into the
receiver, leaving the other entries of the receiver untouched. -/
def Dense.Copy [Inhabited α] (h z : Dense α) : Dense α :=
  { h with
    data := (List.range h.data.length).map fun k =>
      if h.cols ≠ 0 ∧ k / h.cols < z.rows ∧ k % h.cols < z.cols then
        z.data.getD (k / h.cols * z.cols + k % h.cols) (h.data.getD k default)
      else h.data.getD k default }

/-! ## Loss functions (`loss.go`) -/

section Losses

variable [LinearOrderedField α]

/-- Closure `Jfun` of `squareLoss.Loss`. -/
def squareLoss.Jfun (y h : α) : α :=
  let yd := h - y
  yd * yd / 2

/-- Closure passed to `CopyScaledApplied2` in `squareLoss.Loss`. -/
def squareLoss.Gfun (y h : α) : α := h - y

/-- The `Loss` method of `squareLoss`.  The result is the returned scalar and the new
content of `Grad` (`none` for a nil `Grad`). -/
def squareLoss.Loss (Ytrue Ypred : Dense α) (Grad : Option (Dense α)) :
    Option (α × Option (Dense α)) := do
  let nSamples := Ytrue.Dims.1
  let J ← matx.SumApplied2 Ytrue Ypred squareLoss.Jfun
  match Grad with
  | none => pure (J, none)
  | some G =>
    let G' ← matx.CopyScaledApplied2 G Ytrue Ypred (1 / (nSamples : α)) squareLoss.Gfun
    pure (J, some G')

/-- Closure `-y * math.Log(h)` of `logLoss.Loss`. -/
def logLoss.Jfun (Log : α → α) (y h : α) : α := -y * Log h

/-- Closure `Gfun` of `logLoss.Loss`. -/
def logLoss.Gfun (y h : α) : α := -y / h

/-- The `Loss` method of `logLoss`. -/
def logLoss.Loss (Log : α → α) (Ytrue Ypred : Dense α) (Grad : Option (Dense α)) :
    Option (α × Option (Dense α)) := do
  let nSamples := Ytrue.Dims.1
  let S ← matx.SumApplied2 Ytrue Ypred (logLoss.Jfun Log)
  let J := S / (nSamples : α)
  match Grad with
  | none => pure (J, none)
  | some G =>
    let G' ← matx.CopyScaledApplied2 G Ytrue Ypred (1 / (nSamples : α)) logLoss.Gfun
    pure (J, some G')

/-- The guard at the head of `Jfun` and of `Gfun` in `crossEntropyLoss.Loss`: the value
of the local `h` after `if h <= 0 { h = eps } else if h >= 1. { h = 1 - eps }`. -/
def crossEntropyLoss.guard (eps h : α) : α :=
  if h ≤ 0 then eps else if h ≥ 1 then 1 - eps else h

/-- The constant `eps := 1e-15` of `Jfun`. -/
def crossEntropyLoss.epsJ : α := 1 / 10 ^ 15

/-- The constant `eps := 1e-12` of `Gfun`. -/
def crossEntropyLoss.epsG : α := 1 / 10 ^ 12

/-- The forward term returned by `Jfun`, as a function of the guarded `h`. -/
def crossEntropyLoss.Jterm (Log : α → α) (y h : α) : α :=
  -y * Log h - (1 - y) * Log (1 - h)

/-- The gradient term returned by `Gfun`, as a function of the guarded `h`. -/
def crossEntropyLoss.Gterm (y h : α) : α :=
  -y / h + (1 - y) / (1 - h)

/-- Closure `Jfun` of `crossEntropyLoss.Loss`: guard `h`, then evaluate the term. -/
def crossEntropyLoss.Jfun (Log : α → α) (y h : α) : α :=
  crossEntropyLoss.Jterm Log y (crossEntropyLoss.guard crossEntropyLoss.epsJ h)

/-- Closure `Gfun` of `crossEntropyLoss.Loss`: guard `h`, then evaluate the term. -/
def crossEntropyLoss.Gfun (y h : α) : α :=
  crossEntropyLoss.Gterm y (crossEntropyLoss.guard crossEntropyLoss.epsG h)

/-- The `Loss` method of `crossEntropyLoss`. -/
def crossEntropyLoss.Loss (Log : α → α) (Ytrue Ypred : Dense α) (Grad : Option (Dense α)) :
    Option (α × Option (Dense α)) := do
  let nSamples := Ytrue.Dims.1
  let S ← matx.SumApplied2 Ytrue Ypred (crossEntropyLoss.Jfun Log)
  let J := S / (nSamples : α)
  match Grad with
  | none => pure (J, none)
  | some G =>
    let G' ← matx.CopyScaledApplied2 G Ytrue Ypred (1 / (nSamples : α)) crossEntropyLoss.Gfun
    pure (J, some G')

/-! ### The forward value of the cross-entropy loss with rounded operations

The relabelling `y ↦ 1 - y`, `h ↦ 1 - h` is the one place where the value of `J` depends
on the rounding of `1 - x`, so the closure `Jfun` and the scalar `J` are also given with
every float64 operation rounded: `fl` maps the real result of an operation to the float64
value that the operation returns.  With `fl := id` these are the definitions above. -/

/-- Modelled from the spec: `matx.SumApplied2`, whose file is not among the sources, with
float64 additions: the scalar sum is accumulated entry after entry from 0 and every
addition is rounded by `fl`; it fails when the shapes differ. -/
def matx.SumApplied2Rounded (fl : α → α) (A B : Dense α) (f : α → α → α) : Option α :=
  if A.rows = B.rows ∧ A.cols = B.cols then
    some ((List.zipWith f A.data B.data).foldl (fun s t => fl (s + t)) 0)
  else none

/-- The guard at the head of `Jfun` with float64 operations: `eps` is the float64 value of
the constant and `1 - eps` is a float64 subtraction. -/
def crossEntropyLoss.guardRounded (fl : α → α) (eps h : α) : α :=
  if h ≤ 0 then eps else if h ≥ 1 then fl (1 - eps) else h

/-- Closure `Jfun` of `crossEntropyLoss.Loss` with float64 operations: the constant
`1e-15` is rounded, and so is the result of each subtraction and each product of
`-y*math.Log(h) - (1.-y)*math.Log(1.-h)`, one operation at a time.  The sign change `-y`
is exact. -/
def crossEntropyLoss.JfunRounded (fl Log : α → α) (y h : α) : α :=
  let g := crossEntropyLoss.guardRounded fl (fl crossEntropyLoss.epsJ) h
  fl (fl (-y * Log g) - fl (fl (1 - y) * Log (fl (1 - g))))

/-- The scalar `J` returned by the `Loss` method of `crossEntropyLoss` with float64
operations; `J` does not depend on the `Grad` argument. -/
def crossEntropyLoss.LossRounded (fl Log : α → α) (Ytrue Ypred : Dense α) : Option α := do
  let nSamples := Ytrue.Dims.1
  let S ← matx.SumApplied2Rounded fl Ytrue Ypred (crossEntropyLoss.JfunRounded fl Log)
  pure (fl (S / fl (nSamples : α)))

end Losses

/-! ## Rounding to float64 -/

/-- Number of halvings that bring `n` below 2, which is `⌊log₂ n⌋` for `1 ≤ n ≤ fuel`. -/
def binary64.log2 : Nat → Nat → Nat
  | 0, _ => 0
  | fuel + 1, n => if n < 2 then 0 else binary64.log2 fuel (n / 2) + 1

/-- The power `2 ^ e` as a rational, for an exponent of either sign. -/
def binary64.pow2 (e : Int) : ℚ :=
  if 0 ≤ e then ((2 ^ e.toNat : Nat) : ℚ) else 1 / ((2 ^ (-e).toNat : Nat) : ℚ)

/-- The exponent `⌊log₂ x⌋` of a positive rational `x`. -/
def binary64.exponent (x : ℚ) : Int :=
  let n := x.num.toNat
  let e0 : Int := (binary64.log2 n n : Int) - (binary64.log2 x.den x.den : Int)
  if binary64.pow2 e0 ≤ x then e0 else e0 - 1

/-- Rounding of a rational to the nearest integer, a tie going to the even one. -/
def binary64.roundEven (m : ℚ) : Int :=
  let f := Rat.floor m
  let r := m - f
  if r < 1 / 2 then f else if 1 / 2 < r then f + 1 else if f % 2 = 0 then f else f + 1

/-- Rounding of a real result to float64 (IEEE 754 binary64, round to nearest, ties to
even): 53 significant bits, and below the exponent -1022 the spacing stays `2 ^ -1074`.
Overflow to an infinity is not modelled. -/
def binary64 (x : ℚ) : ℚ :=
  if x = 0 then 0
  else
    let q := binary64.pow2 (max (binary64.exponent |x|) (-1022) - 52)
    if x < 0 then -((binary64.roundEven (-x / q) : ℚ) * q)
    else (binary64.roundEven (x / q) : ℚ) * q

/-- The implementations of the `LossFunctions` interface. -/
inductive LossFunctions where
  | squareLoss
  | logLoss
  | crossEntropyLoss
deriving DecidableEq, Repr

/-- Method `Loss` of the `LossFunctions` interface. -/
def LossFunctions.Loss [LinearOrderedField α] (Log : α → α) :
    LossFunctions → Dense α → Dense α → Option (Dense α) → Option (α × Option (Dense α))
  | .squareLoss => neuralNetwork.squareLoss.Loss
  | .logLoss => neuralNetwork.logLoss.Loss Log
  | .crossEntropyLoss => neuralNetwork.crossEntropyLoss.Loss Log

/-- The registry `SupportedLoss`. -/
def SupportedLoss : List (String × LossFunctions) :=
  [("square", .squareLoss), ("log", .logLoss), ("cross-entropy", .crossEntropyLoss)]

/-- The function `NewLoss`: looks the name up in `SupportedLoss`, panics when absent. -/
def NewLoss (name : String) : Except String LossFunctions :=
  match SupportedLoss.lookup name with
  | some loss => .ok loss
  | none => .error ("loss " ++ name ++ " is unknown")

/-! ## Activation functions (`loss.go`) -/

section Activations

variable [LinearOrderedField α]

/-- Closure of `identityActivation.Grad`. -/
def identityActivation.gradFn (_h : α) : α := 1

/-- Elementwise action of `identityActivation.Func` (`h.Copy(z)`). -/
def identityActivation.fn (z : α) : α := z

/-- Closure of `logisticActivation.Func`. -/
def logisticActivation.fn (Exp : α → α) (z : α) : α := 1 / (1 + Exp (-z))

/-- Closure of `logisticActivation.Grad`. -/
def logisticActivation.gradFn (h : α) : α := h * (1 - h)

/-- Function applied by `tanhActivation.Func` (`math.Tanh`). -/
def tanhActivation.fn (Tanh : α → α) (z : α) : α := Tanh z

/-- Closure of `tanhActivation.Grad`. -/
def tanhActivation.gradFn (h : α) : α := 1 - h * h

/-- Closure of `reluActivation.Func` (`math.Max(0, z)`). -/
def reluActivation.fn (z : α) : α := max 0 z

/-- Closure of `reluActivation.Grad`. -/
def reluActivation.gradFn (h : α) : α := if h ≤ 0 then 0 else 1

/-- The `Func` method of `identityActivation`: the new content of `h`. -/
def identityActivation.Func [Inhabited α] (z h : Dense α) : Option (Dense α) :=
  some (h.Copy z)

/-- The `Grad` method of `identityActivation`: the new content of `grad`. -/
def identityActivation.Grad (_z h grad : Dense α) : Option (Dense α) :=
  matx.CopyApplied grad h identityActivation.gradFn

/-- The `Func` method of `logisticActivation`. -/
def logisticActivation.Func (Exp : α → α) (z h : Dense α) : Option (Dense α) :=
  matx.CopyApplied h z (logisticActivation.fn Exp)

/-- The `Grad` method of `logisticActivation`. -/
def logisticActivation.Grad (_z h grad : Dense α) : Option (Dense α) :=
  matx.CopyApplied grad h logisticActivation.gradFn

/-- The `Func` method of `tanhActivation`. -/
def tanhActivation.Func (Tanh : α → α) (z h : Dense α) : Option (Dense α) :=
  matx.CopyApplied h z (tanhActivation.fn Tanh)

/-- The `Grad` method of `tanhActivation`. -/
def tanhActivation.Grad (_z h grad : Dense α) : Option (Dense α) :=
  matx.CopyApplied grad h tanhActivation.gradFn

/-- The `Func` method of `reluActivation`. -/
def reluActivation.Func (z h : Dense α) : Option (Dense α) :=
  matx.CopyApplied h z reluActivation.fn

/-- The `Grad` method of `reluActivation`. -/
def reluActivation.Grad (_z h grad : Dense α) : Option (Dense α) :=
  matx.CopyApplied grad h reluActivation.gradFn

end Activations

/-- The implementations of the `ActivationFunctions` interface. -/
inductive ActivationFunctions where
  | identityActivation
  | logisticActivation
  | tanhActivation
  | reluActivation
deriving DecidableEq, Repr

/-- Method `Func` of the `ActivationFunctions` interface. -/
def ActivationFunctions.Func [LinearOrderedField α] [Inhabited α] (Exp Tanh : α → α) :
    ActivationFunctions → Dense α → Dense α → Option (Dense α)
  | .identityActivation => neuralNetwork.identityActivation.Func
  | .logisticActivation => neuralNetwork.logisticActivation.Func Exp
  | .tanhActivation => neuralNetwork.tanhActivation.Func Tanh
  | .reluActivation => neuralNetwork.reluActivation.Func

/-- Method `Grad` of the `ActivationFunctions` interface. -/
def ActivationFunctions.Grad [LinearOrderedField α] :
    ActivationFunctions → Dense α → Dense α → Dense α → Option (Dense α)
  | .identityActivation => neuralNetwork.identityActivation.Grad
  | .logisticActivation => neuralNetwork.logisticActivation.Grad
  | .tanhActivation => neuralNetwork.tanhActivation.Grad
  | .reluActivation => neuralNetwork.reluActivation.Grad

/-- The scalar closure that `Func` applies to every entry of `z`. -/
def ActivationFunctions.fn [LinearOrderedField α] (Exp Tanh : α → α) :
    ActivationFunctions → α → α
  | .identityActivation => neuralNetwork.identityActivation.fn
  | .logisticActivation => neuralNetwork.logisticActivation.fn Exp
  | .tanhActivation => neuralNetwork.tanhActivation.fn Tanh
  | .reluActivation => neuralNetwork.reluActivation.fn

/-- The scalar closure that `Grad` applies to every entry of `h`. -/
def ActivationFunctions.gradFn [LinearOrderedField α] : ActivationFunctions → α → α
  | .identityActivation => neuralNetwork.identityActivation.gradFn
  | .logisticActivation => neuralNetwork.logisticActivation.gradFn
  | .tanhActivation => neuralNetwork.tanhActivation.gradFn
  | .reluActivation => neuralNetwork.reluActivation.gradFn

/-- The registry `SupportedActivations`. -/
def SupportedActivations : List (String × ActivationFunctions) :=
  [("identity", .identityActivation), ("logistic", .logisticActivation),
   ("tanh", .tanhActivation), ("relu", .reluActivation)]

/-- The function `NewActivation`: looks the name up in `SupportedActivations`, panics
when absent. -/
def NewActivation (name : String) : Except String ActivationFunctions :=
  match SupportedActivations.lookup name with
  | some activation => .ok activation
  | none => .error ("unknown activation " ++ name)

/-! ## Layers and their allocation (`multilayer_perceptron.go`) -/

/-- A Go slice of the flat parameter buffer: the window `[off, off + len)` of the
backing array. -/
structure Slice where
  off : Int
  len : Int
deriving DecidableEq, Repr

/-- The slice expression `s[lo:hi]` on a slice that starts at offset 0 of its backing
array and has capacity `cap`; out-of-range bounds panic. -/
def Slice.sub (cap lo hi : Int) : Option Slice :=
  if 0 ≤ lo ∧ lo ≤ hi ∧ hi ≤ cap then some { off := lo, len := hi - lo } else none

/-- The expression `make([]float64, n, n)`: a zeroed buffer, a panic for negative `n`. -/
def makeSlice [Zero α] (n : Int) : Option (List α) :=
  if 0 ≤ n then some (List.replicate n.toNat 0) else none

/-- A `mat.Dense` whose entries are stored in a window of the flat parameter buffer. -/
structure ThetaView where
  rows : Int
  cols : Int
  region : Slice
deriving DecidableEq, Repr

/-- The function `mat.NewDense(r, c, data)` for non-nil `data`: panics on a negative
dimension and when `r*c` differs from `len(data)`.  Releases of the matrix library differ
on empty matrices: `zeroOK = false` is the behaviour of those that also panic when a
dimension is zero. -/
def NewDense (zeroOK : Bool) (r c : Int) (data : Slice) : Option ThetaView :=
  if r < 0 ∨ c < 0 then none
  else if ¬ zeroOK ∧ (r = 0 ∨ c = 0) then none
  else if r * c ≠ data.len then none
  else some { rows := r, cols := c, region := data }

/-- Successive results of `n` calls of the random source `rnd`, with its final state. -/
def drawN {σ : Type} (rnd : σ → α × σ) : Nat → σ → List α × σ
  | 0, s => ([], s)
  | n + 1, s => ((rnd s).1 :: (drawN rnd n (rnd s).2).1, (drawN rnd n (rnd s).2).2)

/-- Store `xs` in the buffer from position `off` on. -/
def writeAt (buf : List α) (off : Nat) (xs : List α) : List α :=
  buf.take off ++ xs ++ buf.drop (off + xs.length)

/-- The struct `Layer`; a nil matrix or slice is `none`. -/
structure Layer (α Opt : Type) where
  Activation : String
  Ytrue : Option (Dense α) := none
  Z : Option (Dense α) := none
  Ypred : Option (Dense α) := none
  Ydiff : Option (Dense α) := none
  Hgrad : Option (Dense α) := none
  slicesYtrue : Option (List α) := none
  slicesZ : Option (List α) := none
  slicesYpred : Option (List α) := none
  slicesYdiff : Option (List α) := none
  slicesHgrad : Option (List α) := none
  Theta : ThetaView
  Grad : Option (Dense α) := none
  Update : Option (Dense α) := none
  Optimizer : Opt

/-- The function `NewLayer`: builds `Theta` on the given window of the parameter buffer
`mem` and fills it, row by row, with draws of `rnd`.  Returns the layer, the buffer and
the state of the random source. -/
def NewLayer {Opt σ : Type} (zeroOK : Bool) (inputs outputs : Int) (activation : String)
    (optimizer : Opt) (mem : List α) (thetaSlice : Slice) (rnd : σ → α × σ) (s : σ) :
    Option (Layer α Opt × List α × σ) :=
  match NewDense zeroOK inputs outputs thetaSlice with
  | none => none
  | some Theta =>
    let drawn := drawN rnd (Theta.rows * Theta.cols).toNat s
    some ({ Activation := activation, Theta := Theta, Optimizer := optimizer },
      writeAt mem Theta.region.off.toNat drawn.1, drawn.2)

/-- The struct `MLPRegressor`; a nil `Optimizer` creator is `none`. -/
structure MLPRegressor (α Opt : Type) where
  Optimizer : Option (Unit → Opt)
  LossName : String
  Activation : String
  HiddenLayerSizes : List Int
  Layers : List (Layer α Opt)
  Alpha : α
  L1Ratio : α
  GradientClipping : α
  Epochs : Int
  MiniBatchSize : Int
  Loss : String
  thetaSlice : List α
  JFirst : α
  J : α

/-- First loop of `allocLayers`: from `(thetaLen, prevOutputs)` on entry to their values
after the remaining hidden sizes. -/
def allocLayers.sizeLoop : List Int → Int → Int → Int × Int
  | [], thetaLen, prevOutputs => (thetaLen, prevOutputs)
  | outputs :: rest, thetaLen, prevOutputs =>
    allocLayers.sizeLoop rest (thetaLen + (1 + prevOutputs) * outputs) outputs

/-- Second loop of `allocLayers`: one `NewLayer` per remaining hidden size.  The state is
the regressor, `thetaOffset`, `prevOutputs` and the state of the random source. -/
def allocLayers.layerLoop {Opt σ : Type} (zeroOK : Bool) (rnd : σ → α × σ) :
    List Int → MLPRegressor α Opt → Int → Int → σ → Option (MLPRegressor α Opt × Int × Int × σ)
  | [], regr, thetaOffset, prevOutputs, s => some (regr, thetaOffset, prevOutputs, s)
  | outputs :: rest, regr, thetaOffset, prevOutputs, s =>
    let thetaLen1 := (1 + prevOutputs) * outputs
    match regr.Optimizer with
    | none => none
    | some creator =>
      match Slice.sub regr.thetaSlice.length thetaOffset (thetaOffset + thetaLen1) with
      | none => none
      | some window =>
        match NewLayer zeroOK (1 + prevOutputs) outputs regr.Activation (creator ())
            regr.thetaSlice window rnd s with
        | none => none
        | some (L, mem, s1) =>
          allocLayers.layerLoop zeroOK rnd rest
            { regr with Layers := regr.Layers ++ [L], thetaSlice := mem }
            (thetaOffset + thetaLen1) outputs s1

/-- The method `allocLayers`.  Returns the regressor and the state of the random source,
`none` when the source panics. -/
def allocLayers {Opt σ : Type} [Zero α] (zeroOK : Bool) (regr : MLPRegressor α Opt)
    (nFeatures nOutputs : Int) (rnd : σ → α × σ) (s : σ) : Option (MLPRegressor α Opt × σ) :=
  let sized := allocLayers.sizeLoop regr.HiddenLayerSizes 0 nFeatures
  let thetaLen := sized.1 + (1 + sized.2) * nOutputs
  match makeSlice thetaLen with
  | none => none
  | some buf =>
    match allocLayers.layerLoop zeroOK rnd regr.HiddenLayerSizes
        { regr with Layers := [], thetaSlice := buf } 0 nFeatures s with
    | none => none
    | some (regr1, thetaOffset, prevOutputs, s1) =>
      let lastActivation :=
        if regr1.LossName = "cross-entropy" ∨ regr1.LossName = "log" then "logistic"
        else regr1.Activation
      let thetaLen1 := (1 + prevOutputs) * nOutputs
      match regr1.Optimizer with
      | none => none
      | some creator =>
        match Slice.sub regr1.thetaSlice.length thetaOffset (thetaOffset + thetaLen1) with
        | none => none
        | some window =>
          match NewLayer zeroOK (1 + prevOutputs) nOutputs lastActivation (creator ())
              regr1.thetaSlice window rnd s1 with
          | none => none
          | some (L, mem, s2) =>
            some ({ regr1 with Layers := regr1.Layers ++ [L], thetaSlice := mem }, s2)

/-- The views that consecutive layers with output counts `outs` receive when the first
one starts at offset `off` of the parameter buffer and has `prev` inputs.  Used to
describe the result of `allocLayers` in the proofs. -/
def layout : Int → Int → List Int → List ThetaView
  | _, _, [] => []
  | off, prev, o :: rest =>
    { rows := 1 + prev, cols := o, region := { off := off, len := (1 + prev) * o } } ::
      layout (off + (1 + prev) * o) o rest

/-! ## Matrix operations of the matrix library used by the perceptron -/

section MatrixOps

variable [LinearOrderedField α]

/-- Entry `(i, j)` of a matrix as a number (0 outside the stored entries). -/
def Dense.get (m : Dense α) (i j : Nat) : α := m.data.getD (i * m.cols + j) 0

/-- The `r` by `c` matrix whose entry `(i, j)` is `f i j`. -/
def Dense.ofFn (r c : Nat) (f : Nat → Nat → α) : Dense α :=
  { rows := r, cols := c, data := (List.range (r * c)).map fun k => f (k / c) (k % c) }

/-- The call `mat.NewDense(r, c, nil)`: a zeroed matrix; `zeroOK = false` is the behaviour
of the releases that panic when a dimension is zero. -/
def NewDenseNil (zeroOK : Bool) (r c : Nat) : Option (Dense α) :=
  if ¬ zeroOK ∧ (r = 0 ∨ c = 0) then none
  else some { rows := r, cols := c, data := List.replicate (r * c) 0 }

/-- The method `T()`: the transpose. -/
def Dense.T (m : Dense α) : Dense α := Dense.ofFn m.cols m.rows fun i j => m.get j i

/-- The method `Mul(a, b)`: the receiver, which must have the shape of the product,
receives `a * b`; a mismatch of dimensions panics. -/
def Dense.Mul (recv a b : Dense α) : Option (Dense α) :=
  if a.cols = b.rows ∧ recv.rows = a.rows ∧ recv.cols = b.cols then
    some (Dense.ofFn a.rows b.cols fun i j =>
      ((List.range a.cols).map fun k => a.get i k * b.get k j).sum)
  else none

/-- Elementwise operation into a receiver of the shape of both operands, the common
scheme of `Add`, `Sub` and `MulElem`; a mismatch of dimensions panics. -/
def Dense.elementwise (op : α → α → α) (recv a b : Dense α) : Option (Dense α) :=
  if a.rows = b.rows ∧ a.cols = b.cols ∧ recv.rows = a.rows ∧ recv.cols = a.cols then
    some { recv with data := List.zipWith op a.data b.data }
  else none

/-- The method `Add(a, b)`. -/
def Dense.Add (recv a b : Dense α) : Option (Dense α) :=
  Dense.elementwise (fun x y => x + y) recv a b

/-- The method `Sub(a, b)`. -/
def Dense.Sub (recv a b : Dense α) : Option (Dense α) :=
  Dense.elementwise (fun x y => x - y) recv a b

/-- The method `MulElem(a, b)`. -/
def Dense.MulElem (recv a b : Dense α) : Option (Dense α) :=
  Dense.elementwise (fun x y => x * y) recv a b

/-- The method `Scale(f, a)`: the receiver, of the shape of `a`, receives `f * a`. -/
def Dense.Scale (recv : Dense α) (f : α) (a : Dense α) : Option (Dense α) :=
  if recv.rows = a.rows ∧ recv.cols = a.cols then
    some { recv with data := a.data.map fun x => f * x }
  else none

/-- The function `mat.Sum`: the sum of the entries. -/
def mat.Sum (m : Dense α) : α := m.data.sum

/-- The function `mat.Norm(m, 2)`: the Frobenius norm, the square root of the sum of the
squares of the entries; `Sqrt` stands for `math.Sqrt`. -/
def mat.Norm2 (Sqrt : α → α) (m : Dense α) : α := Sqrt (m.data.map fun x => x * x).sum

/-- The method `Slice(i, k, j, l)`: rows `i` to `k - 1` and columns `j` to `l - 1`; an
index out of range or an empty range panics. -/
def Dense.Slice (m : Dense α) (i k j l : Int) : Option (Dense α) :=
  if i < 0 ∨ (m.rows : Int) ≤ i ∨ j < 0 ∨ (m.cols : Int) ≤ j ∨ k ≤ i ∨ (m.rows : Int) < k ∨
      l ≤ j ∨ (m.cols : Int) < l then none
  else some (Dense.ofFn (k - i).toNat (l - j).toNat fun a b => m.get (i.toNat + a) (j.toNat + b))

/-- Modelled from the spec: `onesAddedMat`, whose file is not among the sources.  The
matrix `[1 | X]`: the added leading column of ones realizes the bias row. -/
def onesAddedMat (X : Dense α) : Dense α :=
  Dense.ofFn X.rows (1 + X.cols) fun i j => if j = 0 then 1 else X.get i (j - 1)

/-- Modelled from the spec: `MatFirstColumnRemoved`, whose file is not among the sources.
The matrix without its first column (the transposed `Theta` without its bias row). -/
def MatFirstColumnRemoved (M : Dense α) : Dense α :=
  Dense.ofFn M.rows (M.cols - 1) fun i j => M.get i (j + 1)

/-- Modelled from the spec: `base.MatFirstRowZeroed`, whose file is not among the sources.
The matrix with row 0 zeroed (`ThetaReg`). -/
def MatFirstRowZeroed (M : Dense α) : Dense α :=
  Dense.ofFn M.rows M.cols fun i j => if i = 0 then 0 else M.get i j

/-- Modelled from the spec: `matApply`, whose file is not among the sources.  The matrix of
the images of the entries by `Func`. -/
def matApply (M : Dense α) (Func : α → α) : Dense α :=
  { M with data := M.data.map Func }

/-- Modelled from the spec: `matScale`, whose file is not among the sources.  The matrix
`Scale * M`. -/
def matScale (M : Dense α) (Scale : α) : Dense α :=
  { M with data := M.data.map fun x => x * Scale }

/-- Modelled from the spec: `matMulElem`, whose file is not among the sources.  The
elementwise product of two matrices, with the shape of `A`. -/
def matMulElem (A B : Dense α) : Dense α :=
  Dense.ofFn A.rows A.cols fun i j => A.get i j * B.get i j

/-- The function `sgn`. -/
def sgn (x : α) : α :=
  if x > 0 then 1
  else if x < 0 then -1
  else 0

/-- The function `panicIfNaN`: in exact arithmetic no value is NaN. -/
def panicIfNaN (v : α) : α := v

end MatrixOps

/-! ## Forward and backward pass (`multilayer_perceptron.go`) -/

section Perceptron

variable [LinearOrderedField α] {Opt : Type}

/-- The matrix `Theta` of a layer, read in its window of the parameter buffer. -/
def ThetaView.read (v : ThetaView) (mem : List α) : Dense α :=
  { rows := v.rows.toNat, cols := v.cols.toNat,
    data := (mem.drop v.region.off.toNat).take v.region.len.toNat }

/-- The parameter buffer after the entries of `Theta` have been replaced by those of
`m`. -/
def ThetaView.write (v : ThetaView) (mem : List α) (m : Dense α) : List α :=
  writeAt mem v.region.off.toNat m.data

/-- The method `Init` of `Layer`: allocates `Grad` and `Update`. -/
def Layer.Init (zeroOK : Bool) (L : Layer α Opt) (_nSamples nInputs : Nat) :
    Option (Layer α Opt) :=
  let nOutputs := L.Theta.cols.toNat
  match NewDenseNil (α := α) zeroOK (1 + nInputs) nOutputs with
  | none => none
  | some G =>
    match NewDenseNil (α := α) zeroOK (1 + nInputs) nOutputs with
    | none => none
    | some U => some { L with Grad := some G, Update := some U }

/-- The closure `mk` of `initOutputs` on one scratch buffer: `s` is the backing array of
the slice (its length is the capacity) and `m` the matrix built on it.  The matrix shares
the memory of the slice, so the current content of the backing array is the data of the
matrix followed by the rest of the array.  When the capacity suffices the array is kept,
with its content; otherwise a zeroed array is made. -/
def Layer.initOutputs.mk (zeroOK : Bool) (size nSamples nOutputs : Nat)
    (s : Option (List α)) (m : Option (Dense α)) : Option (List α × Dense α) :=
  let backing : Option (List α) :=
    match s, m with
    | some b, some M => some (M.data ++ b.drop M.data.length)
    | some b, none => some b
    | none, _ => none
  let s1 : List α :=
    match backing with
    | some b => if b.length < size then List.replicate size 0 else b
    | none => List.replicate size 0
  if ¬ zeroOK ∧ (nSamples = 0 ∨ nOutputs = 0) then none
  else some (s1, { rows := nSamples, cols := nOutputs, data := s1.take size })

/-- The method `initOutputs` of `Layer`: the five scratch buffers are resliced, or made
anew when their capacity is too small, for `nSamples * nOutputs` entries. -/
def Layer.initOutputs (zeroOK : Bool) (L : Layer α Opt) (nSamples nOutputs : Nat) :
    Option (Layer α Opt) :=
  let size := nSamples * nOutputs
  match Layer.initOutputs.mk zeroOK size nSamples nOutputs L.slicesZ L.Z,
    Layer.initOutputs.mk zeroOK size nSamples nOutputs L.slicesHgrad L.Hgrad,
    Layer.initOutputs.mk zeroOK size nSamples nOutputs L.slicesYpred L.Ypred,
    Layer.initOutputs.mk zeroOK size nSamples nOutputs L.slicesYtrue L.Ytrue,
    Layer.initOutputs.mk zeroOK size nSamples nOutputs L.slicesYdiff L.Ydiff with
  | some z, some hg, some yp, some yt, some yd =>
    some { L with
      slicesZ := some z.1, Z := some z.2,
      slicesHgrad := some hg.1, Hgrad := some hg.2,
      slicesYpred := some yp.1, Ypred := some yp.2,
      slicesYtrue := some yt.1, Ytrue := some yt.2,
      slicesYdiff := some yd.1, Ydiff := some yd.2 }
  | _, _, _, _, _ => none

/-- Body of the loop of `predictZH` for the layer of index `l`: returns the layers and the
content of the output argument `Z`. -/
def predictZH.layer [Inhabited α] (zeroOK : Bool) (Exp Tanh : α → α)
    (regr : MLPRegressor α Opt) (Layers : List (Layer α Opt)) (X : Dense α)
    (Z : Option (Dense α)) (l : Nat) : Option (List (Layer α Opt) × Option (Dense α)) := do
  let nSamples := X.Dims.1
  let outputLayer : Int := (Layers.length : Int) - 1
  let L ← Layers[l]?
  let Xl ← if l = 0 then some X else (Layers[l - 1]?).bind fun P => P.Ypred
  let L1 ← if L.Ypred.isNone then Layer.Init zeroOK L Xl.Dims.1 Xl.Dims.2 else some L
  let nOutputs := (L1.Theta.read regr.thetaSlice).Dims.2
  let L2 ← Layer.initOutputs zeroOK L1 nSamples nOutputs
  let Z0 ← L2.Z
  let Ypred0 ← L2.Ypred
  let Z1 ← Z0.Mul (onesAddedMat Xl) (L2.Theta.read regr.thetaSlice)
  let Zout := if (l : Int) = outputLayer then Z.map fun z => z.Copy Z1 else Z
  let activation ← (NewActivation L2.Activation).toOption
  let Ypred1 ← activation.Func Exp Tanh Z1 Ypred0
  let Ypred2 := { Ypred1 with data := Ypred1.data.map panicIfNaN }
  pure (Layers.set l { L2 with Z := some Z1, Ypred := some Ypred2 }, Zout)

/-- The loop of `predictZH`: `n` layers remain, starting with the layer of index `l`. -/
def predictZH.loop [Inhabited α] (zeroOK : Bool) (Exp Tanh : α → α)
    (regr : MLPRegressor α Opt) (X : Dense α) :
    Nat → Nat → List (Layer α Opt) → Option (Dense α) →
      Option (List (Layer α Opt) × Option (Dense α))
  | 0, _, Layers, Z => some (Layers, Z)
  | n + 1, l, Layers, Z =>
    match predictZH.layer zeroOK Exp Tanh regr Layers X Z l with
    | none => none
    | some r => predictZH.loop zeroOK Exp Tanh regr X n (l + 1) r.1 r.2

/-- The method `predictZH`: the forward pass.  Returns the regressor and the contents of
the output arguments `Z` and `Y` (`none` for a nil argument). -/
def predictZH [Inhabited α] (zeroOK : Bool) (Exp Tanh : α → α) (regr : MLPRegressor α Opt)
    (X : Dense α) (Z Y : Option (Dense α)) (_fitting : Bool) :
    Option (MLPRegressor α Opt × Option (Dense α) × Option (Dense α)) :=
  match predictZH.loop zeroOK Exp Tanh regr X regr.Layers.length 0 regr.Layers Z with
  | none => none
  | some r =>
    match Y with
    | none => some ({ regr with Layers := r.1 }, r.2, none)
    | some Y0 =>
      match (r.1[r.1.length - 1]?).bind fun L => L.Ypred with
      | none => none
      | some Ypred => some ({ regr with Layers := r.1 }, r.2, some (Y0.Copy Ypred))

/-- Regularization block of `backprop`, entered when `Alpha > 0`: the new content of
`Grad` and the value `R` that is added to `J`. -/
def backprop.regularize (Alpha L1Ratio : α) (nSamples : Nat) (Theta Grad : Dense α) :
    Option (Dense α × α) := do
  let ThetaReg := MatFirstRowZeroed Theta
  let R0 : α := 0
  let r1 ← if L1Ratio > 0 then
      (Grad.Add Grad (matScale (matApply ThetaReg sgn) (Alpha / (nSamples : α)))).map fun G =>
        (G, R0 + Alpha * L1Ratio / (nSamples : α) * mat.Sum (matApply ThetaReg fun x => |x|))
    else some (Grad, R0)
  if L1Ratio < 1 then
    (r1.1.Add r1.1 (matScale ThetaReg (Alpha / (nSamples : α)))).map fun G =>
      (G, r1.2 + Alpha * (1 - L1Ratio) / 2 / (nSamples : α) *
        mat.Sum (matMulElem ThetaReg ThetaReg))
  else some r1

/-- Gradient clipping block of `backprop`: the new content of `Grad`. -/
def backprop.clip (Sqrt : α → α) (GradientClipping : α) (Grad : Dense α) :
    Option (Dense α) :=
  if GradientClipping > 0 then
    let GNorm := mat.Norm2 Sqrt Grad
    if GNorm > GradientClipping then Grad.Scale (GradientClipping / GNorm) Grad
    else some Grad
  else some Grad

/-- Block of `backprop` that computes the loss and the delta of a layer: the call of
`Loss` writes `Ydiff`, the call of `Grad` writes `Hgrad`, and `Ydiff` is multiplied
elementwise by `Hgrad`.  Returns the loss, `Ydiff` and `Hgrad`. -/
def backprop.delta (Log : α → α) (lossName activation : String)
    (Ytrue Ypred Ydiff Z Hgrad : Dense α) : Option (α × Dense α × Dense α) := do
  let loss ← (NewLoss lossName).toOption
  let r ← loss.Loss Log Ytrue Ypred (some Ydiff)
  let Ydiff1 ← r.2
  let act ← (NewActivation activation).toOption
  let Hgrad1 ← act.Grad Z Ypred Hgrad
  let Ydiff2 ← Ydiff1.MulElem Ydiff1 Hgrad1
  pure (r.1, Ydiff2, Hgrad1)

/-- Block of `backprop` that fills `Ytrue` and `Ydiff` before the loss is computed: for
the output layer `Ytrue` is a copy of `Y` and `Ydiff` is `Ypred - Y`; for another layer
the delta of the next layer is propagated back through its weights, multiplied
elementwise by `Hgrad`, and `Ytrue` is `Ypred - Ydiff`.  Returns `Ytrue` and `Ydiff`. -/
def backprop.residual [Inhabited α] (regr : MLPRegressor α Opt) (Y : Dense α) (l : Nat)
    (Ytrue0 Ypred Ydiff0 Hgrad0 : Dense α) : Option (Dense α × Dense α) :=
  if (l : Int) = (regr.Layers.length : Int) - 1 then
    (Ydiff0.Sub Ypred Y).map fun Ydiff1 => (Ytrue0.Copy Y, Ydiff1)
  else do
    let nextLayer ← regr.Layers[l + 1]?
    let nextYdiff ← nextLayer.Ydiff
    let Ydiff1 ← Ydiff0.Mul nextYdiff
      (MatFirstColumnRemoved (nextLayer.Theta.read regr.thetaSlice).T)
    let Ydiff2 ← Ydiff1.MulElem Ydiff1 Hgrad0
    let Ytrue1 ← Ytrue0.Sub Ypred Ydiff2
    pure (Ytrue1, Ydiff2)

/-- Block of `backprop` that computes the gradient of a layer from its input `Xl` and
its delta `Ydiff`: the product, the regularization when `Alpha > 0`, the clipping.
Returns `Grad` and the loss. -/
def backprop.gradient (Sqrt : α → α) (regr : MLPRegressor α Opt)
    (Xl Theta Grad0 Ydiff : Dense α) (J1 : α) : Option (Dense α × α) := do
  let Grad1 ← Grad0.Mul (onesAddedMat Xl).T Ydiff
  let g ← if regr.Alpha > 0 then
      backprop.regularize regr.Alpha regr.L1Ratio Xl.Dims.1 Theta Grad1
    else some (Grad1, 0)
  let J2 := if regr.Alpha > 0 then J1 + g.2 else J1
  let Grad3 ← backprop.clip Sqrt regr.GradientClipping g.1
  pure (Grad3, J2)

/-- Body of the loop of `backprop` for the layer of index `l`; `J` is the loss so far.
`getUpdate` stands for the method `GetUpdate` of the optimizer of the layer: from the
optimizer, `Update` and `Grad` to the optimizer and the new content of `Update`.  Returns
the layer, the parameter buffer and the loss. -/
def backprop.layerCore [Inhabited α] (Log Sqrt : α → α)
    (getUpdate : Opt → Dense α → Dense α → Opt × Dense α)
    (regr : MLPRegressor α Opt) (X Y : Dense α) (l : Nat) (J : α) :
    Option (Layer α Opt × List α × α) := do
  let nOutputs := Y.Dims.2
  let outputLayer : Int := (regr.Layers.length : Int) - 1
  let L ← regr.Layers[l]?
  let Xl ← if l = 0 then some X else (regr.Layers[l - 1]?).bind fun P => P.Ypred
  let Ytrue0 ← L.Ytrue
  let Ypred ← L.Ypred
  let Ydiff0 ← L.Ydiff
  let Hgrad0 ← L.Hgrad
  let Grad0 ← L.Grad
  let Update0 ← L.Update
  let Theta := L.Theta.read regr.thetaSlice
  let d ← backprop.residual regr Y l Ytrue0 Ypred Ydiff0 Hgrad0
  let lastLoss :=
    if (l : Int) = outputLayer then
      if regr.Loss = "log" ∧ nOutputs = 1 then "cross-entropy" else regr.Loss
    else "square"
  let r ← backprop.delta Log lastLoss L.Activation d.1 Ypred d.2
    (L.Z.getD { rows := 0, cols := 0, data := [] }) Hgrad0
  let J1 := if (l : Int) = outputLayer then r.1 else J
  let g ← backprop.gradient Sqrt regr Xl Theta Grad0 r.2.1 J1
  let u := getUpdate L.Optimizer Update0 g.1
  let Theta1 ← Theta.Add Theta u.2
  pure ({ L with
      Ytrue := some d.1, Ydiff := some r.2.1, Hgrad := some r.2.2, Grad := some g.1,
      Update := some u.2, Optimizer := u.1 },
    L.Theta.write regr.thetaSlice Theta1, g.2)

/-- One iteration of the loop of `backprop`: the layer of index `l` and the parameter
buffer are replaced in the regressor. -/
def backprop.layer [Inhabited α] (Log Sqrt : α → α)
    (getUpdate : Opt → Dense α → Dense α → Opt × Dense α)
    (regr : MLPRegressor α Opt) (X Y : Dense α) (l : Nat) (J : α) :
    Option (MLPRegressor α Opt × α) :=
  (backprop.layerCore Log Sqrt getUpdate regr X Y l J).map fun r =>
    ({ regr with Layers := regr.Layers.set l r.1, thetaSlice := r.2.1 }, r.2.2)

/-- The loop of `backprop`: the layers of index `n - 1` down to 0. -/
def backprop.loop [Inhabited α] (Log Sqrt : α → α) (getUpdate : Opt → Dense α → Dense α → Opt × Dense α)
    (X Y : Dense α) : Nat → MLPRegressor α Opt → α → Option (MLPRegressor α Opt × α)
  | 0, regr, J => some (regr, J)
  | n + 1, regr, J =>
    match backprop.layer Log Sqrt getUpdate regr X Y n J with
    | none => none
    | some r => backprop.loop Log Sqrt getUpdate X Y n r.1 r.2

/-- The method `backprop`: corrects the weights, returns the loss `J`. -/
def backprop [Inhabited α] (Log Sqrt : α → α) (getUpdate : Opt → Dense α → Dense α → Opt × Dense α)
    (regr : MLPRegressor α Opt) (X Y : Dense α) : Option (MLPRegressor α Opt × α) :=
  backprop.loop Log Sqrt getUpdate X Y regr.Layers.length regr 0

/-- The method `fitMiniBatch`: one forward pass, then one backward pass. -/
def fitMiniBatch [Inhabited α] (zeroOK : Bool) (Exp Tanh Log Sqrt : α → α)
    (getUpdate : Opt → Dense α → Dense α → Opt × Dense α)
    (regr : MLPRegressor α Opt) (X Y : Dense α) (_epoch : Int) :
    Option (MLPRegressor α Opt × α) :=
  match predictZH zeroOK Exp Tanh regr X none none true with
  | none => none
  | some r => backprop Log Sqrt getUpdate r.1 X Y

end Perceptron

/-! ## Training loop and constructors (`multilayer_perceptron.go`) -/

section Training

variable [LinearOrderedField α] [Inhabited α] {Opt ρ σ : Type}

/-- The loop `for miniBatchStart < nSamples` of `fitEpoch`, with a bound `fuel` on the
number of iterations (running out of it is `none`).  The state is the regressor,
`miniBatchStart`, `miniBatchEnd` and `Jsum`. -/
def fitEpoch.loop (zeroOK : Bool) (Exp Tanh Log Sqrt : α → α)
    (getUpdate : Opt → Dense α → Dense α → Opt × Dense α) (Xfull Yfull : Dense α)
    (nSamples nFeatures nOutputs : Nat) (miniBatchLen epoch : Int) :
    Nat → MLPRegressor α Opt → Int → Int → α → Option (MLPRegressor α Opt × α)
  | 0, regr, miniBatchStart, _, Jsum =>
    if miniBatchStart < (nSamples : Int) then none else some (regr, Jsum)
  | fuel + 1, regr, miniBatchStart, miniBatchEnd, Jsum =>
    if miniBatchStart < (nSamples : Int) then
      match Xfull.Slice miniBatchStart miniBatchEnd 0 nFeatures,
        Yfull.Slice miniBatchStart miniBatchEnd 0 nOutputs with
      | some X, some Y =>
        match fitMiniBatch zeroOK Exp Tanh Log Sqrt getUpdate regr X Y epoch with
        | none => none
        | some r =>
          fitEpoch.loop zeroOK Exp Tanh Log Sqrt getUpdate Xfull Yfull nSamples nFeatures
            nOutputs miniBatchLen epoch fuel r.1 (miniBatchStart + miniBatchLen)
            (miniBatchEnd + miniBatchLen) (Jsum + r.2 * (miniBatchLen : α))
      | _, _ => none
    else some (regr, Jsum)

/-- The method `fitEpoch`.  `shuffle` stands for `base.MatShuffle`, which permutes the rows
of `Xfull` and `Yfull` in place with a random source of state `g`; the printing of the
loss every 100 epochs is left out.  Returns the regressor, the shuffled matrices and the
state of the random source. -/
def fitEpoch (zeroOK : Bool) (Exp Tanh Log Sqrt : α → α)
    (getUpdate : Opt → Dense α → Dense α → Opt × Dense α)
    (shuffle : ρ → Dense α → Dense α → Dense α × Dense α × ρ)
    (regr : MLPRegressor α Opt) (Xfull Yfull : Dense α) (epoch : Int) (g : ρ) :
    Option (MLPRegressor α Opt × Dense α × Dense α × ρ) :=
  let nSamples := Xfull.Dims.1
  let nFeatures := Xfull.Dims.2
  let nOutputs := Yfull.Dims.2
  let sh := shuffle g Xfull Yfull
  match fitEpoch.loop zeroOK Exp Tanh Log Sqrt getUpdate sh.1 sh.2.1 nSamples nFeatures
      nOutputs (nSamples : Int) epoch (nSamples + 1) regr 0 (nSamples : Int) 0 with
  | none => none
  | some r =>
    let regr1 := { r.1 with J := r.2 / (nSamples : α) }
    let regr2 := if epoch = 1 then { regr1 with JFirst := r.2 / (nSamples : α) } else regr1
    some (regr2, sh.1, sh.2.1, sh.2.2)

/-- The loop `for epoch := 0; epoch < regr.Epochs; epoch++` of `Fit`, with a bound `fuel`
on the number of iterations (running out of it is `none`). -/
def Fit.loop (zeroOK : Bool) (Exp Tanh Log Sqrt : α → α)
    (getUpdate : Opt → Dense α → Dense α → Opt × Dense α)
    (shuffle : ρ → Dense α → Dense α → Dense α × Dense α × ρ) :
    Nat → Int → MLPRegressor α Opt × Dense α × Dense α × ρ →
      Option (MLPRegressor α Opt × Dense α × Dense α × ρ)
  | 0, epoch, st => if epoch < st.1.Epochs then none else some st
  | fuel + 1, epoch, st =>
    if epoch < st.1.Epochs then
      match fitEpoch zeroOK Exp Tanh Log Sqrt getUpdate shuffle st.1 st.2.1 st.2.2.1 epoch
          st.2.2.2 with
      | none => none
      | some st1 => Fit.loop zeroOK Exp Tanh Log Sqrt getUpdate shuffle fuel (epoch + 1) st1
    else some st

/-- The assignment `regr.Epochs = 1e6 / nSamples` of `Fit`, made when `Epochs <= 0`: an
integer division, which panics for a zero divisor. -/
def Fit.defaultEpochs (regr : MLPRegressor α Opt) (nSamples : Nat) :
    Option (MLPRegressor α Opt) :=
  if regr.Epochs ≤ 0 then
    if nSamples = 0 then none
    else some { regr with Epochs := Int.tdiv 1000000 (nSamples : Int) }
  else some regr

/-- The method `Fit`.  `rnd` stands for `rand.NormFloat64`, `Inf` for `math.Inf(1)`.
Returns the regressor, the shuffled matrices and the states of the random sources. -/
def Fit (zeroOK : Bool) (Exp Tanh Log Sqrt : α → α) (Inf : α)
    (getUpdate : Opt → Dense α → Dense α → Opt × Dense α)
    (shuffle : ρ → Dense α → Dense α → Dense α × Dense α × ρ)
    (regr : MLPRegressor α Opt) (X Y : Dense α) (rnd : σ → α × σ) (s : σ) (g : ρ) :
    Option (MLPRegressor α Opt × Dense α × Dense α × σ × ρ) :=
  let nSamples := X.Dims.1
  let nFeatures := X.Dims.2
  let nOutputs := Y.Dims.2
  match allocLayers zeroOK regr nFeatures nOutputs rnd s with
  | none => none
  | some a =>
    match Fit.defaultEpochs { a.1 with J := Inf } nSamples with
    | none => none
    | some regr1 =>
      match Fit.loop zeroOK Exp Tanh Log Sqrt getUpdate shuffle regr1.Epochs.toNat 0
          (regr1, X, Y, g) with
      | none => none
      | some st => some (st.1, st.2.1, st.2.2.1, a.2, st.2.2.2)

/-- The method `Predict`: the forward pass, copied into `Y`. -/
def Predict (zeroOK : Bool) (Exp Tanh : α → α) (regr : MLPRegressor α Opt)
    (X : Dense α) (Y : Option (Dense α)) : Option (MLPRegressor α Opt × Option (Dense α)) :=
  (predictZH zeroOK Exp Tanh regr X none Y false).map fun r => (r.1, r.2.2)

/-- The method `Score`. -/
def Score (_regr : MLPRegressor α Opt) (_X _Y : Dense α) : α :=
  let score : α := 0
  score

/-- The function `NewMLPRegressor`; `Solvers` stands for the table `base.Solvers`, where an
absent key gives a nil creator. -/
def NewMLPRegressor (Solvers : String → Option (Unit → Opt)) (hiddenLayerSizes : List Int)
    (activation solver : String) (Alpha : α) : MLPRegressor α Opt :=
  let activation := if activation = "" then "relu" else activation
  let solver := if solver = "" then "adam" else solver
  let regr : MLPRegressor α Opt :=
    { Optimizer := Solvers solver, LossName := "", Activation := activation,
      HiddenLayerSizes := hiddenLayerSizes, Layers := [], Alpha := Alpha, L1Ratio := 0,
      GradientClipping := 0, Epochs := 0, MiniBatchSize := 0, Loss := "square",
      thetaSlice := [], JFirst := 0, J := 0 }
  if activation ≠ "identity" then { regr with Loss := "log" } else regr

/-- The struct `MLPClassifier`, which embeds `MLPRegressor`. -/
structure MLPClassifier (α Opt : Type) extends MLPRegressor α Opt

/-- The function `NewMLPClassifier`. -/
def NewMLPClassifier (Solvers : String → Option (Unit → Opt)) (hiddenLayerSizes : List Int)
    (activation solver : String) (Alpha : α) : MLPClassifier α Opt :=
  let regr : MLPClassifier α Opt :=
    { toMLPRegressor := NewMLPRegressor Solvers hiddenLayerSizes activation solver Alpha }
  { regr with Loss := "log" }

end Training

/-- A regressor with hidden layers of 2 and 3 units, on which `allocLayers` is run. -/
def sampleRegressor : MLPRegressor ℚ Unit :=
  { Optimizer := some id, LossName := "", Activation := "relu", HiddenLayerSizes := [2, 3],
    Layers := [], Alpha := 0, L1Ratio := 0, GradientClipping := 0, Epochs := 0,
    MiniBatchSize := 0, Loss := "log", thetaSlice := [], JFirst := 0, J := 0 }

/-- A deterministic source to stand for `rnd`: the call in state `n` returns `n`. -/
def countingSource (n : Nat) : ℚ × Nat := ((n : ℚ), n + 1)

/-- A table of solvers in which every name gives the creator of a stateless optimizer. -/
def unitSolvers (_name : String) : Option (Unit → Unit) := some id

/-- A regressor without hidden layer and with the identity activation. -/
def linearRegressor : MLPRegressor ℚ Unit := NewMLPRegressor unitSolvers [] "identity" "" 0

/-- A regressor with one hidden layer of one unit and the identity activation. -/
def hiddenRegressor : MLPRegressor ℚ Unit := NewMLPRegressor unitSolvers [1] "identity" "" 0

/-- A source to stand for `rnd`: the call in state `n` returns `n + 1`. -/
def succSource (n : Nat) : ℚ × Nat := ((n : ℚ) + 1, n + 1)

/-- An optimizer that returns the zero update: the weights stay as they are. -/
def zeroUpdate (o : Unit) (Update _Grad : Dense ℚ) : Unit × Dense ℚ :=
  (o, { Update with data := Update.data.map fun _ => 0 })

/-- An optimizer that returns a tenth of the opposite of the gradient. -/
def descentUpdate (o : Unit) (Update Grad : Dense ℚ) : Unit × Dense ℚ :=
  (o, { Update with data := Grad.data.map fun x => -x / 10 })

/-- A shuffle that leaves the rows in place. -/
def noShuffle (g : Unit) (X Y : Dense ℚ) : Dense ℚ × Dense ℚ × Unit := (X, Y, g)

/-- The regressor in which the content of the scratch buffer `Hgrad` of the first layer
is replaced by `v`. -/
def withHgrad (regr : MLPRegressor ℚ Unit) (v : List ℚ) : MLPRegressor ℚ Unit :=
  { regr with
    Layers :=
      match regr.Layers with
      | [] => []
      | L :: rest => { L with Hgrad := L.Hgrad.map fun H => { H with data := v } } :: rest }

/-! ## The test of the Bayesian ridge regressor (`linear_model/bayes_test.go`) -/

section BayesTest

variable [LinearOrderedField α]

/-- The closure `f` of `TestBayesianRidge`, which generates the targets; an index out of
range panics. -/
def TestBayesianRidge.f (X : List α) : Option α := do
  let x0 ← X[0]?
  let x1 ← X[1]?
  let x2 ← X[2]?
  pure (1 + 2 * x0 + 3 * x1 + 4 * x2)

/-- The held-out point `Xp[0]` of `TestBayesianRidge`. -/
def TestBayesianRidge.Xp : List α := [7, 8, 9]

/-- The constant `eps := .1` of `TestBayesianRidge`. -/
def TestBayesianRidge.eps : α := 1 / 10

/-- The check of `TestBayesianRidge` on a prediction `Yp[0]`: `true` when `t.Fail()` is
called. -/
def TestBayesianRidge.check (Yp0 : α) : Option Bool :=
  (TestBayesianRidge.f TestBayesianRidge.Xp).map fun y_true =>
    decide (|Yp0 - y_true| > TestBayesianRidge.eps)

/-- The loop of `TestBayesianRidge` over `normalize`; `predict normalize` stands for the
prediction `Yp[0]` of the regressor fitted with `Normalize = normalize`, whose code is not
among the sources.  The result is `true` when the test fails. -/
def TestBayesianRidge (predict : Bool → α) : Option Bool :=
  [false, true].foldlM (fun failed normalize =>
    (TestBayesianRidge.check (predict normalize)).map fun b => failed || b) false

/-- Modelled from the spec: `BayesianRidge.Predict`, whose file is not among the sources,
returns `X·coef + intercept`. -/
def BayesianRidge.Predict (coef : List α) (intercept : α) (X : List α) : α :=
  (List.zipWith (fun x c => x * c) X coef).sum + intercept

end BayesTest

/-! ## Registries -/

/-- C1: `NewLoss` succeeds exactly on the registered names.  On "square", "log" and
"cross-entropy" it returns `squareLoss`, `logLoss` and `crossEntropyLoss` respectively; on
every other string, the empty string included, it panics with the message built from the
name. -/
theorem NewLoss_registered (name : String) :
    (name = "square" → NewLoss name = .ok .squareLoss) ∧
    (name = "log" → NewLoss name = .ok .logLoss) ∧
    (name = "cross-entropy" → NewLoss name = .ok .crossEntropyLoss) ∧
    (name ≠ "square" → name ≠ "log" → name ≠ "cross-entropy" →
      NewLoss name = .error ("loss " ++ name ++ " is unknown")) ∧
    NewLoss "" = .error "loss  is unknown" := by
  refine ⟨?_, ?_, ?_, ?_, ?_⟩
  · rintro rfl; rfl
  · rintro rfl; rfl
  · rintro rfl; rfl
  · intro h1 h2 h3
    have e1 : (name == "square") = false := beq_eq_false_iff_ne.mpr h1
    have e2 : (name == "log") = false := beq_eq_false_iff_ne.mpr h2
    have e3 : (name == "cross-entropy") = false := beq_eq_false_iff_ne.mpr h3
    simp only [NewLoss, SupportedLoss, List.lookup, e1, e2, e3]
  · rfl

/-- Witness of C1 at the registered name "log" and at the unregistered name "mse". -/
theorem NewLoss_registered_witness :
    NewLoss "log" = .ok .logLoss ∧ NewLoss "mse" = .error "loss mse is unknown" :=
  ⟨(NewLoss_registered "log").2.1 rfl,
   (NewLoss_registered "mse").2.2.2.1 (by decide) (by decide) (by decide)⟩

/-- C2: `NewActivation` succeeds exactly on the registered names.  On "identity",
"logistic", "tanh" and "relu" it returns the identity, logistic, tanh and relu activation
respectively; on every other string it panics with the message built from the name. -/
theorem NewActivation_registered (name : String) :
    (name = "identity" → NewActivation name = .ok .identityActivation) ∧
    (name = "logistic" → NewActivation name = .ok .logisticActivation) ∧
    (name = "tanh" → NewActivation name = .ok .tanhActivation) ∧
    (name = "relu" → NewActivation name = .ok .reluActivation) ∧
    (name ≠ "identity" → name ≠ "logistic" → name ≠ "tanh" → name ≠ "relu" →
      NewActivation name = .error ("unknown activation " ++ name)) := by
  refine ⟨?_, ?_, ?_, ?_, ?_⟩
  · rintro rfl; rfl
  · rintro rfl; rfl
  · rintro rfl; rfl
  · rintro rfl; rfl
  · intro h1 h2 h3 h4
    have e1 : (name == "identity") = false := beq_eq_false_iff_ne.mpr h1
    have e2 : (name == "logistic") = false := beq_eq_false_iff_ne.mpr h2
    have e3 : (name == "tanh") = false := beq_eq_false_iff_ne.mpr h3
    have e4 : (name == "relu") = false := beq_eq_false_iff_ne.mpr h4
    simp only [NewActivation, SupportedActivations, List.lookup, e1, e2, e3, e4]

/-- Witness of C2 at the registered name "tanh" and at the unregistered name "sigmoid". -/
theorem NewActivation_registered_witness :
    NewActivation "tanh" = .ok .tanhActivation ∧
    NewActivation "sigmoid" = .error "unknown activation sigmoid" :=
  ⟨(NewActivation_registered "tanh").2.2.1 rfl,
   (NewActivation_registered "sigmoid").2.2.2.2 (by decide) (by decide) (by decide)
     (by decide)⟩

/-! ## Loss functions -/

/-- Reading an entry of a matrix reads the flat index `i * cols + j`. -/
theorem At_eq_some_iff (m : Dense α) (i j : Nat) (x : α) :
    m.At i j = some x ↔ (i < m.rows ∧ j < m.cols) ∧ m.data[i * m.cols + j]? = some x := by
  unfold Dense.At
  split <;> simp_all

/-- Entries of a matrix written by `zipWith` from two matrices of its shape. -/
theorem At_zipWith (G A B : Dense α) (g : α → α → α) (i j : Nat) (y h : α)
    (hs : A.rows = B.rows ∧ A.cols = B.cols) (hg : G.rows = A.rows ∧ G.cols = A.cols)
    (hy : A.At i j = some y) (hh : B.At i j = some h) :
    Dense.At { G with data := List.zipWith g A.data B.data } i j = some (g y h) := by
  rw [At_eq_some_iff] at hy hh ⊢
  obtain ⟨⟨hi, hj⟩, hy⟩ := hy
  obtain ⟨-, hh⟩ := hh
  refine ⟨⟨by simpa [hg.1] using hi, by simpa [hg.2] using hj⟩, ?_⟩
  simp only [hg.2]
  rw [← hs.2] at hh
  rw [List.getElem?_zipWith, hy, hh]

/-- Two relabelled lists give the same `zipWith` when the function takes the same value
on every relabelled pair. -/
theorem zipWith_map_congr (f : α → α → α) (a b : α → α) :
    ∀ (ys hs : List α), (∀ y ∈ ys, ∀ h ∈ hs, f (a y) (b h) = f y h) →
      List.zipWith f (ys.map a) (hs.map b) = List.zipWith f ys hs
  | [], _, _ => by simp
  | _ :: _, [], _ => by simp
  | y :: ys, h :: hs, hyp => by
    simp only [List.map_cons, List.zipWith_cons_cons]
    rw [hyp y (List.mem_cons_self _ _) h (List.mem_cons_self _ _),
      zipWith_map_congr f a b ys hs fun y1 hy1 h1 hh1 =>
        hyp y1 (List.mem_cons_of_mem _ hy1) h1 (List.mem_cons_of_mem _ hh1)]


/-- Rounding to float64 commutes with the change of sign. -/
theorem binary64_neg (x : ℚ) : binary64 (-x) = -binary64 x := by
  unfold binary64
  rcases lt_trichotomy x 0 with hx | hx | hx
  · have h1 : ¬ (-x = 0) := by intro h; linarith
    have h2 : ¬ (x = 0) := ne_of_lt hx
    have h3 : ¬ (-x < 0) := by linarith
    simp only [h1, h2, h3, hx, if_false, if_true, abs_neg, neg_neg]
  · subst hx; simp
  · have h1 : ¬ (-x = 0) := by intro h; linarith
    have h2 : ¬ (x = 0) := ne_of_gt hx
    have h3 : -x < 0 := by linarith
    have h4 : ¬ (x < 0) := by linarith
    simp only [h1, h2, h3, h4, if_false, if_true, abs_neg, neg_neg]



/-- With enough fuel the halving count is the integer logarithm in base 2. -/
theorem binary64_log2_eq_log : ∀ (fuel n : Nat), n ≤ fuel → binary64.log2 fuel n = Nat.log 2 n
  | 0, n, h => by
    have : n = 0 := Nat.le_zero.mp h
    subst this; simp [binary64.log2]
  | fuel + 1, n, h => by
    unfold binary64.log2
    by_cases h2 : n < 2
    · simp [h2, Nat.log_of_lt h2]
    · have h3 : 2 ≤ n := Nat.le_of_not_lt h2
      have h4 : n / 2 ≤ fuel := by omega
      rw [if_neg h2, binary64_log2_eq_log fuel (n / 2) h4, Nat.log_of_one_lt_of_le (by decide) h3]

/-- The rational `binary64.pow2 e` is the power `2 ^ e`. -/
theorem binary64_pow2_eq_zpow (e : Int) : binary64.pow2 e = (2 : ℚ) ^ e := by
  unfold binary64.pow2
  split
  · next h =>
    obtain ⟨n, rfl⟩ := Int.eq_ofNat_of_zero_le h
    simp
  · next h =>
    have h1 : 0 ≤ -e := by omega
    obtain ⟨n, hn⟩ := Int.eq_ofNat_of_zero_le h1
    have he : e = -(n : Int) := by omega
    subst he
    simp

/-- Powers of 2 are positive. -/
theorem binary64_pow2_pos (e : Int) : 0 < binary64.pow2 e := by
  rw [binary64_pow2_eq_zpow]; positivity

/-- Powers of 2 multiply as their exponents add. -/
theorem binary64_pow2_add (a b : Int) : binary64.pow2 (a + b) = binary64.pow2 a * binary64.pow2 b := by
  simp only [binary64_pow2_eq_zpow]
  exact zpow_add₀ (by norm_num) a b

/-- Powers of 2 grow with the exponent. -/
theorem binary64_pow2_le_pow2 {a b : Int} (h : a ≤ b) : binary64.pow2 a ≤ binary64.pow2 b := by
  simp only [binary64_pow2_eq_zpow]
  exact zpow_le_zpow_right₀ (by norm_num) h

/-- The exponent brackets a positive rational between two consecutive powers of 2. -/
theorem binary64_exponent_spec (x : ℚ) (hx : 0 < x) :
    binary64.pow2 (binary64.exponent x) ≤ x ∧ x < binary64.pow2 (binary64.exponent x + 1) := by
  have hn : 0 < x.num := Rat.num_pos.mpr hx
  obtain ⟨n, hnn⟩ := Int.eq_ofNat_of_zero_le (le_of_lt hn)
  have hn0 : n ≠ 0 := by intro h; subst h; simp [hnn] at hn
  have hd0 : x.den ≠ 0 := x.den_nz
  have hxe : x = (n : ℚ) / (x.den : ℚ) := by
    conv_lhs => rw [← Rat.num_div_den x, hnn]
    simp
  have hdpos : (0 : ℚ) < (x.den : ℚ) := by exact_mod_cast Nat.pos_of_ne_zero hd0
  have a1 := Nat.pow_log_le_self 2 hn0
  have a2 := Nat.lt_pow_succ_log_self (by decide : 1 < 2) n
  have b1 := Nat.pow_log_le_self 2 hd0
  have b2 := Nat.lt_pow_succ_log_self (by decide : 1 < 2) x.den
  have a1q : (2 : ℚ) ^ (Nat.log 2 n) ≤ (n : ℚ) := by exact_mod_cast a1
  have a2q : (n : ℚ) < (2 : ℚ) ^ (Nat.log 2 n + 1) := by exact_mod_cast a2
  have b1q : (2 : ℚ) ^ (Nat.log 2 x.den) ≤ (x.den : ℚ) := by exact_mod_cast b1
  have b2q : (x.den : ℚ) < (2 : ℚ) ^ (Nat.log 2 x.den + 1) := by exact_mod_cast b2
  have hA : (0 : ℚ) < (2 : ℚ) ^ (Nat.log 2 n) := by positivity
  have hB : (0 : ℚ) < (2 : ℚ) ^ (Nat.log 2 x.den) := by positivity
  have e0 : binary64.exponent x =
      if binary64.pow2 ((Nat.log 2 n : Int) - (Nat.log 2 x.den : Int)) ≤ x then
        (Nat.log 2 n : Int) - (Nat.log 2 x.den : Int)
      else (Nat.log 2 n : Int) - (Nat.log 2 x.den : Int) - 1 := by
    unfold binary64.exponent
    simp only [hnn, Int.toNat_ofNat, binary64_log2_eq_log _ _ (le_refl _)]
  have p0 : binary64.pow2 ((Nat.log 2 n : Int) - (Nat.log 2 x.den : Int)) =
      (2 : ℚ) ^ (Nat.log 2 n) / (2 : ℚ) ^ (Nat.log 2 x.den) := by
    rw [binary64_pow2_eq_zpow, zpow_sub₀ (by norm_num), zpow_natCast, zpow_natCast]
  rw [e0]
  generalize x.den = d at *
  subst hxe
  split
  · next hle =>
    refine ⟨hle, ?_⟩
    rw [binary64_pow2_add, p0]
    have : binary64.pow2 1 = 2 := by rw [binary64_pow2_eq_zpow]; norm_num
    rw [this, div_lt_iff₀ hdpos]
    calc (n : ℚ) < 2 ^ (Nat.log 2 n + 1) := a2q
      _ = 2 ^ (Nat.log 2 n) / 2 ^ (Nat.log 2 d) * 2 * 2 ^ (Nat.log 2 d) := by
          field_simp; ring
      _ ≤ 2 ^ (Nat.log 2 n) / 2 ^ (Nat.log 2 d) * 2 * (d : ℚ) := by
          apply mul_le_mul_of_nonneg_left b1q; positivity
  · next hlt =>
    have hlt1 := lt_of_not_le hlt
    constructor
    · have : binary64.pow2 ((Nat.log 2 n : Int) - (Nat.log 2 d : Int) - 1) =
          (2 : ℚ) ^ (Nat.log 2 n) / (2 : ℚ) ^ (Nat.log 2 d + 1) := by
        rw [binary64_pow2_eq_zpow, show ((Nat.log 2 n : Int) - (Nat.log 2 d : Int) - 1) =
          (Nat.log 2 n : Int) - ((Nat.log 2 d + 1 : Nat) : Int) by push_cast; ring,
          zpow_sub₀ (by norm_num), zpow_natCast, zpow_natCast]
      rw [this, div_le_div_iff₀ (by positivity) hdpos]
      calc (2 : ℚ) ^ (Nat.log 2 n) * (d : ℚ) ≤ (n : ℚ) * (d : ℚ) := by
            apply mul_le_mul_of_nonneg_right a1q (le_of_lt hdpos)
        _ ≤ (n : ℚ) * 2 ^ (Nat.log 2 d + 1) := by
            apply mul_le_mul_of_nonneg_left (le_of_lt b2q); positivity
    · simpa using hlt1

/-- The exponent is the only integer whose powers bracket a positive rational. -/
theorem binary64_exponent_unique (x : ℚ) (a : Int) (h1 : binary64.pow2 a ≤ x)
    (h2 : x < binary64.pow2 (a + 1)) : binary64.exponent x = a := by
  have hx : 0 < x := lt_of_lt_of_le (binary64_pow2_pos a) h1
  obtain ⟨s1, s2⟩ := binary64_exponent_spec x hx
  by_contra hne
  rcases lt_or_gt_of_ne hne with hlt | hgt
  · have : binary64.pow2 (binary64.exponent x + 1) ≤ binary64.pow2 a := binary64_pow2_le_pow2 (by omega)
    linarith
  · have : binary64.pow2 (a + 1) ≤ binary64.pow2 (binary64.exponent x) := binary64_pow2_le_pow2 (by omega)
    linarith

/-- An integer is its own rounding. -/
theorem binary64_roundEven_intCast (k : Int) : binary64.roundEven (k : ℚ) = k := by
  unfold binary64.roundEven
  have : Rat.floor (k : ℚ) = k := Int.floor_intCast (α := ℚ) k
  simp [this]

/-- Rounding to the nearest integer stays between two integer bounds of its argument. -/
theorem binary64_roundEven_mem (m : ℚ) (a b : Int) (ha : (a : ℚ) ≤ m) (hb : m ≤ (b : ℚ)) :
    a ≤ binary64.roundEven m ∧ binary64.roundEven m ≤ b := by
  have hf : Rat.floor m = ⌊m⌋ := rfl
  have f1 : a ≤ ⌊m⌋ := Int.le_floor.mpr ha
  have f2 : ⌊m⌋ ≤ b := by
    have := Int.floor_le m
    exact_mod_cast le_trans this hb
  have f3 : ((⌊m⌋ : Int) : ℚ) ≤ m := Int.floor_le m
  unfold binary64.roundEven
  simp only [hf]
  have up : (1 : ℚ) / 2 ≤ m - ⌊m⌋ → ⌊m⌋ + 1 ≤ b := by
    intro hr
    have : ((⌊m⌋ : Int) : ℚ) < (b : ℚ) := by linarith
    have : ⌊m⌋ < b := by exact_mod_cast this
    omega
  split
  · exact ⟨f1, f2⟩
  · next h1 =>
    have hr := le_of_not_lt h1
    split
    · exact ⟨by omega, up hr⟩
    · split
      · exact ⟨f1, f2⟩
      · exact ⟨by omega, up hr⟩


/-- The rounding of a positive rational: its significand times the spacing. -/
theorem binary64_of_pos (x : ℚ) (hx : 0 < x) :
    binary64 x = (binary64.roundEven
      (x / binary64.pow2 (max (binary64.exponent x) (-1022) - 52)) : ℚ) *
      binary64.pow2 (max (binary64.exponent x) (-1022) - 52) := by
  unfold binary64
  simp only [ne_of_gt hx, not_lt.mpr (le_of_lt hx), if_false, abs_of_pos hx]

/-- A power of 2 in units of the spacing `2 ^ (e - 52)`. -/
theorem binary64_pow2_shift (e : Int) (n : Nat) :
    binary64.pow2 (e - 52 + n) = (2 : ℚ) ^ n * binary64.pow2 (e - 52) := by
  rw [binary64_pow2_add, mul_comm, binary64_pow2_eq_zpow (n : Int), zpow_natCast]

/-- A significand of at most 53 bits times a float64 spacing is left unchanged. -/
theorem binary64_fix (k e : Int) (he : -1022 ≤ e) (hk0 : 0 ≤ k) (hk1 : k ≤ 2 ^ 53)
    (hn : e = -1022 ∨ 2 ^ 52 ≤ k) :
    binary64 ((k : ℚ) * binary64.pow2 (e - 52)) = (k : ℚ) * binary64.pow2 (e - 52) := by
  have hq := binary64_pow2_pos (e - 52)
  rcases eq_or_lt_of_le hk0 with hz | hpos
  · subst hz; simp [binary64]
  have hkq : (0 : ℚ) < (k : ℚ) := by exact_mod_cast hpos
  have hr : 0 < (k : ℚ) * binary64.pow2 (e - 52) := mul_pos hkq hq
  have p0 : binary64.pow2 e = (2 : ℚ) ^ 52 * binary64.pow2 (e - 52) := by
    have := binary64_pow2_shift e 52
    rwa [show e - 52 + ((52 : Nat) : Int) = e by push_cast; ring] at this
  have p1 : binary64.pow2 (e + 1) = (2 : ℚ) ^ 53 * binary64.pow2 (e - 52) := by
    have := binary64_pow2_shift e 53
    rwa [show e - 52 + ((53 : Nat) : Int) = e + 1 by push_cast; ring] at this
  have p2 : binary64.pow2 (e + 1 + 1) = (2 : ℚ) ^ 54 * binary64.pow2 (e - 52) := by
    have := binary64_pow2_shift e 54
    rwa [show e - 52 + ((54 : Nat) : Int) = e + 1 + 1 by push_cast; ring] at this
  have p3 : binary64.pow2 (e + 1 - 52) = 2 * binary64.pow2 (e - 52) := by
    have := binary64_pow2_shift e 1
    rwa [show e - 52 + ((1 : Nat) : Int) = e + 1 - 52 by push_cast; ring, pow_one] at this
  rw [binary64_of_pos _ hr]
  rcases eq_or_lt_of_le hk1 with htop | hlt
  · -- the significand is 2 ^ 53: the value is the next power of 2
    have hkv : (k : ℚ) = 2 ^ 53 := by exact_mod_cast htop
    have hex : binary64.exponent ((k : ℚ) * binary64.pow2 (e - 52)) = e + 1 := by
      apply binary64_exponent_unique
      · rw [p1, hkv]
      · rw [p2, hkv]
        apply mul_lt_mul_of_pos_right (by norm_num) hq
    rw [hex, max_eq_left (by omega), p3, hkv]
    have : (2 : ℚ) ^ 53 * binary64.pow2 (e - 52) / (2 * binary64.pow2 (e - 52)) =
        ((2 ^ 52 : Int) : ℚ) := by
      rw [div_eq_iff (ne_of_gt (mul_pos (by norm_num) hq))]
      push_cast; ring
    rw [this, binary64_roundEven_intCast]
    push_cast; ring_nf
  · have hkl : (k : ℚ) < 2 ^ 53 := by exact_mod_cast hlt
    have hdiv : (k : ℚ) * binary64.pow2 (e - 52) / binary64.pow2 (e - 52) = (k : ℚ) := by
      field_simp
    have hmax : max (binary64.exponent ((k : ℚ) * binary64.pow2 (e - 52))) (-1022) = e := by
      by_cases hbig : (2 : Int) ^ 52 ≤ k
      · have hkb : (2 : ℚ) ^ 52 ≤ (k : ℚ) := by exact_mod_cast hbig
        have hex : binary64.exponent ((k : ℚ) * binary64.pow2 (e - 52)) = e := by
          apply binary64_exponent_unique
          · rw [p0]; exact mul_le_mul_of_nonneg_right hkb (le_of_lt hq)
          · rw [p1]; exact mul_lt_mul_of_pos_right hkl hq
        rw [hex]; exact max_eq_left he
      · have he2 : e = -1022 := by
          rcases hn with h | h
          · exact h
          · exact absurd h hbig
        have hks : (k : ℚ) < 2 ^ 52 := by exact_mod_cast lt_of_not_le hbig
        have hsm : (k : ℚ) * binary64.pow2 (e - 52) < binary64.pow2 e := by
          rw [p0]; exact mul_lt_mul_of_pos_right hks hq
        have hex : binary64.exponent ((k : ℚ) * binary64.pow2 (e - 52)) < e := by
          by_contra hge
          have := binary64_pow2_le_pow2 (le_of_not_lt hge)
          have := (binary64_exponent_spec _ hr).1
          linarith
        rw [he2] at hex ⊢
        exact max_eq_right (by omega)
    rw [hmax, hdiv, binary64_roundEven_intCast]

/-- Rounding to float64 is idempotent: its results are float64 values. -/
theorem binary64_idem (x : ℚ) : binary64 (binary64 x) = binary64 x := by
  have pos : ∀ z : ℚ, 0 < z → binary64 (binary64 z) = binary64 z := by
    intro z hz
    obtain ⟨s1, s2⟩ := binary64_exponent_spec z hz
    rw [binary64_of_pos z hz]
    have he : -1022 ≤ max (binary64.exponent z) (-1022) := le_max_right _ _
    generalize hE : max (binary64.exponent z) (-1022) = e at he ⊢
    have hq := binary64_pow2_pos (e - 52)
    have p0 : binary64.pow2 e = (2 : ℚ) ^ 52 * binary64.pow2 (e - 52) := by
      have := binary64_pow2_shift e 52
      rwa [show e - 52 + ((52 : Nat) : Int) = e by push_cast; ring] at this
    have p1 : binary64.pow2 (e + 1) = (2 : ℚ) ^ 53 * binary64.pow2 (e - 52) := by
      have := binary64_pow2_shift e 53
      rwa [show e - 52 + ((53 : Nat) : Int) = e + 1 by push_cast; ring] at this
    have hlo : ((0 : Int) : ℚ) ≤ z / binary64.pow2 (e - 52) := by
      have := div_pos hz hq
      push_cast; linarith
    have hup : z / binary64.pow2 (e - 52) ≤ ((2 ^ 53 : Int) : ℚ) := by
      have h1 : z < binary64.pow2 (e + 1) :=
        lt_of_lt_of_le s2 (binary64_pow2_le_pow2 (by rw [← hE]; have := le_max_left (binary64.exponent z) (-1022); omega))
      rw [div_le_iff₀ hq]
      push_cast
      linarith
    have hk := binary64_roundEven_mem _ _ _ hlo hup
    apply binary64_fix _ e he hk.1 hk.2
    by_cases hc : binary64.exponent z ≤ -1022
    · left; rw [← hE]; exact max_eq_right hc
    · right
      have hEe : e = binary64.exponent z := by rw [← hE]; exact max_eq_left (by omega)
      have hlo2 : ((2 ^ 52 : Int) : ℚ) ≤ z / binary64.pow2 (e - 52) := by
        rw [le_div_iff₀ hq]
        have s3 : binary64.pow2 e ≤ z := by rw [hEe]; exact s1
        rw [p0] at s3
        push_cast
        linarith
      exact (binary64_roundEven_mem _ _ _ hlo2 hup).1
  rcases lt_trichotomy x 0 with hx | hx | hx
  · have := pos (-x) (by linarith)
    rw [binary64_neg, binary64_neg] at this
    linarith
  · subst hx; simp [binary64]
  · exact pos x hx


/-- Value of the rounded loss on 1 x 1 matrices. -/
theorem LossRounded_single (Log : ℚ → ℚ) (y h : ℚ) :
    crossEntropyLoss.LossRounded binary64 Log ⟨1, 1, [y]⟩ ⟨1, 1, [h]⟩ =
      some (binary64 (crossEntropyLoss.JfunRounded binary64 Log y h)) := by
  have b1 : binary64 1 = 1 := by decide!
  simp only [crossEntropyLoss.LossRounded, matx.SumApplied2Rounded, Dense.Dims, and_self,
    if_true, List.zipWith_cons_cons, List.zipWith_nil_right, List.foldl_cons, List.foldl_nil,
    zero_add, Nat.cast_one, b1, div_one, Option.bind_eq_bind, Option.some_bind, Option.pure_def,
    binary64_idem]

section LossProofs

variable [LinearOrderedField α]

/-- On two matrices of one shape `SumApplied2` returns the sum of the images. -/
theorem SumApplied2_of_shape (A B : Dense α) (f : α → α → α)
    (hs : A.rows = B.rows ∧ A.cols = B.cols) :
    matx.SumApplied2 A B f = some (List.zipWith f A.data B.data).sum := by
  simp [matx.SumApplied2, hs]

/-- On three matrices of one shape `CopyScaledApplied2` returns the scaled images. -/
theorem CopyScaledApplied2_of_shape (G A B : Dense α) (c : α) (f : α → α → α)
    (hs : A.rows = B.rows ∧ A.cols = B.cols) (hg : G.rows = A.rows ∧ G.cols = A.cols) :
    matx.CopyScaledApplied2 G A B c f =
      some { G with data := List.zipWith (fun a b => c * f a b) A.data B.data } := by
  simp [matx.CopyScaledApplied2, hs, hg]

/-- C6: with `Ytrue = Ypred` the square loss returns `J = 0` and overwrites a supplied
`Grad` of the same shape with the zero matrix, whatever the shape and the content. -/
theorem squareLoss_of_eq (Y G : Dense α) (hg : G.rows = Y.rows ∧ G.cols = Y.cols) :
    squareLoss.Loss Y Y (some G) =
      some (0, some { rows := Y.rows, cols := Y.cols,
                      data := List.replicate Y.data.length 0 }) ∧
    squareLoss.Loss Y Y none = some (0, none) := by
  have hJ : matx.SumApplied2 Y Y squareLoss.Jfun = some 0 := by
    rw [SumApplied2_of_shape Y Y _ ⟨rfl, rfl⟩, List.zipWith_same]
    simp [squareLoss.Jfun]
  have hG : matx.CopyScaledApplied2 G Y Y (1 / ((Y.Dims.1 : Nat) : α)) squareLoss.Gfun =
      some { rows := Y.rows, cols := Y.cols, data := List.replicate Y.data.length 0 } := by
    rw [CopyScaledApplied2_of_shape G Y Y _ _ ⟨rfl, rfl⟩ hg, List.zipWith_same]
    simp [squareLoss.Gfun, hg.1, hg.2, List.eq_replicate_iff]
  constructor
  · simp only [squareLoss.Loss, hJ, hG, Option.bind_eq_bind, Option.some_bind, Option.pure_def]
  · simp only [squareLoss.Loss, hJ, Option.bind_eq_bind, Option.some_bind, Option.pure_def]

/-- Witness of C6 on a 2 x 2 matrix. -/
theorem squareLoss_of_eq_witness :
    squareLoss.Loss (α := ℚ) ⟨2, 2, [1, 2, 3, 4]⟩ ⟨2, 2, [1, 2, 3, 4]⟩
        (some ⟨2, 2, [9, 9, 9, 9]⟩) =
      some (0, some ⟨2, 2, [0, 0, 0, 0]⟩) :=
  (squareLoss_of_eq (α := ℚ) ⟨2, 2, [1, 2, 3, 4]⟩ ⟨2, 2, [9, 9, 9, 9]⟩ ⟨rfl, rfl⟩).1

/-- The guard of the cross-entropy closures commutes with `h ↦ 1 - h`. -/
theorem guard_one_sub (eps h : α) :
    crossEntropyLoss.guard eps (1 - h) = 1 - crossEntropyLoss.guard eps h := by
  unfold crossEntropyLoss.guard
  by_cases h0 : h ≤ 0
  · have h1 : ¬ (1 - h ≤ 0) := by linarith
    have h2 : 1 - h ≥ 1 := by linarith
    simp [h0, h1, h2]
  · by_cases h1 : h ≥ 1
    · have h2 : 1 - h ≤ 0 := by linarith
      simp [h0, h1, h2]
    · have h2 : ¬ (1 - h ≤ 0) := by
        intro hc; exact h1 (by linarith)
      have h3 : ¬ (1 - h ≥ 1) := by
        intro hc; exact h0 (by linarith)
      simp [h0, h1, h2, h3]

/-- The forward closure of the cross-entropy loss is unchanged by `y ↦ 1 - y`,
`h ↦ 1 - h`. -/
theorem Jfun_relabel (Log : α → α) (y h : α) :
    crossEntropyLoss.Jfun Log (1 - y) (1 - h) = crossEntropyLoss.Jfun Log y h := by
  unfold crossEntropyLoss.Jfun crossEntropyLoss.Jterm
  rw [guard_one_sub]
  have e1 : (1 : α) - (1 - crossEntropyLoss.guard crossEntropyLoss.epsJ h) =
      crossEntropyLoss.guard crossEntropyLoss.epsJ h := by ring
  have e2 : (1 : α) - (1 - y) = y := by ring
  rw [e1, e2]
  ring

/-- In exact arithmetic the value `J` of the cross-entropy loss is unchanged when targets
and predictions are relabelled together, `Ytrue ↦ 1 - Ytrue` and `Ypred ↦ 1 - Ypred`
elementwise, for every content of the matrices and every `Grad` argument.  This uses
`1 - (1 - x) = x`, which float64 subtraction does not give at the guard values. -/
theorem crossEntropyLoss_relabel_exact (Log : α → α) (Ytrue Ypred : Dense α)
    (Grad : Option (Dense α)) :
    (crossEntropyLoss.Loss Log (Ytrue.map fun y => 1 - y) (Ypred.map fun h => 1 - h)
        Grad).map Prod.fst =
      (crossEntropyLoss.Loss Log Ytrue Ypred Grad).map Prod.fst := by
  have hf : (fun y h => crossEntropyLoss.Jfun Log (1 - y) (1 - h)) =
      crossEntropyLoss.Jfun Log := by
    funext y h; exact Jfun_relabel Log y h
  have hS : matx.SumApplied2 (Ytrue.map fun y => 1 - y) (Ypred.map fun h => 1 - h)
      (crossEntropyLoss.Jfun Log) = matx.SumApplied2 Ytrue Ypred (crossEntropyLoss.Jfun Log) := by
    simp only [matx.SumApplied2, Dense.map, List.zipWith_map, hf]
  unfold crossEntropyLoss.Loss
  rw [hS]
  cases hJ : matx.SumApplied2 Ytrue Ypred (crossEntropyLoss.Jfun Log) with
  | none => rfl
  | some S =>
    cases Grad with
    | none => rfl
    | some G =>
      by_cases hc : Ytrue.rows = Ypred.rows ∧ Ytrue.cols = Ypred.cols ∧
          G.rows = Ytrue.rows ∧ G.cols = Ytrue.cols
      · simp [matx.CopyScaledApplied2, Dense.map, Dense.Dims, hc]
      · simp [matx.CopyScaledApplied2, Dense.map, Dense.Dims, hc]

/-- The rounded guard leaves a prediction strictly between 0 and 1 unchanged. -/
theorem guardRounded_of_mem (fl : α → α) (eps h : α) (h0 : 0 < h) (h1 : h < 1) :
    crossEntropyLoss.guardRounded fl eps h = h := by
  simp [crossEntropyLoss.guardRounded, not_le.mpr h0, not_le.mpr h1]

/-- The rounded closure `Jfun` takes the same value on a relabelled pair when `1 - x`
is undone exactly by `1 - x` on the target and on the guarded prediction, and the guard
commutes with the relabelling. -/
theorem JfunRounded_relabel (fl Log : α → α) (y h : α)
    (hodd : ∀ x, fl (-x) = -fl x)
    (hy : fl (1 - fl (1 - y)) = y)
    (hg : crossEntropyLoss.guardRounded fl (fl crossEntropyLoss.epsJ) (fl (1 - h)) =
      fl (1 - crossEntropyLoss.guardRounded fl (fl crossEntropyLoss.epsJ) h))
    (hr : fl (1 - fl (1 - crossEntropyLoss.guardRounded fl (fl crossEntropyLoss.epsJ) h)) =
      crossEntropyLoss.guardRounded fl (fl crossEntropyLoss.epsJ) h) :
    crossEntropyLoss.JfunRounded fl Log (fl (1 - y)) (fl (1 - h)) =
      crossEntropyLoss.JfunRounded fl Log y h := by
  simp only [crossEntropyLoss.JfunRounded]
  rw [hg, hr, hy, neg_mul, neg_mul, hodd, hodd]
  congr 1
  ring

/-- Without rounding, the rounded loss is the value `J` of the method `Loss`. -/
theorem LossRounded_id (Log : α → α) (Ytrue Ypred : Dense α) :
    crossEntropyLoss.LossRounded id Log Ytrue Ypred =
      (crossEntropyLoss.Loss Log Ytrue Ypred none).map Prod.fst := by
  have hJ : crossEntropyLoss.JfunRounded id Log = crossEntropyLoss.Jfun Log := by
    funext y h
    simp only [crossEntropyLoss.JfunRounded, crossEntropyLoss.Jfun, crossEntropyLoss.Jterm,
      crossEntropyLoss.guardRounded, crossEntropyLoss.guard, id]
  simp only [crossEntropyLoss.LossRounded, crossEntropyLoss.Loss, matx.SumApplied2Rounded,
    matx.SumApplied2, hJ, id]
  split
  · simp [List.sum_eq_foldl]
  · rfl



/-- C7, amended: the value `J` of the cross-entropy loss, computed with float64 operations
rounded by `fl`, is unchanged when targets and predictions are relabelled together,
`Ytrue ↦ 1 - Ytrue` and `Ypred ↦ 1 - Ypred` elementwise, provided the relabelling is exact:
every target `y` has `1 - (1 - y) = y`, and every prediction `h` lies strictly between 0
and 1, as does `1 - h`, with `1 - (1 - h) = h`, each subtraction being rounded.  The
rounding is any function that commutes with the change of sign, as `binary64` does.  On
matrices of one shape both calls return a value.  Predictions that trigger the guard are
not covered. -/
theorem crossEntropyLoss_relabel_rounded (fl Log : α → α) (Ytrue Ypred : Dense α)
    (hodd : ∀ x, fl (-x) = -fl x)
    (hy : ∀ y ∈ Ytrue.data, fl (1 - fl (1 - y)) = y)
    (hh : ∀ h ∈ Ypred.data, (0 < h ∧ h < 1) ∧ (0 < fl (1 - h) ∧ fl (1 - h) < 1) ∧
      fl (1 - fl (1 - h)) = h) :
    crossEntropyLoss.LossRounded fl Log (Ytrue.map fun y => fl (1 - y))
        (Ypred.map fun h => fl (1 - h)) =
      crossEntropyLoss.LossRounded fl Log Ytrue Ypred ∧
    (Ytrue.rows = Ypred.rows ∧ Ytrue.cols = Ypred.cols →
      ∃ J, crossEntropyLoss.LossRounded fl Log Ytrue Ypred = some J) := by
  have hz : List.zipWith (crossEntropyLoss.JfunRounded fl Log)
      (Ytrue.data.map fun y => fl (1 - y)) (Ypred.data.map fun h => fl (1 - h)) =
      List.zipWith (crossEntropyLoss.JfunRounded fl Log) Ytrue.data Ypred.data := by
    apply zipWith_map_congr
    intro y hym h hhm
    obtain ⟨⟨h0, h1⟩, ⟨r0, r1⟩, hr⟩ := hh h hhm
    apply JfunRounded_relabel fl Log y h hodd (hy y hym)
    · rw [guardRounded_of_mem fl _ _ r0 r1, guardRounded_of_mem fl _ _ h0 h1]
    · rw [guardRounded_of_mem fl _ _ h0 h1]; exact hr
  constructor
  · simp only [crossEntropyLoss.LossRounded, matx.SumApplied2Rounded, Dense.map, Dense.Dims, hz]
  · intro hs
    simp [crossEntropyLoss.LossRounded, matx.SumApplied2Rounded, hs]

/-- Witness of C7 (amended) for the rounding `binary64`, on targets 1 and 0 with the
predictions 1/4 and 5/8. -/
theorem crossEntropyLoss_relabel_rounded_witness :
    crossEntropyLoss.LossRounded binary64 (fun x => x - 1)
        (Dense.map (fun y => binary64 (1 - y)) ⟨2, 1, [1, 0]⟩)
        (Dense.map (fun h => binary64 (1 - h)) ⟨2, 1, [1 / 4, 5 / 8]⟩) =
      crossEntropyLoss.LossRounded binary64 (fun x => x - 1) ⟨2, 1, [1, 0]⟩
        ⟨2, 1, [1 / 4, 5 / 8]⟩ :=
  (crossEntropyLoss_relabel_rounded binary64 (fun x => x - 1) ⟨2, 1, [1, 0]⟩
    ⟨2, 1, [1 / 4, 5 / 8]⟩ binary64_neg (by decide!) (by decide!)).1

/-- C7, as stated, fails in float64.  The constant `1e-15` is the float64 value
`5070602400912918 / 2 ^ 102`, the subtraction `1 - eps` returns `1 - 9 / 2 ^ 53`, and
`1 - (1 - eps)` returns `9 / 2 ^ 53`, about `9.992e-16`.  For the target 1 and the
prediction -3, which triggers the guard, `J` is minus the logarithm at the first value,
and for the relabelled target 0 and prediction 4 it is minus the logarithm at the last
one.  The same happens without the guard for the prediction `2 ^ -60`, whose relabelling
`1 - h` rounds to 1.  So the two calls do not agree for every logarithm function. -/
theorem crossEntropyLoss_relabel_clamp :
    binary64 crossEntropyLoss.epsJ = 5070602400912918 / 2 ^ 102 ∧
    binary64 (1 - binary64 crossEntropyLoss.epsJ) = 1 - 9 / 2 ^ 53 ∧
    binary64 (1 - binary64 (1 - binary64 crossEntropyLoss.epsJ)) = 9 / 2 ^ 53 ∧
    (∀ Log : ℚ → ℚ,
      crossEntropyLoss.LossRounded binary64 Log ⟨1, 1, [1]⟩ ⟨1, 1, [-3]⟩ =
        some (-binary64 (Log (5070602400912918 / 2 ^ 102))) ∧
      crossEntropyLoss.LossRounded binary64 Log
          (Dense.map (fun y => binary64 (1 - y)) ⟨1, 1, [1]⟩)
          (Dense.map (fun h => binary64 (1 - h)) ⟨1, 1, [-3]⟩) =
        some (-binary64 (Log (9 / 2 ^ 53)))) ∧
    (∀ Log : ℚ → ℚ,
      crossEntropyLoss.LossRounded binary64 Log ⟨1, 1, [1]⟩ ⟨1, 1, [1 / 2 ^ 60]⟩ =
        some (-binary64 (Log (1 / 2 ^ 60))) ∧
      crossEntropyLoss.LossRounded binary64 Log
          (Dense.map (fun y => binary64 (1 - y)) ⟨1, 1, [1]⟩)
          (Dense.map (fun h => binary64 (1 - h)) ⟨1, 1, [1 / 2 ^ 60]⟩) =
        some (-binary64 (Log (9 / 2 ^ 53)))) ∧
    ¬ (∀ Log : ℚ → ℚ,
      crossEntropyLoss.LossRounded binary64 Log
          (Dense.map (fun y => binary64 (1 - y)) ⟨1, 1, [1]⟩)
          (Dense.map (fun h => binary64 (1 - h)) ⟨1, 1, [-3]⟩) =
        crossEntropyLoss.LossRounded binary64 Log ⟨1, 1, [1]⟩ ⟨1, 1, [-3]⟩) := by
  have hE : binary64 crossEntropyLoss.epsJ = 5070602400912918 / 2 ^ 102 := by decide!
  have hG : binary64 (1 - 5070602400912918 / 2 ^ 102) = 1 - 9 / 2 ^ 53 := by decide!
  have hF : binary64 (1 - (1 - 9 / 2 ^ 53)) = 9 / 2 ^ 53 := by decide!
  have b0 : binary64 0 = 0 := by decide!
  have b1 : binary64 1 = 1 := by decide!
  have b4 : binary64 (1 - -3) = 4 := by decide!
  have bt : binary64 (1 - 1 / 2 ^ 60) = 1 := by decide!
  have low : ∀ Log : ℚ → ℚ, crossEntropyLoss.JfunRounded binary64 Log 1 (-3) =
      -binary64 (Log (5070602400912918 / 2 ^ 102)) := by
    intro Log
    simp only [crossEntropyLoss.JfunRounded, crossEntropyLoss.guardRounded, hE,
      show ((-3 : ℚ) ≤ 0) from by norm_num, if_true, sub_self, b0, zero_mul, sub_zero,
      neg_mul, one_mul, binary64_neg, binary64_idem]
  have high : ∀ (Log : ℚ → ℚ) (h : ℚ), 1 ≤ h → crossEntropyLoss.JfunRounded binary64 Log 0 h =
      -binary64 (Log (9 / 2 ^ 53)) := by
    intro Log h hh
    have h0 : ¬ (h ≤ 0) := by linarith
    simp only [crossEntropyLoss.JfunRounded, crossEntropyLoss.guardRounded, hE, h0, if_false,
      ge_iff_le, hh, if_true, hG, hF, neg_zero, zero_mul, sub_zero, b0, b1, one_mul, zero_sub,
      binary64_neg, binary64_idem]
  have tiny : ∀ Log : ℚ → ℚ, crossEntropyLoss.JfunRounded binary64 Log 1 (1 / 2 ^ 60) =
      -binary64 (Log (1 / 2 ^ 60)) := by
    intro Log
    simp only [crossEntropyLoss.JfunRounded, crossEntropyLoss.guardRounded,
      show ¬ ((1 / 2 ^ 60 : ℚ) ≤ 0) from by norm_num,
      show ¬ ((1 / 2 ^ 60 : ℚ) ≥ 1) from by norm_num, if_false, sub_self, b0, zero_mul,
      sub_zero, neg_mul, one_mul, binary64_neg, binary64_idem]
  have r1 : ∀ Log : ℚ → ℚ, crossEntropyLoss.LossRounded binary64 Log ⟨1, 1, [1]⟩ ⟨1, 1, [-3]⟩ =
      some (-binary64 (Log (5070602400912918 / 2 ^ 102))) := by
    intro Log
    rw [LossRounded_single, low, binary64_neg, binary64_idem]
  have r2 : ∀ Log : ℚ → ℚ, crossEntropyLoss.LossRounded binary64 Log
      (Dense.map (fun y => binary64 (1 - y)) ⟨1, 1, [1]⟩)
      (Dense.map (fun h => binary64 (1 - h)) ⟨1, 1, [-3]⟩) =
      some (-binary64 (Log (9 / 2 ^ 53))) := by
    intro Log
    simp only [Dense.map, List.map_cons, List.map_nil, sub_self, b0, b4]
    rw [LossRounded_single, high Log 4 (by norm_num), binary64_neg, binary64_idem]
  refine ⟨hE, by rw [hE]; exact hG, by rw [hE, hG]; exact hF, fun Log => ⟨r1 Log, r2 Log⟩,
    fun Log => ⟨?_, ?_⟩, ?_⟩
  · rw [LossRounded_single, tiny, binary64_neg, binary64_idem]
  · simp only [Dense.map, List.map_cons, List.map_nil, sub_self, b0, bt]
    rw [LossRounded_single, high Log 1 (le_refl _), binary64_neg, binary64_idem]
  · intro hall
    have h := hall id
    rw [r1, r2] at h
    revert h
    decide!

/-- C8: when a `Grad` matrix of the shape of `Ytrue` and `Ypred` is supplied, each loss
overwrites every entry with the derivative of its loss term with respect to the
prediction, divided by the row count `n` of `Ytrue`: `(h - y) / n` for the square loss,
`(-y / h) / n` for the log loss, and `(-y / h + (1 - y) / (1 - h)) / n` for the
cross-entropy loss where `0 < h < 1`.  With a nil `Grad` the same scalar is returned and
nothing else is computed. -/
theorem Loss_grad_entries (Log : α → α) (Ytrue Ypred G : Dense α)
    (hs : Ytrue.rows = Ypred.rows ∧ Ytrue.cols = Ypred.cols)
    (hg : G.rows = Ytrue.rows ∧ G.cols = Ytrue.cols) :
    (∃ J G', squareLoss.Loss Ytrue Ypred (some G) = some (J, some G') ∧
        squareLoss.Loss Ytrue Ypred none = some (J, none) ∧
        G'.rows = G.rows ∧ G'.cols = G.cols ∧
        ∀ i j y h, Ytrue.At i j = some y → Ypred.At i j = some h →
          G'.At i j = some ((h - y) / (Ytrue.rows : α))) ∧
    (∃ J G', logLoss.Loss Log Ytrue Ypred (some G) = some (J, some G') ∧
        logLoss.Loss Log Ytrue Ypred none = some (J, none) ∧
        G'.rows = G.rows ∧ G'.cols = G.cols ∧
        ∀ i j y h, Ytrue.At i j = some y → Ypred.At i j = some h →
          G'.At i j = some ((-y / h) / (Ytrue.rows : α))) ∧
    (∃ J G', crossEntropyLoss.Loss Log Ytrue Ypred (some G) = some (J, some G') ∧
        crossEntropyLoss.Loss Log Ytrue Ypred none = some (J, none) ∧
        G'.rows = G.rows ∧ G'.cols = G.cols ∧
        ∀ i j y h, Ytrue.At i j = some y → Ypred.At i j = some h → 0 < h → h < 1 →
          G'.At i j = some ((-y / h + (1 - y) / (1 - h)) / (Ytrue.rows : α))) := by
  refine ⟨?_, ?_, ?_⟩
  · refine ⟨(List.zipWith squareLoss.Jfun Ytrue.data Ypred.data).sum,
      Dense.mk G.rows G.cols (List.zipWith
          (fun a b => 1 / ((Ytrue.Dims.1 : Nat) : α) * squareLoss.Gfun a b)
          Ytrue.data Ypred.data), ?_, ?_, rfl, rfl, ?_⟩
    · simp only [squareLoss.Loss, SumApplied2_of_shape _ _ _ hs,
        CopyScaledApplied2_of_shape _ _ _ _ _ hs hg, Option.bind_eq_bind, Option.some_bind,
        Option.pure_def]
    · simp only [squareLoss.Loss, SumApplied2_of_shape _ _ _ hs, Option.bind_eq_bind,
        Option.some_bind, Option.pure_def]
    · intro i j y h hy hh
      rw [At_zipWith G Ytrue Ypred _ i j y h hs hg hy hh]
      simp only [squareLoss.Gfun, Dense.Dims]
      congr 1; ring
  · refine ⟨(List.zipWith (logLoss.Jfun Log) Ytrue.data Ypred.data).sum /
        ((Ytrue.Dims.1 : Nat) : α),
      Dense.mk G.rows G.cols (List.zipWith
          (fun a b => 1 / ((Ytrue.Dims.1 : Nat) : α) * logLoss.Gfun a b)
          Ytrue.data Ypred.data), ?_, ?_, rfl, rfl, ?_⟩
    · simp only [logLoss.Loss, SumApplied2_of_shape _ _ _ hs,
        CopyScaledApplied2_of_shape _ _ _ _ _ hs hg, Option.bind_eq_bind, Option.some_bind,
        Option.pure_def]
    · simp only [logLoss.Loss, SumApplied2_of_shape _ _ _ hs, Option.bind_eq_bind,
        Option.some_bind, Option.pure_def]
    · intro i j y h hy hh
      rw [At_zipWith G Ytrue Ypred _ i j y h hs hg hy hh]
      simp only [logLoss.Gfun, Dense.Dims]
      congr 1; ring
  · refine ⟨(List.zipWith (crossEntropyLoss.Jfun Log) Ytrue.data Ypred.data).sum /
        ((Ytrue.Dims.1 : Nat) : α),
      Dense.mk G.rows G.cols (List.zipWith
          (fun a b => 1 / ((Ytrue.Dims.1 : Nat) : α) * crossEntropyLoss.Gfun a b)
          Ytrue.data Ypred.data), ?_, ?_, rfl, rfl, ?_⟩
    · simp only [crossEntropyLoss.Loss, SumApplied2_of_shape _ _ _ hs,
        CopyScaledApplied2_of_shape _ _ _ _ _ hs hg, Option.bind_eq_bind, Option.some_bind,
        Option.pure_def]
    · simp only [crossEntropyLoss.Loss, SumApplied2_of_shape _ _ _ hs, Option.bind_eq_bind,
        Option.some_bind, Option.pure_def]
    · intro i j y h hy hh h0 h1
      rw [At_zipWith G Ytrue Ypred _ i j y h hs hg hy hh]
      have hguard : crossEntropyLoss.guard (crossEntropyLoss.epsG : α) h = h := by
        simp [crossEntropyLoss.guard, not_le.mpr h0, not_le.mpr h1]
      simp only [crossEntropyLoss.Gfun, crossEntropyLoss.Gterm, hguard, Dense.Dims]
      congr 1; ring

/-- Witness of C8 on 2 x 1 matrices: the three losses write `(h - y) / 2`,
`(-y / h) / 2` and `(-y / h + (1 - y) / (1 - h)) / 2` at entry `(1, 0)`. -/
theorem Loss_grad_entries_witness :
    (∃ J G', squareLoss.Loss (α := ℚ) ⟨2, 1, [0, 1]⟩ ⟨2, 1, [1 / 2, 1 / 4]⟩
          (some ⟨2, 1, [7, 7]⟩) = some (J, some G') ∧
        G'.At 1 0 = some ((1 / 4 - 1) / 2)) ∧
    (∃ J G', logLoss.Loss (α := ℚ) (fun _ => 0) ⟨2, 1, [0, 1]⟩ ⟨2, 1, [1 / 2, 1 / 4]⟩
          (some ⟨2, 1, [7, 7]⟩) = some (J, some G') ∧
        G'.At 1 0 = some ((-1 / (1 / 4)) / 2)) ∧
    (∃ J G', crossEntropyLoss.Loss (α := ℚ) (fun _ => 0) ⟨2, 1, [0, 1]⟩
          ⟨2, 1, [1 / 2, 1 / 4]⟩ (some ⟨2, 1, [7, 7]⟩) = some (J, some G') ∧
        G'.At 1 0 = some ((-1 / (1 / 4) + (1 - 1) / (1 - 1 / 4)) / 2)) := by
  have key := Loss_grad_entries (α := ℚ) (fun _ => 0) ⟨2, 1, [0, 1]⟩ ⟨2, 1, [1 / 2, 1 / 4]⟩
    ⟨2, 1, [7, 7]⟩ ⟨rfl, rfl⟩ ⟨rfl, rfl⟩
  obtain ⟨⟨J1, G1, h1, -, -, -, e1⟩, ⟨J2, G2, h2, -, -, -, e2⟩, ⟨J3, G3, h3, -, -, -, e3⟩⟩ := key
  refine ⟨⟨J1, G1, h1, ?_⟩, ⟨J2, G2, h2, ?_⟩, ⟨J3, G3, h3, ?_⟩⟩
  · simpa using e1 1 0 1 (1 / 4) (by simp [Dense.At]) (by simp [Dense.At])
  · simpa using e2 1 0 1 (1 / 4) (by simp [Dense.At]) (by simp [Dense.At])
  · simpa using e3 1 0 1 (1 / 4) (by simp [Dense.At]) (by simp [Dense.At]) (by norm_num)
      (by norm_num)

/-- C9: on two rows with targets `0, 0` and predictions `2, 2` the square loss returns
`4`, the plain sum of `(h - y)^2 / 2` over the entries, where the mean over the two
samples is `2`; on the same rows the log loss does divide its sum by the row count. -/
theorem squareLoss_returns_sum :
    squareLoss.Loss (α := ℚ) ⟨2, 1, [0, 0]⟩ ⟨2, 1, [2, 2]⟩ none = some (4, none) ∧
    ((2 - 0) * (2 - 0) / 2 + (2 - 0) * (2 - 0) / 2 : ℚ) / 2 = 2 ∧
    logLoss.Loss (α := ℚ) (fun _ => -1) ⟨2, 1, [1, 1]⟩ ⟨2, 1, [2, 2]⟩ none =
      some ((1 + 1) / 2, none) := by
  refine ⟨?_, by norm_num, ?_⟩
  · simp only [squareLoss.Loss, matx.SumApplied2, squareLoss.Jfun, Option.bind_eq_bind,
      Option.some_bind, Option.pure_def, and_self, if_true, List.zipWith, List.sum_cons,
      List.sum_nil]
    norm_num
  · simp only [logLoss.Loss, matx.SumApplied2, logLoss.Jfun, Option.bind_eq_bind,
      Option.some_bind, Option.pure_def, and_self, if_true, List.zipWith, List.sum_cons,
      List.sum_nil, Dense.Dims]
    norm_num

/-- The constants `1e-15` and `1e-12` lie strictly between 0 and 1. -/
theorem eps_bounds :
    (0 : α) < crossEntropyLoss.epsJ ∧ (crossEntropyLoss.epsJ : α) < 1 ∧
    (0 : α) < crossEntropyLoss.epsG ∧ (crossEntropyLoss.epsG : α) < 1 := by
  unfold crossEntropyLoss.epsJ crossEntropyLoss.epsG
  refine ⟨by positivity, ?_, by positivity, ?_⟩
  · rw [div_lt_one (by positivity)]; norm_num
  · rw [div_lt_one (by positivity)]; norm_num

/-- The guarded value lies strictly between 0 and 1 as soon as `eps` does. -/
theorem guard_mem_Ioo (eps h : α) (h0 : 0 < eps) (h1 : eps < 1) :
    0 < crossEntropyLoss.guard eps h ∧ crossEntropyLoss.guard eps h < 1 := by
  unfold crossEntropyLoss.guard
  split_ifs with a b
  · exact ⟨h0, h1⟩
  · constructor <;> linarith
  · exact ⟨not_le.mp a, not_le.mp b⟩

/-- C10, as stated, fails: a prediction `0 < h < 1` is left as it is by the guard, so for
`h = 1e-16` the forward term is evaluated below `1e-15`, and for `h = 1e-13` the gradient
term is evaluated below `1e-12`. -/
theorem guard_below_eps :
    crossEntropyLoss.Jfun (α := ℚ) (fun x => x) 1 (1 / 10 ^ 16) =
      crossEntropyLoss.Jterm (fun x => x) 1 (1 / 10 ^ 16) ∧
    crossEntropyLoss.guard (α := ℚ) crossEntropyLoss.epsJ (1 / 10 ^ 16) = 1 / 10 ^ 16 ∧
    ¬ (crossEntropyLoss.epsJ ≤
        crossEntropyLoss.guard (α := ℚ) crossEntropyLoss.epsJ (1 / 10 ^ 16)) ∧
    crossEntropyLoss.guard (α := ℚ) crossEntropyLoss.epsG (1 / 10 ^ 13) = 1 / 10 ^ 13 ∧
    ¬ (crossEntropyLoss.epsG ≤
        crossEntropyLoss.guard (α := ℚ) crossEntropyLoss.epsG (1 / 10 ^ 13)) := by
  have g1 : crossEntropyLoss.guard (α := ℚ) crossEntropyLoss.epsJ (1 / 10 ^ 16) =
      1 / 10 ^ 16 := by
    unfold crossEntropyLoss.guard; norm_num
  have g2 : crossEntropyLoss.guard (α := ℚ) crossEntropyLoss.epsG (1 / 10 ^ 13) =
      1 / 10 ^ 13 := by
    unfold crossEntropyLoss.guard; norm_num
  refine ⟨?_, g1, ?_, g2, ?_⟩
  · unfold crossEntropyLoss.Jfun; rw [g1]
  · rw [g1]; unfold crossEntropyLoss.epsJ; norm_num
  · rw [g2]; unfold crossEntropyLoss.epsG; norm_num

/-- C10, amended: the cross-entropy closures guard the prediction before evaluating.  The
forward term is evaluated at `1e-15` when `h ≤ 0`, at `1 - 1e-15` when `h ≥ 1` and at `h`
itself when `0 < h < 1`; the gradient term likewise with `1e-12`.  The point of
evaluation therefore always lies strictly between 0 and 1, so neither `Log` nor a
division receives 0. -/
theorem guard_spec (Log : α → α) (y h : α) :
    crossEntropyLoss.Jfun Log y h =
      crossEntropyLoss.Jterm Log y (crossEntropyLoss.guard crossEntropyLoss.epsJ h) ∧
    crossEntropyLoss.Gfun y h =
      crossEntropyLoss.Gterm y (crossEntropyLoss.guard crossEntropyLoss.epsG h) ∧
    (h ≤ 0 → crossEntropyLoss.guard crossEntropyLoss.epsJ h = 1 / 10 ^ 15 ∧
      crossEntropyLoss.guard crossEntropyLoss.epsG h = 1 / 10 ^ 12) ∧
    (1 ≤ h → crossEntropyLoss.guard crossEntropyLoss.epsJ h = 1 - 1 / 10 ^ 15 ∧
      crossEntropyLoss.guard crossEntropyLoss.epsG h = 1 - 1 / 10 ^ 12) ∧
    (0 < h → h < 1 → crossEntropyLoss.guard crossEntropyLoss.epsJ h = h ∧
      crossEntropyLoss.guard crossEntropyLoss.epsG h = h) ∧
    (0 < crossEntropyLoss.guard crossEntropyLoss.epsJ h ∧
      crossEntropyLoss.guard crossEntropyLoss.epsJ h < 1) ∧
    (0 < crossEntropyLoss.guard crossEntropyLoss.epsG h ∧
      crossEntropyLoss.guard crossEntropyLoss.epsG h < 1) ∧
    (crossEntropyLoss.guard crossEntropyLoss.epsJ h ≠ 0 ∧
      1 - crossEntropyLoss.guard crossEntropyLoss.epsJ h ≠ 0) ∧
    (crossEntropyLoss.guard crossEntropyLoss.epsG h ≠ 0 ∧
      1 - crossEntropyLoss.guard crossEntropyLoss.epsG h ≠ 0) := by
  obtain ⟨j0, j1, g0, g1⟩ := eps_bounds (α := α)
  have hJ := guard_mem_Ioo crossEntropyLoss.epsJ h j0 j1
  have hG := guard_mem_Ioo crossEntropyLoss.epsG h g0 g1
  refine ⟨rfl, rfl, ?_, ?_, ?_, hJ, hG, ⟨ne_of_gt hJ.1, ?_⟩, ⟨ne_of_gt hG.1, ?_⟩⟩
  · intro hle
    simp [crossEntropyLoss.guard, hle, crossEntropyLoss.epsJ, crossEntropyLoss.epsG]
  · intro hge
    have hn : ¬ h ≤ 0 := by
      intro hc; linarith
    simp [crossEntropyLoss.guard, hge, hn, crossEntropyLoss.epsJ, crossEntropyLoss.epsG]
  · intro hp hl
    simp [crossEntropyLoss.guard, not_le.mpr hp, not_le.mpr hl]
  · have := hJ.2
    exact ne_of_gt (by linarith)
  · have := hG.2
    exact ne_of_gt (by linarith)

/-- Witness of C10 (amended) at a prediction below 0, above 1 and inside `(0, 1)`. -/
theorem guard_spec_witness :
    crossEntropyLoss.guard (α := ℚ) crossEntropyLoss.epsJ (-3) = 1 / 10 ^ 15 ∧
    crossEntropyLoss.guard (α := ℚ) crossEntropyLoss.epsG 2 = 1 - 1 / 10 ^ 12 ∧
    crossEntropyLoss.guard (α := ℚ) crossEntropyLoss.epsJ (1 / 2) = 1 / 2 :=
  ⟨((guard_spec (α := ℚ) (fun x => x) 0 (-3)).2.2.1 (by norm_num)).1,
   ((guard_spec (α := ℚ) (fun x => x) 0 2).2.2.2.1 (by norm_num)).2,
   ((guard_spec (α := ℚ) (fun x => x) 0 (1 / 2)).2.2.2.2.1 (by norm_num) (by norm_num)).1⟩

end LossProofs

/-! ## Activation functions -/

/-- Copying a matrix into a receiver of the same shape replaces the whole content. -/
theorem Copy_of_shape [Inhabited α] (h z : Dense α) (hs : h.rows = z.rows ∧ h.cols = z.cols)
    (hh : h.WellFormed) (hz : z.WellFormed) : h.Copy z = { h with data := z.data } := by
  unfold Dense.WellFormed at hh hz
  have hlen : h.data.length = z.data.length := by rw [hh, hz, hs.1, hs.2]
  unfold Dense.Copy
  congr 1
  apply List.ext_getElem
  · simp [hlen]
  · intro k h1 h2
    have hk : k < h.rows * h.cols := by
      have : k < h.data.length := by simpa using h1
      rwa [hh] at this
    have hc : h.cols ≠ 0 := by
      intro h0; rw [h0] at hk; simp at hk
    have hdiv : k / h.cols < z.rows := by
      rw [← hs.1]; exact Nat.div_lt_of_lt_mul (by rwa [Nat.mul_comm] at hk)
    have hmod : k % h.cols < z.cols := by
      rw [← hs.2]; exact Nat.mod_lt _ (Nat.pos_of_ne_zero hc)
    have hidx : k / h.cols * z.cols + k % h.cols = k := by
      rw [← hs.2]; exact Nat.div_add_mod' k h.cols
    simp only [List.getElem_map, List.getElem_range, hc, hdiv, hmod, hidx, ne_eq,
      not_false_eq_true, and_self, if_true]
    exact List.getD_eq_getElem z.data _ h2

/-- The derivative of the logistic function at `z` is `h * (1 - h)` with `h` its value. -/
theorem logistic_hasDerivAt (z : ℝ) :
    HasDerivAt (logisticActivation.fn Real.exp)
      (logisticActivation.gradFn (logisticActivation.fn Real.exp z)) z := by
  have h1 : HasDerivAt (fun z : ℝ => Real.exp (-z)) (Real.exp (-z) * (-1)) z :=
    (Real.hasDerivAt_exp (-z)).comp z (hasDerivAt_neg z)
  have h2 : HasDerivAt (fun z : ℝ => 1 + Real.exp (-z)) (Real.exp (-z) * (-1)) z :=
    h1.const_add 1
  have hpos : (1 + Real.exp (-z)) ≠ 0 := by positivity
  have h3 := (hasDerivAt_const z (1 : ℝ)).div h2 hpos
  unfold logisticActivation.gradFn
  show HasDerivAt (fun z : ℝ => 1 / (1 + Real.exp (-z)))
    (1 / (1 + Real.exp (-z)) * (1 - 1 / (1 + Real.exp (-z)))) z
  convert h3 using 1
  field_simp
  ring

/-- The derivative of `tanh` at `z` is `1 - h * h` with `h` its value. -/
theorem tanh_hasDerivAt (z : ℝ) :
    HasDerivAt (tanhActivation.fn Real.tanh)
      (tanhActivation.gradFn (tanhActivation.fn Real.tanh z)) z := by
  have hc : Real.cosh z ≠ 0 := ne_of_gt (Real.cosh_pos z)
  have h := (Real.hasDerivAt_sinh z).div (Real.hasDerivAt_cosh z) hc
  have e : (fun x => Real.sinh x / Real.cosh x) = Real.tanh :=
    funext fun x => (Real.tanh_eq_sinh_div_cosh x).symm
  have hv : (Real.cosh z * Real.cosh z - Real.sinh z * Real.sinh z) / Real.cosh z ^ 2 =
      1 - Real.tanh z * Real.tanh z := by
    rw [Real.tanh_eq_sinh_div_cosh, div_eq_iff (pow_ne_zero 2 hc)]
    have h2 : Real.sinh z / Real.cosh z * Real.cosh z = Real.sinh z := div_mul_cancel₀ _ hc
    calc Real.cosh z * Real.cosh z - Real.sinh z * Real.sinh z
        = Real.cosh z * Real.cosh z - (Real.sinh z / Real.cosh z * Real.cosh z) *
            (Real.sinh z / Real.cosh z * Real.cosh z) := by rw [h2]
      _ = (1 - Real.sinh z / Real.cosh z * (Real.sinh z / Real.cosh z)) * Real.cosh z ^ 2 := by
          ring
  rw [e, hv] at h
  exact h

/-- Away from 0 the derivative of `max 0 z` is 0 or 1 according to the sign of its
value. -/
theorem relu_hasDerivAt (z : ℝ) (hz : z ≠ 0) :
    HasDerivAt reluActivation.fn (reluActivation.gradFn (reluActivation.fn z)) z := by
  unfold reluActivation.gradFn
  show HasDerivAt (fun z : ℝ => max 0 z) (if max 0 z ≤ 0 then 0 else 1) z
  rcases lt_or_gt_of_ne hz with hneg | hpos
  · have e : (fun z : ℝ => max 0 z) =ᶠ[nhds z] fun _ => (0 : ℝ) :=
      Filter.eventuallyEq_of_mem (Iio_mem_nhds hneg) (fun x hx => max_eq_left (le_of_lt hx))
    have : max 0 z ≤ 0 := by rw [max_eq_left (le_of_lt hneg)]
    rw [if_pos this]
    exact (hasDerivAt_const z (0 : ℝ)).congr_of_eventuallyEq e
  · have e : (fun z : ℝ => max 0 z) =ᶠ[nhds z] fun x => x :=
      Filter.eventuallyEq_of_mem (Ioi_mem_nhds hpos) (fun x hx => max_eq_right (le_of_lt hx))
    have : ¬ max 0 z ≤ 0 := by rw [max_eq_right (le_of_lt hpos)]; exact not_le.mpr hpos
    rw [if_neg this]
    exact (hasDerivAt_id' z).congr_of_eventuallyEq e

/-- On matrices of one shape `Func` writes its closure of every entry of `z` into `h`. -/
theorem Func_of_shape [LinearOrderedField α] [Inhabited α] (Exp Tanh : α → α)
    (a : ActivationFunctions) (Z H : Dense α) (hs : H.rows = Z.rows ∧ H.cols = Z.cols)
    (hH : H.WellFormed) (hZ : Z.WellFormed) :
    a.Func Exp Tanh Z H = some { H with data := Z.data.map (a.fn Exp Tanh) } := by
  cases a
  · simp only [ActivationFunctions.Func, identityActivation.Func, Copy_of_shape H Z hs hH hZ,
      ActivationFunctions.fn]
    have : (identityActivation.fn : α → α) = id := rfl
    rw [this, List.map_id]
  · simp [ActivationFunctions.Func, logisticActivation.Func, matx.CopyApplied, hs,
      ActivationFunctions.fn]
  · simp [ActivationFunctions.Func, tanhActivation.Func, matx.CopyApplied, hs,
      ActivationFunctions.fn]
  · simp [ActivationFunctions.Func, reluActivation.Func, matx.CopyApplied, hs,
      ActivationFunctions.fn]

/-- On matrices of one shape `Grad` writes its closure of every entry of `h` into
`grad`. -/
theorem Grad_of_shape [LinearOrderedField α] (a : ActivationFunctions) (Z H G : Dense α)
    (hs : G.rows = H.rows ∧ G.cols = H.cols) :
    a.Grad Z H G = some { G with data := H.data.map a.gradFn } := by
  cases a <;>
    simp [ActivationFunctions.Grad, identityActivation.Grad, logisticActivation.Grad,
      tanhActivation.Grad, reluActivation.Grad, matx.CopyApplied, hs,
      ActivationFunctions.gradFn]

/-- C5: for each of the four activations, `Grad` computed from the output `h = Func(z)`
is the analytic derivative of `Func` at `z`: `1` for the identity, `h * (1 - h)` for the
logistic function `1 / (1 + exp(-z))`, `1 - h * h` for `tanh`, and `1` if `h > 0` else `0`
for `max 0 z` at every `z ≠ 0`.  On matrices of one shape `Func` followed by `Grad` writes
that derivative for every entry, and the result of `Grad` never depends on its argument
`z`. -/
theorem Grad_eq_deriv_of_Func :
    (∀ z : ℝ, HasDerivAt identityActivation.fn
        (identityActivation.gradFn (identityActivation.fn z)) z ∧
      identityActivation.gradFn (identityActivation.fn z) = 1) ∧
    (∀ z : ℝ, HasDerivAt (logisticActivation.fn Real.exp)
        (logisticActivation.gradFn (logisticActivation.fn Real.exp z)) z ∧
      logisticActivation.gradFn (logisticActivation.fn Real.exp z) =
        1 / (1 + Real.exp (-z)) * (1 - 1 / (1 + Real.exp (-z)))) ∧
    (∀ z : ℝ, HasDerivAt (tanhActivation.fn Real.tanh)
        (tanhActivation.gradFn (tanhActivation.fn Real.tanh z)) z ∧
      tanhActivation.gradFn (tanhActivation.fn Real.tanh z) =
        1 - Real.tanh z * Real.tanh z) ∧
    (∀ z : ℝ, z ≠ 0 →
      HasDerivAt reluActivation.fn (reluActivation.gradFn (reluActivation.fn z)) z ∧
      reluActivation.gradFn (reluActivation.fn z) = if max 0 z > 0 then 1 else 0) ∧
    (∀ (β : Type) [LinearOrderedField β] [Inhabited β] (Exp Tanh : β → β)
        (a : ActivationFunctions) (Z H G : Dense β),
      Z.WellFormed → H.WellFormed → (H.rows = Z.rows ∧ H.cols = Z.cols) →
      (G.rows = H.rows ∧ G.cols = H.cols) →
      ∃ H' G', a.Func Exp Tanh Z H = some H' ∧ a.Grad Z H' G = some G' ∧
        H'.data = Z.data.map (a.fn Exp Tanh) ∧
        G'.data = Z.data.map (fun z => a.gradFn (a.fn Exp Tanh z))) ∧
    (∀ (β : Type) [LinearOrderedField β] (a : ActivationFunctions) (Z Z' H G : Dense β),
      a.Grad Z H G = a.Grad Z' H G) := by
  refine ⟨fun z => ⟨hasDerivAt_id' z, rfl⟩, fun z => ⟨logistic_hasDerivAt z, rfl⟩,
    fun z => ⟨tanh_hasDerivAt z, rfl⟩, fun z hz => ⟨relu_hasDerivAt z hz, ?_⟩, ?_, ?_⟩
  · unfold reluActivation.gradFn reluActivation.fn
    by_cases h : max 0 z ≤ 0
    · rw [if_pos h, if_neg (not_lt.mpr h)]
    · rw [if_neg h, if_pos (not_le.mp h)]
  · intro β _ _ Exp Tanh a Z H G hZ hH hs hg
    refine ⟨_, _, Func_of_shape Exp Tanh a Z H hs hH hZ,
      Grad_of_shape a Z _ G hg, rfl, ?_⟩
    simp [List.map_map, Function.comp_def]
  · intro β _ a Z Z' H G
    cases a <;> rfl

/-- Witness of C5: the relu derivative at `z = 2`, and `Func` then `Grad` of the relu
activation on the row `-1, 3`. -/
theorem Grad_eq_deriv_of_Func_witness :
    HasDerivAt reluActivation.fn
      (reluActivation.gradFn (reluActivation.fn (2 : ℝ))) (2 : ℝ) ∧
    ∃ H' G', ActivationFunctions.reluActivation.Func (α := ℚ) (fun x => x) (fun x => x)
        ⟨1, 2, [-1, 3]⟩ ⟨1, 2, [7, 7]⟩ = some H' ∧
      ActivationFunctions.reluActivation.Grad ⟨1, 2, [-1, 3]⟩ H' ⟨1, 2, [9, 9]⟩ = some G' ∧
      H'.data = [0, 3] ∧ G'.data = [0, 1] := by
  refine ⟨(Grad_eq_deriv_of_Func.2.2.2.1 2 (by norm_num)).1, ?_⟩
  obtain ⟨H', G', h1, h2, h3, h4⟩ := Grad_eq_deriv_of_Func.2.2.2.2.1 ℚ (fun x => x)
    (fun x => x) ActivationFunctions.reluActivation ⟨1, 2, [-1, 3]⟩ ⟨1, 2, [7, 7]⟩
    ⟨1, 2, [9, 9]⟩ rfl rfl ⟨rfl, rfl⟩ ⟨rfl, rfl⟩
  refine ⟨H', G', h1, h2, ?_, ?_⟩
  · rw [h3]; simp [ActivationFunctions.fn, reluActivation.fn]
  · rw [h4]; simp [ActivationFunctions.fn, ActivationFunctions.gradFn, reluActivation.fn,
      reluActivation.gradFn]

/-! ## Allocation of the layers -/

/-- The random source is called once per requested draw. -/
theorem drawN_length {σ : Type} (rnd : σ → α × σ) (n : Nat) (s : σ) :
    (drawN rnd n s).1.length = n := by
  induction n generalizing s with
  | zero => rfl
  | succ n ih => simp [drawN, ih]

/-- Writing inside the buffer keeps its length. -/
theorem writeAt_length (buf : List α) (off : Nat) (xs : List α)
    (h : off + xs.length ≤ buf.length) : (writeAt buf off xs).length = buf.length := by
  simp only [writeAt, List.length_append, List.length_take, List.length_drop]
  omega

/-- A slice expression that does not panic has ordered bounds inside the capacity. -/
theorem Slice.sub_eq_some (cap lo hi : Int) (w : Slice) (h : Slice.sub cap lo hi = some w) :
    w = { off := lo, len := hi - lo } ∧ 0 ≤ lo ∧ lo ≤ hi ∧ hi ≤ cap := by
  unfold Slice.sub at h
  split at h
  · next hc => exact ⟨(Option.some.inj h).symm, hc⟩
  · exact absurd h (by simp)

/-- A call of `NewDense` that does not panic: the dimensions are accepted and the view
is the window it was given. -/
theorem NewDense_eq_some (zeroOK : Bool) (r c : Int) (w : Slice) (v : ThetaView)
    (h : NewDense zeroOK r c w = some v) :
    v = { rows := r, cols := c, region := w } ∧ 0 ≤ r ∧ 0 ≤ c ∧ r * c = w.len ∧
      (zeroOK = false → 0 < r ∧ 0 < c) := by
  unfold NewDense at h
  split at h
  · exact absurd h (by simp)
  · next h1 =>
    split at h
    · exact absurd h (by simp)
    · next h2 =>
      split at h
      · exact absurd h (by simp)
      · next h3 =>
        refine ⟨(Option.some.inj h).symm, by omega, by omega, by simpa using h3, ?_⟩
        intro hz
        simp only [hz, Bool.false_eq_true, not_false_eq_true, true_and, not_or] at h2
        omega

/-- A call of `NewLayer` that does not panic: the layer it returns and the buffer. -/
theorem NewLayer_eq_some {Opt σ : Type} (zeroOK : Bool) (r c : Int) (act : String)
    (opt : Opt) (mem : List α) (w : Slice) (rnd : σ → α × σ) (s : σ)
    (L : Layer α Opt) (mem1 : List α) (s1 : σ)
    (h : NewLayer zeroOK r c act opt mem w rnd s = some (L, mem1, s1)) :
    L.Theta = { rows := r, cols := c, region := w } ∧ L.Activation = act ∧
      0 ≤ r ∧ 0 ≤ c ∧ r * c = w.len ∧ (zeroOK = false → 0 < r ∧ 0 < c) ∧
      mem1 = writeAt mem w.off.toNat (drawN rnd (r * c).toNat s).1 := by
  unfold NewLayer at h
  split at h
  · exact absurd h (by simp)
  · next Theta hT =>
    obtain ⟨rfl, h1, h2, h3, h4⟩ := NewDense_eq_some zeroOK r c w Theta hT
    simp only [Option.some.injEq, Prod.mk.injEq] at h
    obtain ⟨rfl, rfl, rfl⟩ := h
    exact ⟨rfl, rfl, h1, h2, h3, h4, rfl⟩

/-- Invariant of the second loop of `allocLayers`: when it does not panic it appends the
views of `layout`, ends on the offset and input count that the first loop computes, and
keeps the length of the parameter buffer and the configuration. -/
theorem layerLoop_eq_some {Opt σ : Type} (zeroOK : Bool) (rnd : σ → α × σ) (hs : List Int) :
    ∀ (regr : MLPRegressor α Opt) (off prev : Int) (s : σ)
      (regr1 : MLPRegressor α Opt) (off1 prev1 : Int) (s1 : σ),
      allocLayers.layerLoop zeroOK rnd hs regr off prev s = some (regr1, off1, prev1, s1) →
      regr1.Layers.map (fun L => L.Theta) =
        regr.Layers.map (fun L => L.Theta) ++ layout off prev hs ∧
      (off1, prev1) = allocLayers.sizeLoop hs off prev ∧
      regr1.thetaSlice.length = regr.thetaSlice.length ∧
      regr1.Optimizer = regr.Optimizer ∧ regr1.LossName = regr.LossName ∧
      regr1.Activation = regr.Activation ∧
      (∀ v ∈ layout off prev hs, 0 ≤ v.rows ∧ 0 ≤ v.cols ∧
        (zeroOK = false → 0 < v.rows ∧ 0 < v.cols)) ∧
      (hs ≠ [] → 0 ≤ off) := by
  induction hs with
  | nil =>
    intro regr off prev s regr1 off1 prev1 s1 h
    simp only [allocLayers.layerLoop, Option.some.injEq, Prod.mk.injEq] at h
    obtain ⟨rfl, rfl, rfl, rfl⟩ := h
    simp [layout, allocLayers.sizeLoop]
  | cons o rest ih =>
    intro regr off prev s regr1 off1 prev1 s1 h
    simp only [allocLayers.layerLoop] at h
    split at h
    · exact absurd h (by simp)
    · next creator hO =>
      split at h
      · exact absurd h (by simp)
      · next window hW =>
        split at h
        · exact absurd h (by simp)
        · next L mem s2 hL =>
          obtain ⟨rfl, w0, w1, w2⟩ := Slice.sub_eq_some _ _ _ _ hW
          obtain ⟨hT, -, r0, c0, rc, rz, rfl⟩ := NewLayer_eq_some _ _ _ _ _ _ _ _ _ _ _ _ hL
          obtain ⟨i1, i2, i3, i4, i5, i6, i7, -⟩ := ih _ _ _ _ _ _ _ _ h
          have hlen : (writeAt regr.thetaSlice off.toNat
              (drawN rnd ((1 + prev) * o).toNat s).1).length = regr.thetaSlice.length := by
            apply writeAt_length
            rw [drawN_length]
            have : (1 + prev) * o = off + (1 + prev) * o - off := by ring
            omega
          refine ⟨?_, ?_, ?_, i4, i5, i6, ?_, fun _ => w0⟩
          · rw [i1]
            simp [layout, hT]
          · rw [i2]; rfl
          · rw [i3]; exact hlen
          · intro v hv
            simp only [layout, List.mem_cons] at hv
            rcases hv with rfl | hv
            · exact ⟨r0, c0, rz⟩
            · exact i7 v hv

/-- The first loop of `allocLayers` after one more output count. -/
theorem sizeLoop_append (hs : List Int) (o : Int) :
    ∀ tl prev : Int, allocLayers.sizeLoop (hs ++ [o]) tl prev =
      ((allocLayers.sizeLoop hs tl prev).1 + (1 + (allocLayers.sizeLoop hs tl prev).2) * o,
        o) := by
  induction hs with
  | nil => intro tl prev; rfl
  | cons a rest ih =>
    intro tl prev
    rw [List.cons_append]
    simp only [allocLayers.sizeLoop]
    exact ih _ _

/-- The views of one more layer are appended at the offset the first loop reaches. -/
theorem layout_append (hs : List Int) (o : Int) :
    ∀ off prev : Int, layout off prev (hs ++ [o]) = layout off prev hs ++
      [{ rows := 1 + (allocLayers.sizeLoop hs off prev).2, cols := o,
         region := { off := (allocLayers.sizeLoop hs off prev).1,
                     len := (1 + (allocLayers.sizeLoop hs off prev).2) * o } }] := by
  induction hs with
  | nil => intro off prev; rfl
  | cons a rest ih =>
    intro off prev
    rw [List.cons_append]
    simp only [layout, allocLayers.sizeLoop, List.cons_append]
    rw [ih]

/-- With non-negative sizes the first loop of `allocLayers` only increases `thetaLen`. -/
theorem sizeLoop_mono (hs : List Int) :
    ∀ tl prev : Int, 0 ≤ prev → (∀ o ∈ hs, 0 ≤ o) →
      tl ≤ (allocLayers.sizeLoop hs tl prev).1 ∧ 0 ≤ (allocLayers.sizeLoop hs tl prev).2 := by
  induction hs with
  | nil => intro tl prev hp _; exact ⟨le_refl _, hp⟩
  | cons a rest ih =>
    intro tl prev hp ho
    have ha : 0 ≤ a := ho a (List.mem_cons_self _ _)
    have hrest := ih (tl + (1 + prev) * a) a ha (fun o h => ho o (List.mem_cons_of_mem _ h))
    have hm : 0 ≤ (1 + prev) * a := mul_nonneg (by omega) ha
    simp only [allocLayers.sizeLoop]
    exact ⟨by omega, hrest.2⟩

/-- A call of `NewLayer` with accepted dimensions and a window of the right length does
not panic. -/
theorem NewLayer_of_dims {Opt σ : Type} (zeroOK : Bool) (r c : Int) (act : String)
    (opt : Opt) (mem : List α) (w : Slice) (rnd : σ → α × σ) (s : σ)
    (hr : 0 < r) (hc : (if zeroOK then 0 else 1) ≤ c) (hlen : r * c = w.len) :
    NewLayer zeroOK r c act opt mem w rnd s =
      some ({ Activation := act, Theta := { rows := r, cols := c, region := w },
              Optimizer := opt },
        writeAt mem w.off.toNat (drawN rnd (r * c).toNat s).1,
        (drawN rnd (r * c).toNat s).2) := by
  have h1 : ¬ (r < 0 ∨ c < 0) := by
    cases zeroOK <;> simp at hc <;> omega
  have h2 : ¬ (¬ (zeroOK = true) ∧ (r = 0 ∨ c = 0)) := by
    cases zeroOK
    · simp only [Bool.false_eq_true, if_false] at hc
      omega
    · simp
  simp only [NewLayer, NewDense, h1, h2, if_false, hlen, ne_eq, not_true_eq_false]

/-- With a creator of optimizers, non-negative offset and input count, accepted output
counts and a buffer that reaches the offset computed by the first loop, the second loop of
`allocLayers` does not panic. -/
theorem layerLoop_isSome {Opt σ : Type} (zeroOK : Bool) (rnd : σ → α × σ) (hs : List Int) :
    ∀ (regr : MLPRegressor α Opt) (off prev : Int) (s : σ),
      regr.Optimizer.isSome → 0 ≤ off → 0 ≤ prev →
      (∀ o ∈ hs, (if zeroOK then 0 else 1) ≤ o) →
      (allocLayers.sizeLoop hs off prev).1 ≤ regr.thetaSlice.length →
      ∃ r, allocLayers.layerLoop zeroOK rnd hs regr off prev s = some r := by
  induction hs with
  | nil => intro regr off prev s _ _ _ _ _; exact ⟨_, rfl⟩
  | cons a rest ih =>
    intro regr off prev s hO hoff hprev hsz hcap
    have hlo : ∀ o ∈ a :: rest, 0 ≤ o := by
      intro o ho
      have := hsz o ho
      cases zeroOK <;> simp at this <;> omega
    have ha : 0 ≤ a := hlo a (List.mem_cons_self _ _)
    have hm : 0 ≤ (1 + prev) * a := mul_nonneg (by omega) ha
    simp only [allocLayers.sizeLoop] at hcap
    have hmono := sizeLoop_mono rest (off + (1 + prev) * a) a ha
      (fun o h => hlo o (List.mem_cons_of_mem _ h))
    obtain ⟨creator, hcr⟩ := Option.isSome_iff_exists.mp hO
    have hw : Slice.sub regr.thetaSlice.length off (off + (1 + prev) * a) =
        some { off := off, len := off + (1 + prev) * a - off } := by
      have : 0 ≤ off ∧ off ≤ off + (1 + prev) * a ∧
          off + (1 + prev) * a ≤ regr.thetaSlice.length := ⟨hoff, by omega, by omega⟩
      simp only [Slice.sub, this, and_self, if_true]
    have hL := @NewLayer_of_dims α Opt σ zeroOK (1 + prev) a regr.Activation (creator ())
      regr.thetaSlice { off := off, len := off + (1 + prev) * a - off } rnd s (by omega)
      (hsz a (List.mem_cons_self _ _)) (by simp)
    simp only [allocLayers.layerLoop, hcr, hw, hL]
    apply ih
    · rfl
    · omega
    · exact ha
    · exact fun o h => hsz o (List.mem_cons_of_mem _ h)
    · have hlen : (writeAt regr.thetaSlice off.toNat
          (drawN rnd ((1 + prev) * a).toNat s).1).length = regr.thetaSlice.length := by
        apply writeAt_length
        rw [drawN_length]
        omega
      show (allocLayers.sizeLoop rest (off + (1 + prev) * a) a).1 ≤
        ((writeAt regr.thetaSlice off.toNat
          (drawN rnd ((1 + prev) * a).toNat s).1).length : Int)
      rw [hlen]; exact hcap

/-- There is one view per output count. -/
theorem layout_length (outs : List Int) :
    ∀ off prev : Int, (layout off prev outs).length = outs.length := by
  induction outs with
  | nil => intro off prev; rfl
  | cons o rest ih => intro off prev; simp [layout, ih]

/-- The first view starts at the starting offset. -/
theorem layout_head (outs : List Int) (off prev : Int) (v : ThetaView)
    (h : (layout off prev outs)[0]? = some v) : v.region.off = off := by
  cases outs with
  | nil => simp [layout] at h
  | cons o rest =>
    simp only [layout, List.getElem?_cons_zero, Option.some.injEq] at h
    rw [← h]

/-- The view of index `k` has one more row than the `k`-th input count, as many columns as
the `k`-th output count, and a window of `rows * cols` entries. -/
theorem layout_dims (outs : List Int) :
    ∀ (off prev : Int) (k : Nat) (v : ThetaView), (layout off prev outs)[k]? = some v →
      ∃ i o, (prev :: outs)[k]? = some i ∧ outs[k]? = some o ∧
        v.rows = 1 + i ∧ v.cols = o ∧ v.region.len = (1 + i) * o := by
  induction outs with
  | nil => intro off prev k v h; simp [layout] at h
  | cons o rest ih =>
    intro off prev k v h
    cases k with
    | zero =>
      simp only [layout, List.getElem?_cons_zero, Option.some.injEq] at h
      exact ⟨prev, o, by simp, by simp, by rw [← h], by rw [← h], by rw [← h]⟩
    | succ k =>
      simp only [layout, List.getElem?_cons_succ] at h
      obtain ⟨i, o1, h1, h2, h3⟩ := ih _ _ k v h
      exact ⟨i, o1, by simpa using h1, by simpa using h2, h3⟩

/-- Each view starts where the previous one ends. -/
theorem layout_next (outs : List Int) :
    ∀ (off prev : Int) (k : Nat) (v w : ThetaView), (layout off prev outs)[k]? = some v →
      (layout off prev outs)[k + 1]? = some w →
      w.region.off = v.region.off + v.region.len := by
  induction outs with
  | nil => intro off prev k v w h; simp [layout] at h
  | cons o rest ih =>
    intro off prev k v w hv hw
    simp only [layout, List.getElem?_cons_succ] at hw
    cases k with
    | zero =>
      simp only [layout, List.getElem?_cons_zero, Option.some.injEq] at hv
      rw [layout_head rest _ _ w hw, ← hv]
    | succ k =>
      simp only [layout, List.getElem?_cons_succ] at hv
      exact ih _ _ k v w hv hw

/-- The areas `rows * cols` of the views add up to the advance of the offset. -/
theorem layout_sum (outs : List Int) :
    ∀ off prev : Int, ((layout off prev outs).map fun v => v.rows * v.cols).sum =
      (allocLayers.sizeLoop outs off prev).1 - off := by
  induction outs with
  | nil => intro off prev; simp [layout, allocLayers.sizeLoop]
  | cons o rest ih =>
    intro off prev
    simp only [layout, allocLayers.sizeLoop, List.map_cons, List.sum_cons, ih]
    ring

/-- With non-negative dimensions every view lies between the starting offset and the
offset that the first loop reaches. -/
theorem layout_bounds (outs : List Int) :
    ∀ off prev : Int, (∀ v ∈ layout off prev outs, 0 ≤ v.rows ∧ 0 ≤ v.cols) →
      off ≤ (allocLayers.sizeLoop outs off prev).1 ∧
      ∀ v ∈ layout off prev outs, off ≤ v.region.off ∧
        v.region.off + v.region.len ≤ (allocLayers.sizeLoop outs off prev).1 := by
  induction outs with
  | nil => intro off prev _; simp [layout, allocLayers.sizeLoop]
  | cons o rest ih =>
    intro off prev hn
    have h0 := hn _ (List.mem_cons_self _ _)
    have ht : 0 ≤ (1 + prev) * o := mul_nonneg h0.1 h0.2
    obtain ⟨i1, i2⟩ := ih (off + (1 + prev) * o) o
      (fun v hv => hn v (List.mem_cons_of_mem _ hv))
    simp only [allocLayers.sizeLoop]
    refine ⟨by omega, ?_⟩
    intro v hv
    simp only [layout, List.mem_cons] at hv
    rcases hv with rfl | hv
    · exact ⟨le_refl _, i1⟩
    · have := i2 v hv
      exact ⟨by omega, this.2⟩

/-- With non-negative dimensions the windows of the views tile the interval between the
starting offset and the offset that the first loop reaches: each index of the interval
lies in the window of exactly one view. -/
theorem layout_partition (outs : List Int) :
    ∀ off prev : Int, (∀ v ∈ layout off prev outs, 0 ≤ v.rows ∧ 0 ≤ v.cols) →
      ∀ i : Int, off ≤ i → i < (allocLayers.sizeLoop outs off prev).1 →
      ∃! k : Nat, ∃ v, (layout off prev outs)[k]? = some v ∧
        v.region.off ≤ i ∧ i < v.region.off + v.region.len := by
  induction outs with
  | nil =>
    intro off prev _ i h1 h2
    simp only [allocLayers.sizeLoop] at h2
    omega
  | cons o rest ih =>
    intro off prev hn i h1 h2
    have hrest : ∀ v ∈ layout (off + (1 + prev) * o) o rest, 0 ≤ v.rows ∧ 0 ≤ v.cols :=
      fun v hv => hn v (List.mem_cons_of_mem _ hv)
    have hb := (layout_bounds rest (off + (1 + prev) * o) o hrest).2
    simp only [allocLayers.sizeLoop] at h2
    by_cases hi : i < off + (1 + prev) * o
    · refine ⟨0, ⟨ThetaView.mk (1 + prev) o (Slice.mk off ((1 + prev) * o)),
        by simp [layout], h1, hi⟩, ?_⟩
      rintro k ⟨v, hv, hv1, hv2⟩
      cases k with
      | zero => rfl
      | succ k =>
        simp only [layout, List.getElem?_cons_succ] at hv
        have := (hb v (List.getElem?_mem hv)).1
        omega
    · obtain ⟨j, ⟨v, hv, hv1, hv2⟩, huniq⟩ := ih _ _ hrest i (by omega) h2
      refine ⟨j + 1, ⟨v, by simpa [layout] using hv, hv1, hv2⟩, ?_⟩
      rintro k ⟨w, hw, hw1, hw2⟩
      cases k with
      | zero =>
        simp only [layout, List.getElem?_cons_zero, Option.some.injEq] at hw
        rw [← hw] at hw2
        exact absurd hw2 hi
      | succ k =>
        simp only [layout, List.getElem?_cons_succ] at hw
        rw [huniq k ⟨w, hw, hw1, hw2⟩]

/-- A call of `make` that does not panic returns a buffer of the requested length. -/
theorem makeSlice_eq_some [Zero α] (n : Int) (buf : List α) (h : makeSlice n = some buf) :
    0 ≤ n ∧ (buf.length : Int) = n := by
  unfold makeSlice at h
  split at h
  · next hn =>
    rw [← Option.some.inj h, List.length_replicate]
    exact ⟨hn, Int.toNat_of_nonneg hn⟩
  · exact absurd h (by simp)

/-- Result of `allocLayers` when it does not panic: the views of the layers are those of
`layout` for the hidden sizes followed by the output count, and the parameter buffer ends
where the last view ends. -/
theorem allocLayers_eq_some {Opt σ : Type} [Zero α] (zeroOK : Bool)
    (regr : MLPRegressor α Opt) (nFeatures nOutputs : Int) (rnd : σ → α × σ) (s : σ)
    (regr1 : MLPRegressor α Opt) (s1 : σ)
    (h : allocLayers zeroOK regr nFeatures nOutputs rnd s = some (regr1, s1)) :
    regr1.Layers.map (fun L => L.Theta) =
      layout 0 nFeatures (regr.HiddenLayerSizes ++ [nOutputs]) ∧
    (regr1.thetaSlice.length : Int) =
      (allocLayers.sizeLoop (regr.HiddenLayerSizes ++ [nOutputs]) 0 nFeatures).1 ∧
    (∀ v ∈ layout 0 nFeatures (regr.HiddenLayerSizes ++ [nOutputs]),
      0 ≤ v.rows ∧ 0 ≤ v.cols ∧ (zeroOK = false → 0 < v.rows ∧ 0 < v.cols)) := by
  unfold allocLayers at h
  simp only at h
  split at h
  · exact absurd h (by simp)
  · next buf hbuf =>
    obtain ⟨-, hblen⟩ := makeSlice_eq_some _ _ hbuf
    split at h
    · exact absurd h (by simp)
    · next regr2 off prev s2 hloop =>
      obtain ⟨l1, l2, l3, -, -, -, l7, -⟩ := layerLoop_eq_some _ _ _ _ _ _ _ _ _ _ _ hloop
      simp only [List.map_nil, List.nil_append] at l1 l3
      split at h
      · exact absurd h (by simp)
      · next creator hO =>
        split at h
        · exact absurd h (by simp)
        · next window hW =>
          split at h
          · exact absurd h (by simp)
          · next L mem s3 hL =>
            obtain ⟨rfl, w0, w1, w2⟩ := Slice.sub_eq_some _ _ _ _ hW
            obtain ⟨hT, -, r0, c0, rc, rz, rfl⟩ :=
              NewLayer_eq_some _ _ _ _ _ _ _ _ _ _ _ _ hL
            simp only [Option.some.injEq, Prod.mk.injEq] at h
            obtain ⟨rfl, -⟩ := h
            have hoff : off = (allocLayers.sizeLoop regr.HiddenLayerSizes 0 nFeatures).1 :=
              congrArg Prod.fst l2
            have hprev : prev = (allocLayers.sizeLoop regr.HiddenLayerSizes 0 nFeatures).2 :=
              congrArg Prod.snd l2
            have hlen : (writeAt regr2.thetaSlice off.toNat
                (drawN rnd ((1 + prev) * nOutputs).toNat s2).1).length =
                regr2.thetaSlice.length := by
              apply writeAt_length
              rw [drawN_length]
              omega
            refine ⟨?_, ?_, ?_⟩
            · simp only [List.map_append, List.map_cons, List.map_nil, l1, hT, layout_append,
                ← hoff, ← hprev]
              congr 3
              rw [add_sub_cancel_left]
            · show ((writeAt regr2.thetaSlice off.toNat
                (drawN rnd ((1 + prev) * nOutputs).toNat s2).1).length : Int) = _
              rw [hlen, l3, hblen, sizeLoop_append]
            · intro v hv
              rw [layout_append, List.mem_append, List.mem_singleton] at hv
              rcases hv with hv | rfl
              · exact l7 v hv
              · rw [← hprev]; exact ⟨r0, c0, rz⟩

/-- With a creator of optimizers, a non-negative feature count and accepted hidden sizes
and output count, `allocLayers` does not panic. -/
theorem allocLayers_isSome {Opt σ : Type} [Zero α] (zeroOK : Bool)
    (regr : MLPRegressor α Opt) (nFeatures nOutputs : Int) (rnd : σ → α × σ) (s : σ)
    (hO : regr.Optimizer.isSome) (hF : 0 ≤ nFeatures)
    (hsz : ∀ o ∈ regr.HiddenLayerSizes ++ [nOutputs], (if zeroOK then 0 else 1) ≤ o) :
    ∃ r, allocLayers zeroOK regr nFeatures nOutputs rnd s = some r := by
  have hlo : ∀ o ∈ regr.HiddenLayerSizes ++ [nOutputs], 0 ≤ o := by
    intro o ho
    have := hsz o ho
    cases zeroOK <;> simp at this <;> omega
  have hmono := sizeLoop_mono regr.HiddenLayerSizes 0 nFeatures hF
    (fun o h => hlo o (List.mem_append_left _ h))
  have hnO : 0 ≤ nOutputs := hlo nOutputs (by simp)
  have hm : 0 ≤ (1 + (allocLayers.sizeLoop regr.HiddenLayerSizes 0 nFeatures).2) * nOutputs :=
    mul_nonneg (by omega) hnO
  obtain ⟨T, hT⟩ : ∃ T : Int, T = (allocLayers.sizeLoop regr.HiddenLayerSizes 0 nFeatures).1 +
      (1 + (allocLayers.sizeLoop regr.HiddenLayerSizes 0 nFeatures).2) * nOutputs := ⟨_, rfl⟩
  have hbuf : makeSlice (α := α) T = some (List.replicate T.toNat 0) := by
    unfold makeSlice
    rw [if_pos (by omega)]
  obtain ⟨⟨regr2, off, prev, s2⟩, hloop⟩ := layerLoop_isSome zeroOK rnd regr.HiddenLayerSizes
    { regr with Layers := [], thetaSlice := List.replicate T.toNat 0 }
    0 nFeatures s hO (le_refl _) hF (fun o h => hsz o (List.mem_append_left _ h))
    (by simp only [List.length_replicate]; omega)
  obtain ⟨-, l2, l3, l4, -, -, -, -⟩ := layerLoop_eq_some _ _ _ _ _ _ _ _ _ _ _ hloop
  have hoff : off = (allocLayers.sizeLoop regr.HiddenLayerSizes 0 nFeatures).1 :=
    congrArg Prod.fst l2
  have hprev : prev = (allocLayers.sizeLoop regr.HiddenLayerSizes 0 nFeatures).2 :=
    congrArg Prod.snd l2
  simp only [List.length_replicate] at l3
  obtain ⟨creator, hcr⟩ := Option.isSome_iff_exists.mp hO
  have hcr2 : regr2.Optimizer = some creator := by rw [l4]; exact hcr
  have hw : Slice.sub regr2.thetaSlice.length off (off + (1 + prev) * nOutputs) =
      some { off := off, len := off + (1 + prev) * nOutputs - off } := by
    have : 0 ≤ off ∧ off ≤ off + (1 + prev) * nOutputs ∧
        off + (1 + prev) * nOutputs ≤ regr2.thetaSlice.length := by
      rw [l3, hoff, hprev]
      exact ⟨by omega, by omega, by omega⟩
    simp only [Slice.sub, this, and_self, if_true]
  have hL := fun act => @NewLayer_of_dims α Opt σ zeroOK (1 + prev) nOutputs act
    (creator ()) regr2.thetaSlice { off := off, len := off + (1 + prev) * nOutputs - off }
    rnd s2 (by omega) (hsz nOutputs (by simp)) (by simp)
  unfold allocLayers
  simp only [← hT, hbuf, hloop, hcr2, hw, hL]
  exact ⟨_, rfl⟩

/-- The `k`-th view of the layers is the `Theta` of the `k`-th layer. -/
theorem getElem?_map_Theta {Opt : Type} (Ls : List (Layer α Opt)) (k : Nat) (v : ThetaView) :
    (Ls.map fun L => L.Theta)[k]? = some v ↔ ∃ L, Ls[k]? = some L ∧ L.Theta = v := by
  rw [List.getElem?_map, Option.map_eq_some']

/-- Below the number of layers the input counts are read in `nFeatures :: hidden`. -/
theorem inputs_getElem? (nFeatures nOutputs : Int) (hs : List Int) (k : Nat) (i o : Int)
    (hi : (nFeatures :: (hs ++ [nOutputs]))[k]? = some i)
    (ho : (hs ++ [nOutputs])[k]? = some o) : (nFeatures :: hs)[k]? = some i := by
  have hk : k < (hs ++ [nOutputs]).length := (List.getElem?_eq_some.mp ho).1
  have hk2 : k < (nFeatures :: hs).length := by
    simp only [List.length_append, List.length_cons, List.length_nil] at hk ⊢
    omega
  rw [← List.cons_append, List.getElem?_append_left hk2] at hi
  exact hi

/-- C3: after `allocLayers(nFeatures, nOutputs, rnd)` the length of the flat parameter
buffer `thetaSlice` is the sum over the layers of `rows(Theta) * cols(Theta)`, there are
`len(HiddenLayerSizes) + 1` layers, and layer `k` has `1 + inputs` rows and `outputs`
columns, with inputs read in `nFeatures :: HiddenLayerSizes` and outputs in
`HiddenLayerSizes ++ [nOutputs]`.  This holds for every list of hidden sizes, the empty
one included, whenever the call returns; and the call does return when the creator of
optimizers is set, `nFeatures ≥ 0`, and the hidden sizes and `nOutputs` are sizes that the
matrix library accepts (`≥ 0`, or `≥ 1` for releases that reject empty matrices). -/
theorem allocLayers_thetaSlice_length {Opt σ : Type} [Zero α] (zeroOK : Bool)
    (regr : MLPRegressor α Opt) (nFeatures nOutputs : Int) (rnd : σ → α × σ) (s : σ) :
    (∀ regr1 s1, allocLayers zeroOK regr nFeatures nOutputs rnd s = some (regr1, s1) →
      (regr1.thetaSlice.length : Int) =
        (regr1.Layers.map fun L => L.Theta.rows * L.Theta.cols).sum ∧
      regr1.Layers.length = regr.HiddenLayerSizes.length + 1 ∧
      ∀ (k : Nat) (L : Layer α Opt), regr1.Layers[k]? = some L →
        ∃ i o, (nFeatures :: regr.HiddenLayerSizes)[k]? = some i ∧
          (regr.HiddenLayerSizes ++ [nOutputs])[k]? = some o ∧
          L.Theta.rows = 1 + i ∧ L.Theta.cols = o) ∧
    (regr.Optimizer.isSome → 0 ≤ nFeatures →
      (∀ o ∈ regr.HiddenLayerSizes ++ [nOutputs], (if zeroOK then 0 else 1) ≤ o) →
      ∃ r, allocLayers zeroOK regr nFeatures nOutputs rnd s = some r) := by
  refine ⟨?_, allocLayers_isSome zeroOK regr nFeatures nOutputs rnd s⟩
  intro regr1 s1 h
  obtain ⟨hT, hlen, -⟩ := allocLayers_eq_some zeroOK regr nFeatures nOutputs rnd s regr1 s1 h
  refine ⟨?_, ?_, ?_⟩
  · have hsum := layout_sum (regr.HiddenLayerSizes ++ [nOutputs]) 0 nFeatures
    rw [← hT, List.map_map] at hsum
    rw [hlen]
    simpa [Function.comp_def] using hsum.symm
  · have := congrArg List.length hT
    simpa [layout_length] using this
  · intro k L hL
    have hv : (regr1.Layers.map fun L => L.Theta)[k]? = some L.Theta :=
      (getElem?_map_Theta _ _ _).mpr ⟨L, hL, rfl⟩
    rw [hT] at hv
    obtain ⟨i, o, hi, ho, hr, hc, -⟩ := layout_dims _ _ _ _ _ hv
    exact ⟨i, o, inputs_getElem? nFeatures nOutputs _ k i o hi ho, ho, hr, hc⟩

/-- Witness of C3: `allocLayers` on 3 features, hidden sizes 2 and 3 and 1 output
returns, with 3 layers whose areas add up to the length of the buffer. -/
theorem allocLayers_thetaSlice_length_witness :
    ∃ r, allocLayers true sampleRegressor 3 1 countingSource 100 = some r ∧
      (r.1.thetaSlice.length : Int) =
        (r.1.Layers.map fun L => L.Theta.rows * L.Theta.cols).sum ∧
      r.1.Layers.length = 3 ∧
      (r.1.Layers.map fun L => (L.Theta.rows, L.Theta.cols)) = [(4, 2), (3, 3), (4, 1)] := by
  obtain ⟨⟨regr1, s1⟩, hr⟩ :=
    (allocLayers_thetaSlice_length true sampleRegressor 3 1 countingSource 100).2 rfl
      (by decide) (by decide)
  have h := (allocLayers_thetaSlice_length true sampleRegressor 3 1 countingSource 100).1
    regr1 s1 hr
  have hev : (allocLayers true sampleRegressor 3 1 countingSource 100).map
      (fun r => r.1.Layers.map fun L => (L.Theta.rows, L.Theta.cols)) =
      some [(4, 2), (3, 3), (4, 1)] := by rfl
  rw [hr] at hev
  exact ⟨_, hr, h.1, h.2.1, Option.some.inj hev⟩

/-- C4: after `allocLayers` the windows of the layers tile the flat parameter buffer in
order.  The window of layer 0 starts at offset 0, the window of layer `k + 1` starts where
that of layer `k` ends, the last window ends at `len(thetaSlice)`, and the window of layer
`k` has `(1 + in_k) * out_k` entries, with `in_k` read in `nFeatures :: HiddenLayerSizes`
and `out_k` in `HiddenLayerSizes ++ [nOutputs]`.  Hence every index of the buffer lies in
the window of exactly one layer.  This holds whenever the call returns, and it does return
under the conditions stated for C3. -/
theorem allocLayers_tiling {Opt σ : Type} [Zero α] (zeroOK : Bool)
    (regr : MLPRegressor α Opt) (nFeatures nOutputs : Int) (rnd : σ → α × σ) (s : σ) :
    (∀ regr1 s1, allocLayers zeroOK regr nFeatures nOutputs rnd s = some (regr1, s1) →
      (∃ L, regr1.Layers[0]? = some L ∧ L.Theta.region.off = 0) ∧
      (∀ (k : Nat) (L M : Layer α Opt), regr1.Layers[k]? = some L →
        regr1.Layers[k + 1]? = some M →
        M.Theta.region.off = L.Theta.region.off + L.Theta.region.len) ∧
      (∃ L, regr1.Layers.getLast? = some L ∧
        L.Theta.region.off + L.Theta.region.len = regr1.thetaSlice.length) ∧
      (∀ (k : Nat) (L : Layer α Opt), regr1.Layers[k]? = some L →
        ∃ i o, (nFeatures :: regr.HiddenLayerSizes)[k]? = some i ∧
          (regr.HiddenLayerSizes ++ [nOutputs])[k]? = some o ∧
          L.Theta.region.len = (1 + i) * o ∧ 0 ≤ L.Theta.region.len) ∧
      (∀ i : Int, 0 ≤ i → i < regr1.thetaSlice.length →
        ∃! k : Nat, ∃ L, regr1.Layers[k]? = some L ∧
          L.Theta.region.off ≤ i ∧ i < L.Theta.region.off + L.Theta.region.len)) ∧
    (regr.Optimizer.isSome → 0 ≤ nFeatures →
      (∀ o ∈ regr.HiddenLayerSizes ++ [nOutputs], (if zeroOK then 0 else 1) ≤ o) →
      ∃ r, allocLayers zeroOK regr nFeatures nOutputs rnd s = some r) := by
  refine ⟨?_, allocLayers_isSome zeroOK regr nFeatures nOutputs rnd s⟩
  intro regr1 s1 h
  obtain ⟨hT, hlen, hnn⟩ := allocLayers_eq_some zeroOK regr nFeatures nOutputs rnd s regr1 s1 h
  have hview : ∀ (k : Nat) (L : Layer α Opt), regr1.Layers[k]? = some L →
      (layout 0 nFeatures (regr.HiddenLayerSizes ++ [nOutputs]))[k]? = some L.Theta := by
    intro k L hL
    rw [← hT]
    exact (getElem?_map_Theta _ _ _).mpr ⟨L, hL, rfl⟩
  have hnn2 : ∀ v ∈ layout 0 nFeatures (regr.HiddenLayerSizes ++ [nOutputs]),
      0 ≤ v.rows ∧ 0 ≤ v.cols := fun v hv => ⟨(hnn v hv).1, (hnn v hv).2.1⟩
  refine ⟨?_, ?_, ?_, ?_, ?_⟩
  · have hne : 0 < regr1.Layers.length := by
      have := congrArg List.length hT
      simp only [List.length_map, layout_length, List.length_append, List.length_cons,
        List.length_nil] at this
      omega
    refine ⟨regr1.Layers[0], List.getElem?_eq_getElem hne, ?_⟩
    exact layout_head _ _ _ _ (hview 0 _ (List.getElem?_eq_getElem hne))
  · intro k L M hL hM
    exact layout_next _ _ _ _ _ _ (hview k L hL) (hview (k + 1) M hM)
  · have hlast : (regr1.Layers.map fun L => L.Theta).getLast? =
        some { rows := 1 + (allocLayers.sizeLoop regr.HiddenLayerSizes 0 nFeatures).2,
               cols := nOutputs,
               region := { off := (allocLayers.sizeLoop regr.HiddenLayerSizes 0 nFeatures).1,
                           len := (1 + (allocLayers.sizeLoop regr.HiddenLayerSizes 0
                             nFeatures).2) * nOutputs } } := by
      rw [hT, layout_append, List.getLast?_concat]
    rw [List.getLast?_map, Option.map_eq_some'] at hlast
    obtain ⟨L, hL, hLT⟩ := hlast
    refine ⟨L, hL, ?_⟩
    rw [hlen, sizeLoop_append, hLT]
  · intro k L hL
    obtain ⟨i, o, hi, ho, hr, hc, hl⟩ := layout_dims _ _ _ _ _ (hview k L hL)
    refine ⟨i, o, inputs_getElem? nFeatures nOutputs _ k i o hi ho, ho, hl, ?_⟩
    have hv := hnn2 _ (List.getElem?_mem (hview k L hL))
    rw [hl, ← hr, ← hc]
    exact mul_nonneg hv.1 hv.2
  · intro i h0 h1
    rw [hlen] at h1
    have hp := layout_partition _ 0 nFeatures hnn2 i h0 h1
    refine (existsUnique_congr fun k => ?_).mp hp
    rw [← hT]
    constructor
    · rintro ⟨v, hv, hv1, hv2⟩
      obtain ⟨L, hL, rfl⟩ := (getElem?_map_Theta _ _ _).mp hv
      exact ⟨L, hL, hv1, hv2⟩
    · rintro ⟨L, hL, hv1, hv2⟩
      exact ⟨L.Theta, (getElem?_map_Theta _ _ _).mpr ⟨L, hL, rfl⟩, hv1, hv2⟩

/-- Witness of C4: on 3 features, hidden sizes 2 and 3 and 1 output, `allocLayers`
returns, its first window starts at 0, its last window ends with the buffer, and index 10
of the buffer lies in the window of exactly one layer. -/
theorem allocLayers_tiling_witness :
    ∃ r, allocLayers true sampleRegressor 3 1 countingSource 100 = some r ∧
      (∃ L, r.1.Layers[0]? = some L ∧ L.Theta.region.off = 0) ∧
      (∃ L, r.1.Layers.getLast? = some L ∧
        L.Theta.region.off + L.Theta.region.len = r.1.thetaSlice.length) ∧
      r.1.thetaSlice.length = 21 ∧
      (∃! k : Nat, ∃ L, r.1.Layers[k]? = some L ∧
          L.Theta.region.off ≤ 10 ∧ 10 < L.Theta.region.off + L.Theta.region.len) := by
  obtain ⟨⟨regr1, s1⟩, hr⟩ :=
    (allocLayers_tiling true sampleRegressor 3 1 countingSource 100).2 rfl
      (by decide) (by decide)
  have h := (allocLayers_tiling true sampleRegressor 3 1 countingSource 100).1 regr1 s1 hr
  have hev : (allocLayers true sampleRegressor 3 1 countingSource 100).map
      (fun r => r.1.thetaSlice.length) = some 21 := by rfl
  rw [hr] at hev
  have hlen : regr1.thetaSlice.length = 21 := Option.some.inj hev
  exact ⟨_, hr, h.1, h.2.2.1, hlen,
    h.2.2.2.2 10 (by decide) (by rw [hlen]; decide)⟩

/-! ## Constructors, output activation and score -/

/-- C11: the classifier built by `NewMLPClassifier` with the activation "relu" has the
loss "log" in its field `Loss` and an empty `LossName`; `allocLayers`, which tests
`LossName`, gives its output layer the activation "relu", not "logistic".  The hidden
layer gets the configured activation. -/
theorem NewMLPClassifier_output_activation :
    (NewMLPClassifier (α := ℚ) unitSolvers [2] "relu" "adam" 0).Loss = "log" ∧
    (NewMLPClassifier (α := ℚ) unitSolvers [2] "relu" "adam" 0).LossName = "" ∧
    (allocLayers true (NewMLPClassifier (α := ℚ) unitSolvers [2] "relu" "adam" 0).toMLPRegressor
        3 1 countingSource 0).map (fun r => r.1.Layers.map fun L => L.Activation) =
      some ["relu", "relu"] ∧
    (allocLayers true
        { (NewMLPClassifier (α := ℚ) unitSolvers [2] "relu" "adam" 0).toMLPRegressor with
          LossName := "log" }
        3 1 countingSource 0).map (fun r => r.1.Layers.map fun L => L.Activation) =
      some ["relu", "logistic"] := by
  refine ⟨rfl, rfl, ?_, ?_⟩ <;> decide

/-- C16: `Score` returns 0 on every input.  On the regressor with weights `0, 1`, whose
prediction on the rows `1, 2` is exactly the target `1, 2`, it returns 0 where the
coefficient of determination is 1. -/
theorem Score_eq_zero :
    (∀ (regr : MLPRegressor ℚ Unit) (X Y : Dense ℚ), Score regr X Y = 0) ∧
    (allocLayers true linearRegressor 1 1 countingSource 0).bind (fun a =>
        (Predict true id id a.1 ⟨2, 1, [1, 2]⟩ (some ⟨2, 1, [0, 0]⟩)).map fun r =>
          (r.2, Score r.1 ⟨2, 1, [1, 2]⟩ ⟨2, 1, [1, 2]⟩)) =
      some (some ⟨2, 1, [1, 2]⟩, 0) := by
  refine ⟨fun _ _ _ => rfl, ?_⟩
  decide!

/-! ## Training loop -/

/-- The assignment of the default number of epochs leaves a non-negative number of
epochs. -/
theorem defaultEpochs_eq_some {Opt : Type} (regr r1 : MLPRegressor α Opt) (n : Nat)
    (h : Fit.defaultEpochs regr n = some r1) : 0 ≤ r1.Epochs := by
  unfold Fit.defaultEpochs at h
  split at h
  · split at h
    · exact absurd h (by simp)
    · rw [← Option.some.inj h]
      exact Int.tdiv_nonneg (show (0 : Int) ≤ 1000000 by decide) (Int.ofNat_nonneg n)
  · next hE =>
    rw [← Option.some.inj h]
    omega

section TrainingProofs

variable [LinearOrderedField α] [Inhabited α] {Opt ρ σ : Type}

/-- One iteration of the loop of `backprop` changes only the layers and the parameter
buffer of the regressor. -/
theorem backprop_layer_frame (Log Sqrt : α → α)
    (getUpdate : Opt → Dense α → Dense α → Opt × Dense α) (regr : MLPRegressor α Opt)
    (X Y : Dense α) (l : Nat) (J : α) (r : MLPRegressor α Opt × α)
    (h : backprop.layer Log Sqrt getUpdate regr X Y l J = some r) :
    r.1.Epochs = regr.Epochs ∧ r.1.JFirst = regr.JFirst ∧
      r.1.Layers.length = regr.Layers.length := by
  unfold backprop.layer at h
  rw [Option.map_eq_some'] at h
  obtain ⟨c, -, rfl⟩ := h
  exact ⟨rfl, rfl, by simp⟩

/-- The loop of `backprop` changes only the layers and the parameter buffer. -/
theorem backprop_loop_frame (Log Sqrt : α → α)
    (getUpdate : Opt → Dense α → Dense α → Opt × Dense α) (X Y : Dense α) (n : Nat) :
    ∀ (regr : MLPRegressor α Opt) (J : α) (r : MLPRegressor α Opt × α),
      backprop.loop Log Sqrt getUpdate X Y n regr J = some r →
      r.1.Epochs = regr.Epochs ∧ r.1.JFirst = regr.JFirst := by
  induction n with
  | zero =>
    intro regr J r h
    simp only [backprop.loop, Option.some.injEq] at h
    rw [← h]; exact ⟨rfl, rfl⟩
  | succ n ih =>
    intro regr J r h
    simp only [backprop.loop] at h
    split at h
    · exact absurd h (by simp)
    · next r1 h1 =>
      obtain ⟨a1, a2, -⟩ := backprop_layer_frame _ _ _ _ _ _ _ _ _ h1
      obtain ⟨b1, b2⟩ := ih _ _ _ h
      exact ⟨b1.trans a1, b2.trans a2⟩

/-- The forward pass changes only the layers of the regressor. -/
theorem predictZH_frame (zeroOK : Bool) (Exp Tanh : α → α) (regr : MLPRegressor α Opt)
    (X : Dense α) (Z Y : Option (Dense α)) (fitting : Bool)
    (r : MLPRegressor α Opt × Option (Dense α) × Option (Dense α))
    (h : predictZH zeroOK Exp Tanh regr X Z Y fitting = some r) :
    r.1.Epochs = regr.Epochs ∧ r.1.JFirst = regr.JFirst := by
  unfold predictZH at h
  split at h
  · exact absurd h (by simp)
  · split at h
    · rw [← Option.some.inj h]; exact ⟨rfl, rfl⟩
    · split at h
      · exact absurd h (by simp)
      · rw [← Option.some.inj h]; exact ⟨rfl, rfl⟩

/-- A mini-batch changes neither `Epochs` nor `JFirst`. -/
theorem fitMiniBatch_frame (zeroOK : Bool) (Exp Tanh Log Sqrt : α → α)
    (getUpdate : Opt → Dense α → Dense α → Opt × Dense α) (regr : MLPRegressor α Opt)
    (X Y : Dense α) (epoch : Int) (r : MLPRegressor α Opt × α)
    (h : fitMiniBatch zeroOK Exp Tanh Log Sqrt getUpdate regr X Y epoch = some r) :
    r.1.Epochs = regr.Epochs ∧ r.1.JFirst = regr.JFirst := by
  unfold fitMiniBatch at h
  split at h
  · exact absurd h (by simp)
  · next p hp =>
    obtain ⟨a1, a2⟩ := predictZH_frame _ _ _ _ _ _ _ _ _ hp
    obtain ⟨b1, b2⟩ := backprop_loop_frame _ _ _ _ _ _ _ _ _ h
    exact ⟨b1.trans a1, b2.trans a2⟩

/-- The loop of `fitEpoch` changes neither `Epochs` nor `JFirst`. -/
theorem fitEpoch_loop_frame (zeroOK : Bool) (Exp Tanh Log Sqrt : α → α)
    (getUpdate : Opt → Dense α → Dense α → Opt × Dense α) (Xfull Yfull : Dense α)
    (nSamples nFeatures nOutputs : Nat) (miniBatchLen epoch : Int) (fuel : Nat) :
    ∀ (regr : MLPRegressor α Opt) (a b : Int) (Jsum : α) (r : MLPRegressor α Opt × α),
      fitEpoch.loop zeroOK Exp Tanh Log Sqrt getUpdate Xfull Yfull nSamples nFeatures nOutputs
        miniBatchLen epoch fuel regr a b Jsum = some r →
      r.1.Epochs = regr.Epochs ∧ r.1.JFirst = regr.JFirst := by
  induction fuel with
  | zero =>
    intro regr a b Jsum r h
    simp only [fitEpoch.loop] at h
    split at h
    · exact absurd h (by simp)
    · rw [← Option.some.inj h]; exact ⟨rfl, rfl⟩
  | succ fuel ih =>
    intro regr a b Jsum r h
    simp only [fitEpoch.loop] at h
    split at h
    · split at h
      · split at h
        · exact absurd h (by simp)
        · next m hm =>
          obtain ⟨a1, a2⟩ := fitMiniBatch_frame _ _ _ _ _ _ _ _ _ _ _ hm
          obtain ⟨b1, b2⟩ := ih _ _ _ _ _ h
          exact ⟨b1.trans a1, b2.trans a2⟩
      · exact absurd h (by simp)
    · rw [← Option.some.inj h]; exact ⟨rfl, rfl⟩

/-- An epoch keeps `Epochs`, sets `J`, and sets `JFirst` to `J` exactly when its index
is 1. -/
theorem fitEpoch_frame (zeroOK : Bool) (Exp Tanh Log Sqrt : α → α)
    (getUpdate : Opt → Dense α → Dense α → Opt × Dense α)
    (shuffle : ρ → Dense α → Dense α → Dense α × Dense α × ρ)
    (regr : MLPRegressor α Opt) (Xfull Yfull : Dense α) (epoch : Int) (g : ρ)
    (r : MLPRegressor α Opt × Dense α × Dense α × ρ)
    (h : fitEpoch zeroOK Exp Tanh Log Sqrt getUpdate shuffle regr Xfull Yfull epoch g =
      some r) :
    r.1.Epochs = regr.Epochs ∧
      r.1.JFirst = if epoch = 1 then r.1.J else regr.JFirst := by
  unfold fitEpoch at h
  simp only at h
  split at h
  · exact absurd h (by simp)
  · next q hq =>
    obtain ⟨a1, a2⟩ := fitEpoch_loop_frame _ _ _ _ _ _ _ _ _ _ _ _ _ _ _ _ _ _ _ hq
    rw [← Option.some.inj h]
    by_cases he : epoch = 1
    · simp only [he, if_true]; exact ⟨a1, trivial⟩
    · simp only [he, if_false]; exact ⟨a1, a2⟩

/-- With fuel for the remaining epochs the loop of `Fit` runs `fitEpoch` once for each
epoch index from `epoch` up to `Epochs - 1`, in increasing order. -/
theorem Fit_loop_eq (zeroOK : Bool) (Exp Tanh Log Sqrt : α → α)
    (getUpdate : Opt → Dense α → Dense α → Opt × Dense α)
    (shuffle : ρ → Dense α → Dense α → Dense α × Dense α × ρ) (n : Nat) :
    ∀ (e : Nat) (st : MLPRegressor α Opt × Dense α × Dense α × ρ),
      st.1.Epochs = (e : Int) + (n : Int) →
      Fit.loop zeroOK Exp Tanh Log Sqrt getUpdate shuffle n (e : Int) st =
        (List.range' e n).foldlM (fun st (k : Nat) =>
          fitEpoch zeroOK Exp Tanh Log Sqrt getUpdate shuffle st.1 st.2.1 st.2.2.1 (k : Int)
            st.2.2.2) st := by
  induction n with
  | zero =>
    intro e st hE
    have : ¬ ((e : Int) < st.1.Epochs) := by omega
    simp only [Fit.loop, this, if_false, List.range'_zero, List.foldlM_nil]
    rfl
  | succ n ih =>
    intro e st hE
    have hlt : (e : Int) < st.1.Epochs := by omega
    simp only [Fit.loop, hlt, if_true, List.range'_succ, List.foldlM_cons]
    cases hf : fitEpoch zeroOK Exp Tanh Log Sqrt getUpdate shuffle st.1 st.2.1 st.2.2.1
        (e : Int) st.2.2.2 with
    | none => rfl
    | some st1 =>
      have hfr := (fitEpoch_frame _ _ _ _ _ _ _ _ _ _ _ _ _ hf).1
      have := ih (e + 1) st1 (by rw [hfr, hE]; push_cast; ring)
      simp only [Option.bind_eq_bind, Option.some_bind]
      rw [← this]
      norm_cast

/-- C12, amended: when `Epochs ≤ 0` on entry and there is at least one sample, `Fit` sets
`Epochs` to the integer quotient of 1000000 by `n_samples` (rounded down, so it is 0 for
more than 1000000 samples and at least 1 otherwise); when `Epochs > 0` it is left
unchanged.  `Fit` then runs `fitEpoch` exactly `Epochs` times, once for each epoch index
0, 1, ..., `Epochs - 1` in this order. -/
theorem Fit_runs_Epochs (zeroOK : Bool) (Exp Tanh Log Sqrt : α → α) (Inf : α)
    (getUpdate : Opt → Dense α → Dense α → Opt × Dense α)
    (shuffle : ρ → Dense α → Dense α → Dense α × Dense α × ρ)
    (regr : MLPRegressor α Opt) (X Y : Dense α) (rnd : σ → α × σ) (s : σ) (g : ρ) :
    (∀ (r : MLPRegressor α Opt) (n : Nat), r.Epochs ≤ 0 → 1 ≤ n →
      ∃ E : Int, Fit.defaultEpochs r n = some { r with Epochs := E } ∧
        E * n ≤ 1000000 ∧ 1000000 < (E + 1) * n ∧ (n ≤ 1000000 → 1 ≤ E)) ∧
    (∀ (r : MLPRegressor α Opt) (n : Nat), 0 < r.Epochs → Fit.defaultEpochs r n = some r) ∧
    Fit zeroOK Exp Tanh Log Sqrt Inf getUpdate shuffle regr X Y rnd s g =
      (allocLayers zeroOK regr (X.cols : Int) (Y.cols : Int) rnd s).bind fun a =>
        (Fit.defaultEpochs { a.1 with J := Inf } X.rows).bind fun regr1 =>
          ((List.range' 0 regr1.Epochs.toNat).foldlM (fun st (k : Nat) =>
            fitEpoch zeroOK Exp Tanh Log Sqrt getUpdate shuffle st.1 st.2.1 st.2.2.1 (k : Int)
              st.2.2.2) (regr1, X, Y, g)).map
            fun st => (st.1, st.2.1, st.2.2.1, a.2, st.2.2.2) := by
  refine ⟨?_, ?_, ?_⟩
  · intro r n hE hn
    have hn0 : n ≠ 0 := by omega
    have hpos : (0 : Int) < (n : Int) := by omega
    have hdiv : Int.tdiv 1000000 (n : Int) = 1000000 / (n : Int) :=
      Int.tdiv_eq_ediv (by decide) (le_of_lt hpos)
    have h1 : 1000000 / (n : Int) * n ≤ 1000000 := Int.ediv_mul_le _ (ne_of_gt hpos)
    have h2 : 1000000 < (1000000 / (n : Int) + 1) * n := Int.lt_ediv_add_one_mul_self _ hpos
    refine ⟨1000000 / (n : Int), ?_, h1, h2, ?_⟩
    · simp only [Fit.defaultEpochs, hE, if_true, hn0, if_false, hdiv]
    · intro hle
      by_contra hc
      have hE0 : 1000000 / (n : Int) + 1 ≤ 1 := by omega
      have : (1000000 / (n : Int) + 1) * n ≤ 1 * n :=
        mul_le_mul_of_nonneg_right hE0 (le_of_lt hpos)
      have hle2 : (n : Int) ≤ 1000000 := by exact_mod_cast hle
      omega
  · intro r n hE
    have : ¬ r.Epochs ≤ 0 := by omega
    simp only [Fit.defaultEpochs, this, if_false]
  · unfold Fit
    simp only [Dense.Dims]
    cases ha : allocLayers zeroOK regr (X.cols : Int) (Y.cols : Int) rnd s with
    | none => rfl
    | some a =>
      simp only [Option.some_bind]
      cases hd : Fit.defaultEpochs { a.1 with J := Inf } X.rows with
      | none => rfl
      | some regr1 =>
        have h0 := defaultEpochs_eq_some _ _ _ hd
        have hl := Fit_loop_eq zeroOK Exp Tanh Log Sqrt getUpdate shuffle regr1.Epochs.toNat 0
          (regr1, X, Y, g) (by simp only [Nat.cast_zero, zero_add]; omega)
        simp only [Option.some_bind, Nat.cast_zero] at hl ⊢
        rw [hl]
        cases ((List.range' 0 regr1.Epochs.toNat).foldlM (fun st (k : Nat) =>
            fitEpoch zeroOK Exp Tanh Log Sqrt getUpdate shuffle st.1 st.2.1 st.2.2.1 (k : Int)
              st.2.2.2) (regr1, X, Y, g)) <;> rfl

/-- Whatever `MiniBatchSize` is, an epoch on at least one sample is a single call of
`fitMiniBatch` on all the rows of the shuffled data, and `J` is the loss of that batch. -/
theorem fitEpoch_single_batch (zeroOK : Bool) (Exp Tanh Log Sqrt : α → α)
    (getUpdate : Opt → Dense α → Dense α → Opt × Dense α)
    (shuffle : ρ → Dense α → Dense α → Dense α × Dense α × ρ)
    (regr : MLPRegressor α Opt) (Xfull Yfull : Dense α) (epoch : Int) (g : ρ)
    (hn : 1 ≤ Xfull.rows) :
    fitEpoch zeroOK Exp Tanh Log Sqrt getUpdate shuffle regr Xfull Yfull epoch g =
      ((shuffle g Xfull Yfull).1.Slice 0 (Xfull.rows : Int) 0 (Xfull.cols : Int)).bind fun X =>
        ((shuffle g Xfull Yfull).2.1.Slice 0 (Xfull.rows : Int) 0 (Yfull.cols : Int)).bind
          fun Y =>
            (fitMiniBatch zeroOK Exp Tanh Log Sqrt getUpdate regr X Y epoch).map fun r =>
              (if epoch = 1 then { r.1 with J := r.2, JFirst := r.2 }
                else { r.1 with J := r.2 },
                (shuffle g Xfull Yfull).1, (shuffle g Xfull Yfull).2.1,
                (shuffle g Xfull Yfull).2.2) := by
  obtain ⟨m, hm⟩ : ∃ m, Xfull.rows = m + 1 := ⟨Xfull.rows - 1, by omega⟩
  have hpos : (0 : Int) < ((m + 1 : Nat) : Int) := by omega
  have hnot : ¬ ((0 : Int) + ((m + 1 : Nat) : Int) < ((m + 1 : Nat) : Int)) := by omega
  have hne : ((m + 1 : Nat) : α) ≠ 0 := Nat.cast_ne_zero.mpr (by omega)
  have hJ : ∀ J : α, (0 + J * ((((m + 1 : Nat) : Int)) : α)) / ((m + 1 : Nat) : α) = J := by
    intro J
    rw [zero_add, Int.cast_natCast, mul_div_assoc, div_self hne, mul_one]
  unfold fitEpoch
  simp only [Dense.Dims, hm]
  cases hX : (shuffle g Xfull Yfull).1.Slice 0 ((m + 1 : Nat) : Int) 0 (Xfull.cols : Int) with
  | none => simp only [fitEpoch.loop, hpos, if_true, hX, Option.none_bind]
  | some X =>
    cases hY : (shuffle g Xfull Yfull).2.1.Slice 0 ((m + 1 : Nat) : Int) 0
        (Yfull.cols : Int) with
    | none => simp only [fitEpoch.loop, hpos, if_true, hX, hY, Option.some_bind,
        Option.none_bind]
    | some Y =>
      cases hf : fitMiniBatch zeroOK Exp Tanh Log Sqrt getUpdate regr X Y epoch with
      | none => simp only [fitEpoch.loop, hpos, if_true, hX, hY, hf, Option.some_bind,
          Option.map_none']
      | some r =>
        cases m with
        | zero =>
          simp only [fitEpoch.loop, hpos, hnot, if_true, if_false, hX, hY, hf,
            Option.some_bind, Option.map_some', hJ]
        | succ k =>
          simp only [fitEpoch.loop, hpos, hnot, if_true, if_false, hX, hY, hf,
            Option.some_bind, Option.map_some', hJ]

end TrainingProofs

/-- Witness of C12 (amended): with 3 samples and `Epochs` unset the default is the integer
quotient of 1000000 by 3, and a set `Epochs` is kept. -/
theorem Fit_runs_Epochs_witness :
    (∃ E : Int, Fit.defaultEpochs sampleRegressor 3 = some { sampleRegressor with Epochs := E } ∧
      E * 3 ≤ 1000000 ∧ 1000000 < (E + 1) * 3 ∧ 1 ≤ E) ∧
    Fit.defaultEpochs { sampleRegressor with Epochs := 5 } 3 =
      some { sampleRegressor with Epochs := 5 } := by
  have key := Fit_runs_Epochs true id id id id 0 zeroUpdate noShuffle sampleRegressor
    ⟨2, 1, [1, 2]⟩ ⟨2, 1, [3, 5]⟩ countingSource 0 ()
  obtain ⟨E, h1, h2, h3, h4⟩ := key.1 sampleRegressor 3 (by decide) (by decide)
  exact ⟨⟨E, h1, by simpa using h2, by simpa using h3, h4 (by decide)⟩,
    key.2.1 { sampleRegressor with Epochs := 5 } 3 (by decide)⟩

/-- C12, as stated, fails: with 3 samples `Fit` sets `Epochs` to 333333, where the ceiling
of 1000000 / 3 is 333334; with 2000000 samples it sets `Epochs` to 0, so that no epoch is
run. -/
theorem defaultEpochs_rounds_down :
    (Fit.defaultEpochs sampleRegressor 3).map (fun r => r.Epochs) = some 333333 ∧
    ⌈(1000000 : ℚ) / 3⌉ = 333334 ∧
    (Fit.defaultEpochs sampleRegressor 2000000).map (fun r => r.Epochs) = some 0 := by
  refine ⟨by decide, ?_, by decide⟩
  rw [Int.ceil_eq_iff]
  constructor <;> norm_num

/-! ## Mini-batches, first loss and scratch buffers -/

/-- C13: with `MiniBatchSize = 1` and two rows, `fitEpoch` makes a single call of
`fitMiniBatch` on both rows: its loss `J = 5` and its weights are those of the batch of all
rows, where two batches of one row give the losses `1/2` and `729/200` and other
weights. -/
theorem fitEpoch_ignores_MiniBatchSize :
    (allocLayers true { linearRegressor with MiniBatchSize := 1 } 1 1 succSource 0).bind
        (fun a => (fitEpoch true id id id id descentUpdate noShuffle a.1 ⟨2, 1, [1, 2]⟩
          ⟨2, 1, [4, 8]⟩ 0 ()).map fun q => (q.1.MiniBatchSize, q.1.J, q.1.thetaSlice)) =
      some (1, 5, [6 / 5, 47 / 20]) ∧
    (allocLayers true { linearRegressor with MiniBatchSize := 1 } 1 1 succSource 0).bind
        (fun a => (fitMiniBatch true id id id id descentUpdate a.1 ⟨2, 1, [1, 2]⟩
          ⟨2, 1, [4, 8]⟩ 0).map fun q => (q.2, q.1.thetaSlice)) =
      some (5, [6 / 5, 47 / 20]) ∧
    (allocLayers true { linearRegressor with MiniBatchSize := 1 } 1 1 succSource 0).bind
        (fun a => (fitMiniBatch true id id id id descentUpdate a.1 ⟨1, 1, [1]⟩
          ⟨1, 1, [4]⟩ 0).bind fun q1 =>
            (fitMiniBatch true id id id id descentUpdate q1.1 ⟨1, 1, [2]⟩ ⟨1, 1, [8]⟩ 0).map
              fun q2 => (q1.2, q2.2, q2.1.thetaSlice)) =
      some (1 / 2, 729 / 200, [137 / 100, 66 / 25]) := by
  refine ⟨?_, ?_, ?_⟩ <;> decide!

/-- C14: after a `Fit` of one epoch `J` is the loss 5 of the first epoch while `JFirst`
still holds its initial value 7; after a `Fit` of two epochs `JFirst` is the loss
`369/160` of the second epoch, not the loss 5 of the first. -/
theorem JFirst_second_epoch :
    (Fit true id id id id 1000 descentUpdate noShuffle
        { linearRegressor with Epochs := 1, JFirst := 7 } ⟨2, 1, [1, 2]⟩ ⟨2, 1, [4, 8]⟩
        succSource 0 ()).map (fun q => (q.1.J, q.1.JFirst)) = some (5, 7) ∧
    (Fit true id id id id 1000 descentUpdate noShuffle
        { linearRegressor with Epochs := 2, JFirst := 7 } ⟨2, 1, [1, 2]⟩ ⟨2, 1, [4, 8]⟩
        succSource 0 ()).map (fun q => (q.1.J, q.1.JFirst)) = some (369 / 160, 369 / 160) := by
  refine ⟨?_, ?_⟩ <;> decide!

/-- C15: a network with one hidden layer, after a first pass that leaves the weights
`1, 2, 3, 4` unchanged.  A second pass on the same input returns the gradient `26, 41` for
the hidden layer when its scratch buffer `Hgrad` holds `1, 1`, and `130, 205` when it holds
`5, 5`: the hidden layer reads `Hgrad` before the pass has written it.  The first pass
itself, on fresh buffers, returns the gradient `0, 0` for the hidden layer. -/
theorem stale_Hgrad :
    (allocLayers true hiddenRegressor 1 1 succSource 0).bind (fun a =>
      (fitMiniBatch true id id id id zeroUpdate a.1 ⟨2, 1, [1, 2]⟩ ⟨2, 1, [4, 8]⟩ 0).bind
        fun p =>
          (fitMiniBatch true id id id id zeroUpdate (withHgrad p.1 [1, 1]) ⟨2, 1, [1, 2]⟩
            ⟨2, 1, [4, 8]⟩ 0).map fun q =>
            (p.1.thetaSlice, q.2, q.1.Layers.map (fun L => L.Grad.map fun G => G.data))) =
      some ([1, 2, 3, 4], 173, [some [26, 41], some [13, 54]]) ∧
    (allocLayers true hiddenRegressor 1 1 succSource 0).bind (fun a =>
      (fitMiniBatch true id id id id zeroUpdate a.1 ⟨2, 1, [1, 2]⟩ ⟨2, 1, [4, 8]⟩ 0).bind
        fun p =>
          (fitMiniBatch true id id id id zeroUpdate (withHgrad p.1 [5, 5]) ⟨2, 1, [1, 2]⟩
            ⟨2, 1, [4, 8]⟩ 0).map fun q =>
            (p.1.thetaSlice, q.2, q.1.Layers.map (fun L => L.Grad.map fun G => G.data))) =
      some ([1, 2, 3, 4], 173, [some [130, 205], some [13, 54]]) ∧
    (allocLayers true hiddenRegressor 1 1 succSource 0).bind (fun a =>
      (fitMiniBatch true id id id id zeroUpdate a.1 ⟨2, 1, [1, 2]⟩ ⟨2, 1, [4, 8]⟩ 0).map
        fun p =>
          (p.1.thetaSlice, p.2, p.1.Layers.map (fun L => L.Grad.map fun G => G.data))) =
      some ([1, 2, 3, 4], 173, [some [0, 0], some [13, 54]]) := by
  refine ⟨?_, ?_, ?_⟩ <;> decide!
/-! ## Regularization, clipping and output delta -/

/-- C18: with `Alpha = 1`, `L1Ratio = 1/2`, one sample and `Theta` of rows `7` (bias) and
`2`, the regularization block adds `0` to the bias entry of `Grad` and
`sgn 2 + 2 = 3` to the other entry, and `R = 2` to `J`.  The elastic-net blend of the claim
gives `1/2 * sgn 2 + 1/2 * 2 = 3/2` for that entry, and the same `2` for `J`. -/
theorem regularize_Grad_unweighted :
    backprop.regularize (α := ℚ) 1 (1 / 2) 1 ⟨2, 1, [7, 2]⟩ ⟨2, 1, [0, 0]⟩ =
      some (⟨2, 1, [0, 3]⟩, 2) ∧
    (1 / 1 : ℚ) * (1 / 2 * sgn 2 + (1 - 1 / 2) * 2) = 3 / 2 ∧
    (1 / 1 : ℚ) * (1 / 2 * |2| + (1 - 1 / 2) / 2 * (2 * 2)) = 2 := by
  refine ⟨?_, ?_, ?_⟩ <;> decide!

/-- The sum of the squares of the entries after a scaling by `k`. -/
theorem sum_sq_scale (k : ℝ) (l : List ℝ) :
    ((l.map fun x => k * x).map fun x => x * x).sum = k * k * (l.map fun x => x * x).sum := by
  induction l with
  | nil => simp
  | cons a t ih =>
    simp only [List.map_cons, List.sum_cons] at ih ⊢
    rw [ih]; ring

/-- C19: gradient clipping, with `math.Sqrt` the real square root.  When
`GradientClipping = c > 0` the clipped `Grad` has Frobenius norm at most `c`: it is
unchanged if its norm was at most `c`, otherwise it is the original multiplied by the
positive scalar `c / norm` and its norm is exactly `c`.  When `c ≤ 0` `Grad` is left as it
is. -/
theorem clip_spec (c : ℝ) (Grad : Dense ℝ) :
    (0 < c → ∃ G', backprop.clip Real.sqrt c Grad = some G' ∧
      mat.Norm2 Real.sqrt G' ≤ c ∧
      (mat.Norm2 Real.sqrt Grad ≤ c → G' = Grad) ∧
      (c < mat.Norm2 Real.sqrt Grad →
        0 < c / mat.Norm2 Real.sqrt Grad ∧
        G' = { Grad with data := Grad.data.map fun x => c / mat.Norm2 Real.sqrt Grad * x } ∧
        mat.Norm2 Real.sqrt G' = c)) ∧
    (c ≤ 0 → backprop.clip Real.sqrt c Grad = some Grad) := by
  constructor
  · intro hc
    by_cases hn : mat.Norm2 Real.sqrt Grad > c
    · have hpos : 0 < mat.Norm2 Real.sqrt Grad := lt_trans hc hn
      have hk : 0 < c / mat.Norm2 Real.sqrt Grad := div_pos hc hpos
      have hnorm : mat.Norm2 Real.sqrt
          { Grad with data := Grad.data.map fun x => c / mat.Norm2 Real.sqrt Grad * x } = c := by
        show Real.sqrt ((Grad.data.map fun x => c / mat.Norm2 Real.sqrt Grad * x).map
          fun x => x * x).sum = c
        rw [sum_sq_scale, Real.sqrt_mul (mul_self_nonneg _), Real.sqrt_mul_self (le_of_lt hk)]
        exact div_mul_cancel₀ c (ne_of_gt hpos)
      refine ⟨{ Grad with data := Grad.data.map fun x => c / mat.Norm2 Real.sqrt Grad * x },
        ?_, le_of_eq hnorm, fun hle => absurd hn (not_lt.mpr hle), fun _ => ⟨hk, rfl, hnorm⟩⟩
      simp only [backprop.clip, hc, hn, if_true, Dense.Scale, and_self]
    · refine ⟨Grad, ?_, not_lt.mp hn, fun _ => rfl, fun h => absurd h hn⟩
      simp only [backprop.clip, hc, hn, if_true, if_false]
  · intro hc
    have : ¬ c > 0 := not_lt.mpr hc
    simp only [backprop.clip, this, if_false]

/-- Witness of C19: clipping the gradient `3, 4` at `c = 1`. -/
theorem clip_spec_witness :
    ∃ G', backprop.clip Real.sqrt 1 ⟨1, 2, [3, 4]⟩ = some G' ∧ mat.Norm2 Real.sqrt G' ≤ 1 := by
  obtain ⟨G', h1, h2, -⟩ := (clip_spec 1 ⟨1, 2, [3, 4]⟩).1 (by norm_num)
  exact ⟨G', h1, h2⟩

/-- Entries of a matrix written by `map` from a matrix of its shape. -/
theorem At_map (G A : Dense α) (f : α → α) (i j : Nat) (h : α)
    (hg : G.rows = A.rows ∧ G.cols = A.cols) (hh : A.At i j = some h) :
    Dense.At { G with data := A.data.map f } i j = some (f h) := by
  rw [At_eq_some_iff] at hh ⊢
  obtain ⟨⟨hi, hj⟩, hh⟩ := hh
  refine ⟨⟨by simpa [hg.1] using hi, by simpa [hg.2] using hj⟩, ?_⟩
  simp only [hg.2]
  rw [List.getElem?_map, hh]
  rfl

section DeltaProofs
variable [LinearOrderedField α]

/-- The cross-entropy gradient closure times the logistic derivative closure. -/
theorem delta_identity (y h n : α) (h0 : 0 < h) (h1 : h < 1) :
    1 / n * crossEntropyLoss.Gfun y h * logisticActivation.gradFn h = (h - y) / n := by
  have hguard : crossEntropyLoss.guard (crossEntropyLoss.epsG : α) h = h := by
    simp [crossEntropyLoss.guard, not_le.mpr h0, not_le.mpr h1]
  have hne : h ≠ 0 := ne_of_gt h0
  have hne1 : 1 - h ≠ 0 := ne_of_gt (by linarith)
  have key : (-y / h + (1 - y) / (1 - h)) * (h * (1 - h)) = h - y := by
    field_simp
    ring
  simp only [crossEntropyLoss.Gfun, crossEntropyLoss.Gterm, hguard, logisticActivation.gradFn]
  rw [mul_assoc, key]
  ring

/-- C20: the block of `backprop` that computes the delta of the output layer.  With the
cross-entropy loss and the logistic activation the delta of an entry with target `y` and
prediction `0 < h < 1` is `(h - y) / n`, the same delta as with the square loss and the
identity activation; in closed form
`((-y / h + (1 - y) / (1 - h)) / n) * (h * (1 - h)) = (h - y) / n`. -/
theorem delta_crossEntropy_logistic (Log : α → α) (Ytrue Ypred Ydiff Z Hgrad : Dense α)
    (hs : Ytrue.rows = Ypred.rows ∧ Ytrue.cols = Ypred.cols)
    (hd : Ydiff.rows = Ytrue.rows ∧ Ydiff.cols = Ytrue.cols)
    (hh : Hgrad.rows = Ypred.rows ∧ Hgrad.cols = Ypred.cols) :
    (∃ J D H, backprop.delta Log "cross-entropy" "logistic" Ytrue Ypred Ydiff Z Hgrad =
        some (J, D, H) ∧
      ∀ i j y h, Ytrue.At i j = some y → Ypred.At i j = some h → 0 < h → h < 1 →
        D.At i j = some ((h - y) / (Ytrue.rows : α))) ∧
    (∃ J D H, backprop.delta Log "square" "identity" Ytrue Ypred Ydiff Z Hgrad =
        some (J, D, H) ∧
      ∀ i j y h, Ytrue.At i j = some y → Ypred.At i j = some h →
        D.At i j = some ((h - y) / (Ytrue.rows : α))) ∧
    (∀ y h n : α, 0 < h → h < 1 →
      (-y / h + (1 - y) / (1 - h)) / n * (h * (1 - h)) = (h - y) / n) := by
  have hdh : Ydiff.rows = Hgrad.rows ∧ Ydiff.cols = Hgrad.cols :=
    ⟨by rw [hd.1, hh.1, hs.1], by rw [hd.2, hh.2, hs.2]⟩
  have hdp : Ydiff.rows = Ypred.rows ∧ Ydiff.cols = Ypred.cols :=
    ⟨by rw [hd.1, hs.1], by rw [hd.2, hs.2]⟩
  refine ⟨?_, ?_, ?_⟩
  · refine ⟨(List.zipWith (crossEntropyLoss.Jfun Log) Ytrue.data Ypred.data).sum /
        ((Ytrue.Dims.1 : Nat) : α),
      Dense.mk Ydiff.rows Ydiff.cols (List.zipWith (fun x y => x * y)
        (List.zipWith (fun a b => 1 / ((Ytrue.Dims.1 : Nat) : α) * crossEntropyLoss.Gfun a b)
          Ytrue.data Ypred.data)
        (Ypred.data.map logisticActivation.gradFn)),
      Dense.mk Hgrad.rows Hgrad.cols (Ypred.data.map logisticActivation.gradFn), ?_, ?_⟩
    · have e1 : NewLoss "cross-entropy" = .ok .crossEntropyLoss := rfl
      have e2 : NewActivation "logistic" = .ok .logisticActivation := rfl
      simp only [backprop.delta, e1, e2, Except.toOption, LossFunctions.Loss,
        crossEntropyLoss.Loss, SumApplied2_of_shape _ _ _ hs,
        CopyScaledApplied2_of_shape _ _ _ _ _ hs hd, ActivationFunctions.Grad,
        logisticActivation.Grad, matx.CopyApplied, hh, Dense.MulElem, Dense.elementwise,
        hdh, Option.bind_eq_bind, Option.some_bind, Option.pure_def, and_self, if_true]
    · intro i j y h hy hhh h0 h1
      have a1 := At_zipWith Ydiff Ytrue Ypred
        (fun a b => 1 / ((Ytrue.Dims.1 : Nat) : α) * crossEntropyLoss.Gfun a b) i j y h hs hd
        hy hhh
      have a2 := At_map Hgrad Ypred logisticActivation.gradFn i j h hh hhh
      have a3 := At_zipWith
        (Dense.mk Ydiff.rows Ydiff.cols (List.zipWith
          (fun a b => 1 / ((Ytrue.Dims.1 : Nat) : α) * crossEntropyLoss.Gfun a b)
          Ytrue.data Ypred.data))
        (Dense.mk Ydiff.rows Ydiff.cols (List.zipWith
          (fun a b => 1 / ((Ytrue.Dims.1 : Nat) : α) * crossEntropyLoss.Gfun a b)
          Ytrue.data Ypred.data))
        (Dense.mk Hgrad.rows Hgrad.cols (Ypred.data.map logisticActivation.gradFn))
        (fun x y => x * y) i j _ _ hdh ⟨rfl, rfl⟩ a1 a2
      rw [a3]
      exact congrArg some (delta_identity y h _ h0 h1)
  · refine ⟨(List.zipWith squareLoss.Jfun Ytrue.data Ypred.data).sum,
      Dense.mk Ydiff.rows Ydiff.cols (List.zipWith (fun x y => x * y)
        (List.zipWith (fun a b => 1 / ((Ytrue.Dims.1 : Nat) : α) * squareLoss.Gfun a b)
          Ytrue.data Ypred.data)
        (Ypred.data.map identityActivation.gradFn)),
      Dense.mk Hgrad.rows Hgrad.cols (Ypred.data.map identityActivation.gradFn), ?_, ?_⟩
    · have e1 : NewLoss "square" = .ok .squareLoss := rfl
      have e2 : NewActivation "identity" = .ok .identityActivation := rfl
      simp only [backprop.delta, e1, e2, Except.toOption, LossFunctions.Loss,
        squareLoss.Loss, SumApplied2_of_shape _ _ _ hs,
        CopyScaledApplied2_of_shape _ _ _ _ _ hs hd, ActivationFunctions.Grad,
        identityActivation.Grad, matx.CopyApplied, hh, Dense.MulElem, Dense.elementwise,
        hdh, Option.bind_eq_bind, Option.some_bind, Option.pure_def, and_self, if_true]
    · intro i j y h hy hhh
      have a1 := At_zipWith Ydiff Ytrue Ypred
        (fun a b => 1 / ((Ytrue.Dims.1 : Nat) : α) * squareLoss.Gfun a b) i j y h hs hd
        hy hhh
      have a2 := At_map Hgrad Ypred identityActivation.gradFn i j h hh hhh
      have a3 := At_zipWith
        (Dense.mk Ydiff.rows Ydiff.cols (List.zipWith
          (fun a b => 1 / ((Ytrue.Dims.1 : Nat) : α) * squareLoss.Gfun a b)
          Ytrue.data Ypred.data))
        (Dense.mk Ydiff.rows Ydiff.cols (List.zipWith
          (fun a b => 1 / ((Ytrue.Dims.1 : Nat) : α) * squareLoss.Gfun a b)
          Ytrue.data Ypred.data))
        (Dense.mk Hgrad.rows Hgrad.cols (Ypred.data.map identityActivation.gradFn))
        (fun x y => x * y) i j _ _ hdh ⟨rfl, rfl⟩ a1 a2
      rw [a3]
      refine congrArg some ?_
      show 1 / (Ytrue.rows : α) * (h - y) * 1 = (h - y) / (Ytrue.rows : α)
      ring
  · intro y h n h0 h1
    have hne : h ≠ 0 := ne_of_gt h0
    have hne1 : 1 - h ≠ 0 := ne_of_gt (by linarith)
    have key : (-y / h + (1 - y) / (1 - h)) * (h * (1 - h)) = h - y := by
      field_simp
      ring
    rw [div_mul_eq_mul_div, key]

/-- Witness of C20 on two rows: the delta of the entry with `y = 1`, `h = 1/4`. -/
theorem delta_crossEntropy_logistic_witness :
    ∃ J D H, backprop.delta (α := ℚ) id "cross-entropy" "logistic" ⟨2, 1, [0, 1]⟩
        ⟨2, 1, [1 / 2, 1 / 4]⟩ ⟨2, 1, [7, 7]⟩ ⟨2, 1, [9, 9]⟩ ⟨2, 1, [5, 5]⟩ = some (J, D, H) ∧
      D.At 1 0 = some ((1 / 4 - 1) / 2) := by
  obtain ⟨J, D, H, h1, h2⟩ := (delta_crossEntropy_logistic (α := ℚ) id ⟨2, 1, [0, 1]⟩
    ⟨2, 1, [1 / 2, 1 / 4]⟩ ⟨2, 1, [7, 7]⟩ ⟨2, 1, [9, 9]⟩ ⟨2, 1, [5, 5]⟩ ⟨rfl, rfl⟩ ⟨rfl, rfl⟩
    ⟨rfl, rfl⟩).1
  refine ⟨J, D, H, h1, ?_⟩
  simpa using h2 1 0 1 (1 / 4) (by decide!) (by decide!) (by norm_num) (by norm_num)

end DeltaProofs
/-! ## The test of the Bayesian ridge regressor -/

section BayesTestProofs
variable [LinearOrderedField α]

/-- The value that `TestBayesianRidge` compares the prediction with: at the held-out point
`(7, 8, 9)` the closure `f` gives `1 + 2*7 + 3*8 + 4*9 = 75`; a model with the exact
coefficients predicts 75, which is not within 0.1 of 74, and a prediction of 74 makes the
test fail. -/
theorem TestBayesianRidge_true_value :
    TestBayesianRidge.f (α := ℚ) TestBayesianRidge.Xp = some 75 ∧
    BayesianRidge.Predict (α := ℚ) [2, 3, 4] 1 TestBayesianRidge.Xp = 75 ∧
    ¬ (|BayesianRidge.Predict (α := ℚ) [2, 3, 4] 1 TestBayesianRidge.Xp - 74| ≤ 1 / 10) ∧
    TestBayesianRidge (α := ℚ) (fun _ => 74) = some true := by
  refine ⟨?_, ?_, ?_, ?_⟩ <;> decide!

/-- The check of the test compares the prediction with 75. -/
theorem check_eq (Yp0 : α) :
    TestBayesianRidge.check Yp0 = some (decide (|Yp0 - 75| > 1 / 10)) := by
  have hf : TestBayesianRidge.f (α := α) TestBayesianRidge.Xp = some 75 := by
    simp only [TestBayesianRidge.f, TestBayesianRidge.Xp, List.getElem?_cons_zero,
      List.getElem?_cons_succ, Option.bind_eq_bind, Option.some_bind, Option.pure_def]
    norm_num
  simp only [TestBayesianRidge.check, hf, Option.map_some', TestBayesianRidge.eps]

end BayesTestProofs
end neuralNetwork
